import Mathlib

set_option maxRecDepth 10000
set_option maxHeartbeats 1000000

/-!
Verification development for the md-feedback round-trip document model.

Strings of the TypeScript source are modelled as lists of characters
(code points; all inputs considered here are surrogate-free, where
JavaScript UTF-16 code units coincide with code points).
-/

abbrev Str := List Char

def chars (s : String) : Str := s.data

/-- JavaScript whitespace class, as matched by the regex class \s and by
String.prototype.trim (WhiteSpace plus LineTerminator code points). -/
def isJsWs (c : Char) : Bool :=
  c = ' ' || c = '\t' || c = '\n' || c = '\x0d' || c = '\x0b' || c = '\x0c' ||
  c = ' ' || c = ' ' || c = ' ' || c = ' ' || c = ' ' ||
  c = ' ' || c = ' ' || c = ' ' || c = ' ' || c = ' ' ||
  c = ' ' || c = ' ' || c = ' ' || c = ' ' || c = ' ' ||
  c = ' ' || c = ' ' || c = '　' || c = '﻿'

/-- Characters matched by the regex metacharacter `.` (anything except
line terminators). -/
def isDotChar (c : Char) : Bool :=
  !(c = '\n' || c = '\x0d' || c = ' ' || c = ' ')

/-- JavaScript String.prototype.trim. -/
def jsTrim (s : Str) : Str :=
  ((s.dropWhile isJsWs).reverse.dropWhile isJsWs).reverse

/-- JavaScript String.prototype.trimEnd. -/
def jsTrimEnd (s : Str) : Str :=
  (s.reverse.dropWhile isJsWs).reverse

/-- JavaScript s.split('\n'). -/
def splitNl : Str → List Str
  | [] => [[]]
  | c :: cs =>
    match splitNl cs with
    | [] => [[c]]
    | r :: rs => if c = '\n' then [] :: r :: rs else (c :: r) :: rs

/-- JavaScript array.join(sep). -/
def joinSep (sep : Str) : List Str → Str
  | [] => []
  | [x] => x
  | x :: y :: rest => x ++ sep ++ joinSep sep (y :: rest)

/-- JavaScript array.join('\n'). -/
def joinNl (l : List Str) : Str := joinSep (chars ("\n")) l

theorem splitNl_ne_nil (s : Str) : splitNl s ≠ [] := by
  cases s with
  | nil => simp [splitNl]
  | cons c cs =>
    simp only [splitNl]
    cases h : splitNl cs with
    | nil => simp
    | cons r rs => by_cases hc : c = '\n' <;> simp [hc]

theorem splitNl_append_cons (a : Str) (rest : Str) (ha : '\n' ∉ a) :
    splitNl (a ++ '\n' :: rest) = a :: splitNl rest := by
  induction a with
  | nil =>
    simp only [List.nil_append, splitNl]
    cases h : splitNl rest with
    | nil => exact absurd h (splitNl_ne_nil rest)
    | cons r rs => simp
  | cons c cs ih =>
    have hc : c ≠ '\n' := by intro h; exact ha (h ▸ List.mem_cons_self c cs)
    have ha' : '\n' ∉ cs := fun h => ha (List.mem_cons_of_mem c h)
    simp only [List.cons_append, splitNl, List.append_eq]
    rw [ih ha']
    cases h : splitNl rest with
    | nil => exact absurd h (splitNl_ne_nil rest)
    | cons r rs => simp [hc]

theorem splitNl_no_nl (s : Str) (hs : '\n' ∉ s) : splitNl s = [s] := by
  induction s with
  | nil => simp [splitNl]
  | cons c cs ih =>
    have hc : c ≠ '\n' := by intro h; exact hs (h ▸ List.mem_cons_self c cs)
    have hs' : '\n' ∉ cs := fun h => hs (List.mem_cons_of_mem c h)
    simp only [splitNl, ih hs']
    simp [hc]

theorem splitNl_joinNl (l : List Str) (hl : l ≠ [])
    (hnl : ∀ s ∈ l, '\n' ∉ s) : splitNl (joinNl l) = l := by
  induction l with
  | nil => exact absurd rfl hl
  | cons a rest ih =>
    cases rest with
    | nil =>
      simp only [joinNl, joinSep]
      exact splitNl_no_nl a (hnl a (List.mem_cons_self a []))
    | cons b rs =>
      have ha : '\n' ∉ a := hnl a (List.mem_cons_self _ _)
      have hrest : ∀ s ∈ b :: rs, '\n' ∉ s := fun s hs => hnl s (List.mem_cons_of_mem a hs)
      have : joinNl (a :: b :: rs) = a ++ '\n' :: joinNl (b :: rs) := by
        simp [joinNl, joinSep, chars]
      rw [this, splitNl_append_cons a _ ha, ih (by simp) hrest]

theorem joinNl_cons₂ (x y : Str) (t : List Str) :
    joinNl (x :: y :: t) = x ++ '\n' :: joinNl (y :: t) := by
  simp [joinNl, joinSep, chars]

theorem joinNl_append (a b : List Str) (ha : a ≠ []) (hb : b ≠ []) :
    joinNl (a ++ b) = joinNl a ++ '\n' :: joinNl b := by
  induction a with
  | nil => exact absurd rfl ha
  | cons x xs ih =>
    cases xs with
    | nil =>
      cases b with
      | nil => exact absurd rfl hb
      | cons y ys => simp [joinNl, joinSep, chars]
    | cons z zs =>
      have e1 : (x :: z :: zs) ++ b = x :: z :: (zs ++ b) := rfl
      rw [e1, joinNl_cons₂]
      have e2 : (z :: (zs ++ b)) = (z :: zs) ++ b := rfl
      rw [e2, ih (by simp), joinNl_cons₂]
      simp

/-- JavaScript s.startsWith(p). -/
def strStarts : Str → Str → Bool
  | _, [] => true
  | [], _ :: _ => false
  | c :: cs, p :: ps => c = p && strStarts cs ps

/-- Drop a literal prefix, returning the remainder when the prefix is present. -/
def dropLit : Str → Str → Option Str
  | s, [] => some s
  | [], _ :: _ => none
  | c :: cs, p :: ps => if c = p then dropLit cs ps else none

theorem dropLit_append (p s : Str) : dropLit (p ++ s) p = some s := by
  induction p with
  | nil => simp [dropLit]
  | cons c cs ih => simp [dropLit, ih]

/-- JavaScript s.endsWith(p): when it holds, return the front part. -/
def dropSuffixLit (s p : Str) : Option Str :=
  if strStarts s.reverse p.reverse then some ((s.reverse.drop p.length).reverse) else none

/-- JavaScript s.includes(sub) on character lists. -/
def strIncludes : Str → Str → Bool
  | s, p => if strStarts s p then true else
    match s with
    | [] => false
    | _ :: cs => strIncludes cs p

/-- JavaScript s.split(sep) for a single-character separator. -/
def splitOnChar (sep : Char) : Str → List Str
  | [] => [[]]
  | c :: cs =>
    match splitOnChar sep cs with
    | [] => [[c]]
    | r :: rs => if c = sep then [] :: r :: rs else (c :: r) :: rs

theorem dropLit_length (p : Str) : ∀ (s rest : Str), dropLit s p = some rest →
    rest.length + p.length = s.length := by
  induction p with
  | nil => intro s rest h; simp [dropLit] at h; simp [h]
  | cons q qs ih =>
    intro s rest h
    cases s with
    | nil => simp [dropLit] at h
    | cons d ds =>
      simp only [dropLit] at h
      split at h
      · have := ih ds rest h; simp; omega
      · exact absurd h (by simp)

/-- Fuel-driven body of replaceAllLit; for a non-empty pattern every step
shortens the string, so fuel equal to the length is always sufficient and
the function agrees with the unbounded recursion. -/
def replaceAllLitF (pat rep : Str) : Nat → Str → Str
  | 0, s => s
  | fuel + 1, s =>
    match s with
    | [] => []
    | c :: cs =>
      match dropLit (c :: cs) pat with
      | some rest => rep ++ replaceAllLitF pat rep fuel rest
      | none => c :: replaceAllLitF pat rep fuel cs

/-- JavaScript s.replace(pat, rep) with the global flag: leftmost,
non-overlapping occurrences of a literal (non-empty) pattern. -/
def replaceAllLit (pat rep : Str) (s : Str) : Str := replaceAllLitF pat rep s.length s

/-- Digit character for values 0..15 (as produced by Number.prototype.toString
with base 10 or 16). -/
def digitCh (n : Nat) : Char :=
  if n < 10 then Char.ofNat (48 + n) else Char.ofNat (87 + n)

/-- Fuel-driven decimal printer (fuel above the value is always enough). -/
def natDecAux : Nat → Nat → Str
  | 0, _ => []
  | fuel + 1, n => if n < 10 then [digitCh n] else natDecAux fuel (n / 10) ++ [digitCh (n % 10)]

/-- Decimal representation of a natural number, as JavaScript number-to-string
conversion produces for integers. -/
def natDec (n : Nat) : Str := natDecAux (n + 1) n

/-- Fuel-driven hexadecimal printer. -/
def natHexAux : Nat → Nat → Str
  | 0, _ => []
  | fuel + 1, n => if n < 16 then [digitCh n] else natHexAux fuel (n / 16) ++ [digitCh (n % 16)]

/-- Hexadecimal representation (lowercase), as produced by toString(16). -/
def natHex (n : Nat) : Str := natHexAux (n + 1) n

theorem natDecAux_congr : ∀ (f1 f2 n : Nat), n < f1 → n < f2 →
    natDecAux f1 n = natDecAux f2 n := by
  intro f1
  induction f1 with
  | zero => intro f2 n h1; omega
  | succ f ih =>
    intro f2 n h1 h2
    cases f2 with
    | zero => omega
    | succ g =>
      simp only [natDecAux]
      by_cases hn : n < 10
      · simp [hn]
      · rw [if_neg hn, if_neg hn]
        have hd : n / 10 < n := Nat.div_lt_self (by omega) (by omega)
        rw [ih g (n / 10) (by omega) (by omega)]

def isDigitCh (c : Char) : Bool := 48 ≤ c.toNat && c.toNat ≤ 57

/-- Numeric value of a digit string (the exact value of parseInt(s, 10) on an
all-digit string; faithful to the source for the in-range values admitted by
the validity predicates below). -/
def digitsVal (s : Str) : Nat := s.foldl (fun a c => a * 10 + (c.toNat - 48)) 0

/-- Greedy \d+ capture: at least one digit, maximal run. -/
def takeDigits1 (s : Str) : Option (Str × Str) :=
  let ds := s.takeWhile isDigitCh
  if ds = [] then none else some (ds, s.dropWhile isDigitCh)

theorem digitsVal_append_digit (a : Str) (c : Char) :
    digitsVal (a ++ [c]) = digitsVal a * 10 + (c.toNat - 48) := by
  simp [digitsVal, List.foldl_append]

theorem digitCh_lt10_toNat (n : Nat) (h : n < 10) : (digitCh n).toNat = 48 + n := by
  interval_cases n <;> decide

theorem digitsVal_natDecAux : ∀ (fuel n : Nat), n < fuel →
    digitsVal (natDecAux fuel n) = n := by
  intro fuel
  induction fuel with
  | zero => intro n h; omega
  | succ f ih =>
    intro n h
    simp only [natDecAux]
    by_cases hn : n < 10
    · rw [if_pos hn]
      simp [digitsVal, digitCh_lt10_toNat n hn]
    · rw [if_neg hn, digitsVal_append_digit]
      have hd : n / 10 < n := Nat.div_lt_self (by omega) (by omega)
      rw [ih (n / 10) (by omega)]
      rw [digitCh_lt10_toNat (n % 10) (Nat.mod_lt _ (by omega))]
      omega

theorem digitsVal_natDec (n : Nat) : digitsVal (natDec n) = n :=
  digitsVal_natDecAux (n + 1) n (by omega)

/-! ## Hash utility (document-writer.ts: hashLine, djb2) -/

/-- One djb2 step: ((hash << 5) + hash + charCode) >>> 0, which for
0 ≤ hash < 2^32 equals (33 * hash + code) mod 2^32. -/
def hashStep (h : Nat) (c : Char) : Nat := (33 * h + c.toNat) % 4294967296

/-- Pad a hex string on the left with '0' to 8 characters; the source also
slices to 8, a no-op for 32-bit values. -/
def padHex8 (s : Str) : Str := List.replicate (8 - s.length) '0' ++ s

/-- document-writer.ts hashLine: djb2 over the char codes, rendered as
8 lowercase hex characters. -/
def hashLine (line : Str) : Str := padHex8 (natHex (line.foldl hashStep 5381))

/-- document-writer.ts generateBodyHash. -/
def generateBodyHash (body : Str) : Str := hashLine body

/-! ## Data model (types.ts) -/

structure MemoV2 where
  id : Str
  type : Str
  status : Str
  owner : Str
  source : Str
  color : Str
  text : Str
  anchorText : Str
  anchor : Str
  createdAt : Str
  updatedAt : Str
deriving DecidableEq

structure Gate where
  id : Str
  type : Str
  status : Str
  blockedBy : List Str
  canProceedIf : Str
  doneDefinition : Str
deriving DecidableEq

structure PlanCursor where
  taskId : Str
  step : Str
  nextAction : Str
  lastSeenHash : Str
  updatedAt : Str
deriving DecidableEq

structure Checkpoint where
  id : Str
  timestamp : Str
  note : Str
  fixes : Nat
  questions : Nat
  highlights : Nat
  sectionsReviewed : List Str
deriving DecidableEq

structure DocumentParts where
  frontmatter : Str
  body : Str
  memos : List MemoV2
  checkpoints : List Checkpoint
  gates : List Gate
  cursor : Option PlanCursor
  unknownComments : List Str
deriving DecidableEq

/-- types.ts colorToType. -/
def colorToType (color : Str) : Str :=
  if color = chars ("red") then chars ("fix")
  else if color = chars ("blue") then chars ("question")
  else chars ("highlight")

/-! ## Serializers (document-writer.ts) -/

/-- The esc helper: s.replace(/"/g, '&quot;'). -/
def escQuot (s : Str) : Str :=
  s.flatMap (fun c => if c = '"' then chars ("&quot;") else [c])

/-- The individual lines of the serialized v0.4 memo block. -/
def memoBlockLines (m : MemoV2) : List Str :=
  [ chars ("<!-- USER_MEMO"),
    chars ("  id=\"") ++ escQuot m.id ++ [ '"' ],
    chars ("  type=\"") ++ m.type ++ [ '"' ],
    chars ("  status=\"") ++ m.status ++ [ '"' ],
    chars ("  owner=\"") ++ m.owner ++ [ '"' ],
    chars ("  source=\"") ++ escQuot m.source ++ [ '"' ],
    chars ("  color=\"") ++ m.color ++ [ '"' ],
    chars ("  text=\"") ++ escQuot m.text ++ [ '"' ],
    chars ("  anchorText=\"") ++ escQuot m.anchorText ++ [ '"' ],
    chars ("  anchor=\"") ++ escQuot m.anchor ++ [ '"' ],
    chars ("  createdAt=\"") ++ m.createdAt ++ [ '"' ],
    chars ("  updatedAt=\"") ++ m.updatedAt ++ [ '"' ],
    chars ("-->") ]

/-- document-writer.ts serializeMemoV2 (the listed lines joined with '\n'). -/
def serializeMemoV2 (m : MemoV2) : Str := joinNl (memoBlockLines m)

/-- The individual lines of the serialized gate block. -/
def gateBlockLines (g : Gate) : List Str :=
  [ chars ("<!-- GATE"),
    chars ("  id=\"") ++ g.id ++ [ '"' ],
    chars ("  type=\"") ++ g.type ++ [ '"' ],
    chars ("  status=\"") ++ g.status ++ [ '"' ],
    chars ("  blockedBy=\"") ++ joinSep (chars (",")) g.blockedBy ++ [ '"' ],
    chars ("  canProceedIf=\"") ++ escQuot g.canProceedIf ++ [ '"' ],
    chars ("  doneDefinition=\"") ++ escQuot g.doneDefinition ++ [ '"' ],
    chars ("-->") ]

/-- document-writer.ts serializeGate. -/
def serializeGate (g : Gate) : Str := joinNl (gateBlockLines g)

/-- The individual lines of the serialized cursor block. -/
def cursorBlockLines (c : PlanCursor) : List Str :=
  [ chars ("<!-- PLAN_CURSOR"),
    chars ("  taskId=\"") ++ c.taskId ++ [ '"' ],
    chars ("  step=\"") ++ c.step ++ [ '"' ],
    chars ("  nextAction=\"") ++ escQuot c.nextAction ++ [ '"' ],
    chars ("  lastSeenHash=\"") ++ c.lastSeenHash ++ [ '"' ],
    chars ("  updatedAt=\"") ++ c.updatedAt ++ [ '"' ],
    chars ("-->") ]

/-- document-writer.ts serializeCursor. -/
def serializeCursor (c : PlanCursor) : Str := joinNl (cursorBlockLines c)

/-- document-writer.ts serializeCheckpoint (a single line). -/
def serializeCheckpoint (cp : Checkpoint) : Str :=
  chars ("<!-- CHECKPOINT id=\"") ++ cp.id ++
  chars ("\" time=\"") ++ cp.timestamp ++
  chars ("\" note=\"") ++ escQuot cp.note ++
  chars ("\" fixes=") ++ natDec cp.fixes ++
  chars (" questions=") ++ natDec cp.questions ++
  chars (" highlights=") ++ natDec cp.highlights ++
  chars (" sections=\"") ++ joinSep (chars (",")) cp.sectionsReviewed ++
  chars ("\" -->")

/-! ## Hand-compiled regex matchers (document-writer.ts patterns)

Each matcher below is a deterministic parser equivalent to the source regex
on its input line.  Greedy/lazy sub-pattern behaviour is compiled away:
for these patterns backtracking never produces a different accepted parse,
as each quantified class is followed by a character it cannot match. -/

def isWordChar (c : Char) : Bool :=
  (48 ≤ c.toNat && c.toNat ≤ 57) || (65 ≤ c.toNat && c.toNat ≤ 90) ||
  (97 ≤ c.toNat && c.toNat ≤ 122) || c = '_'

/-- Regex \s+ followed by a non-whitespace literal: at least one whitespace
character, maximal munch. -/
def takeWs1 (s : Str) : Option Str :=
  match s with
  | c :: cs => if isJsWs c then some (cs.dropWhile isJsWs) else none
  | [] => none

/-- Regex ([^"]*)" : capture up to the closing quote (which must exist). -/
def takeNonQuote0 (s : Str) : Option (Str × Str) :=
  let v := s.takeWhile (fun c => c ≠ '"')
  match s.dropWhile (fun c => c ≠ '"') with
  | '"' :: rest => some (v, rest)
  | _ => none

/-- Regex ([^"]+)" : like takeNonQuote0 but the capture is nonempty. -/
def takeNonQuote1 (s : Str) : Option (Str × Str) :=
  match takeNonQuote0 s with
  | some (v, rest) => if v = [] then none else some (v, rest)
  | none => none

/-- An optional attribute group (?:\s+key="([^"]+)")? — committed choice:
when the group locally matches, the skip alternative can never succeed
because the following mandatory pattern starts with a different character. -/
def optAttrGroup (lit : Str) (s : Str) : Option Str × Str :=
  match takeWs1 s with
  | none => (none, s)
  | some r1 =>
    match dropLit r1 lit with
    | none => (none, s)
    | some r2 =>
      match takeNonQuote1 r2 with
      | none => (none, s)
      | some (v, r3) => (some v, r3)

/-- Tail \s*:\s*(.*?)\s*-->$ of the v0.3 memo regex: the first non-blank
character must be the colon, the line must end in the arrow, and the lazy
capture is the enclosed text trimmed on both sides (which must contain no
line terminators, as the dot does not match them). -/
def v3Tail (s : Str) : Option Str :=
  match s.dropWhile isJsWs with
  | ':' :: s2 =>
    match dropSuffixLit s2 (chars ("-->")) with
    | some core =>
      let text := jsTrim core
      if text.all isDotChar then some text else none
    | none => none
  | _ => none

/-- MEMO_V3_RE — the full single-line v0.3 memo pattern, returning
(id, color group, status group, text). -/
def memoV3Match (t : Str) : Option (Str × Option Str × Option Str × Str) :=
  match dropLit t (chars ("<!-- USER_MEMO")) with
  | none => none
  | some r1 =>
    match takeWs1 r1 with
    | none => none
    | some r2 =>
      match dropLit r2 (chars ("id=\"")) with
      | none => none
      | some r3 =>
        match takeNonQuote1 r3 with
        | none => none
        | some (idv, r4) =>
          let c5 := optAttrGroup (chars ("color=\"")) r4
          let s6 := optAttrGroup (chars ("status=\"")) c5.2
          match v3Tail s6.2 with
          | some text => some (idv, c5.1, s6.1, text)
          | none => none

/-- Block-opening patterns of the form ^<!-- TAG\s*$ applied to a trimmed
line (MEMO_V4_START_RE, GATE_START_RE, CURSOR_START_RE). -/
def tagStartMatch (lit : Str) (t : Str) : Bool :=
  match dropLit t lit with
  | some r => r.all isJsWs
  | none => false

/-- CHECKPOINT_RE — the full single-line checkpoint pattern. -/
def checkpointMatch (t : Str) : Option Checkpoint :=
  match dropLit t (chars ("<!-- CHECKPOINT")) with
  | none => none
  | some r0 =>
  match takeWs1 r0 with
  | none => none
  | some r1 =>
  match dropLit r1 (chars ("id=\"")) with
  | none => none
  | some r2 =>
  match takeNonQuote1 r2 with
  | none => none
  | some (idv, r3) =>
  match takeWs1 r3 with
  | none => none
  | some r4 =>
  match dropLit r4 (chars ("time=\"")) with
  | none => none
  | some r5 =>
  match takeNonQuote1 r5 with
  | none => none
  | some (timev, r6) =>
  match takeWs1 r6 with
  | none => none
  | some r7 =>
  match dropLit r7 (chars ("note=\"")) with
  | none => none
  | some r8 =>
  match takeNonQuote0 r8 with
  | none => none
  | some (notev, r9) =>
  match takeWs1 r9 with
  | none => none
  | some r10 =>
  match dropLit r10 (chars ("fixes=")) with
  | none => none
  | some r11 =>
  match takeDigits1 r11 with
  | none => none
  | some (fx, r12) =>
  match takeWs1 r12 with
  | none => none
  | some r13 =>
  match dropLit r13 (chars ("questions=")) with
  | none => none
  | some r14 =>
  match takeDigits1 r14 with
  | none => none
  | some (qs, r15) =>
  match takeWs1 r15 with
  | none => none
  | some r16 =>
  match dropLit r16 (chars ("highlights=")) with
  | none => none
  | some r17 =>
  match takeDigits1 r17 with
  | none => none
  | some (hl, r18) =>
  match takeWs1 r18 with
  | none => none
  | some r19 =>
  match dropLit r19 (chars ("sections=\"")) with
  | none => none
  | some r20 =>
  match takeNonQuote0 r20 with
  | none => none
  | some (secv, r21) =>
  if r21 = chars (" -->") then
    some { id := idv, timestamp := timev, note := notev,
           fixes := digitsVal fx, questions := digitsVal qs,
           highlights := digitsVal hl,
           sectionsReviewed := if secv = [] then [] else splitOnChar ',' secv }
  else none

/-- LEGACY_MEMO_START_RE — returns (id, color group, date group). -/
def legacyStartMatch (t : Str) : Option (Str × Option Str × Option Str) :=
  match dropLit t (chars ("<!-- @memo")) with
  | none => none
  | some r0 =>
  match takeWs1 r0 with
  | none => none
  | some r1 =>
  match dropLit r1 (chars ("id=\"")) with
  | none => none
  | some r2 =>
  match takeNonQuote1 r2 with
  | none => none
  | some (idv, r3) =>
  let c4 := optAttrGroup (chars ("color=\"")) r3
  let d5 := optAttrGroup (chars ("date=\"")) c4.2
  if d5.2.dropWhile isJsWs = chars ("-->") then some (idv, c4.1, d5.1) else none

/-- Word-boundary \b when the previous character is a word character:
the next character must not be one (or the string ends). -/
def boundaryOk (r : Str) : Bool :=
  match r with
  | [] => true
  | c :: _ => !isWordChar c

/-- Regex tail .*-->$ : the remainder ends in the arrow and everything
before it is dot-matchable. -/
def dotsArrowTail (r : Str) : Bool :=
  match dropSuffixLit r (chars ("-->")) with
  | some front => front.all isDotChar
  | none => false

/-- FEEDBACK_NOTES_RE. -/
def feedbackNotesMatch (t : Str) : Bool :=
  match dropLit t (chars ("<!-- ")) with
  | none => false
  | some r =>
    [chars ("/USER_FEEDBACK_NOTES"), chars ("USER_FEEDBACK_NOTES"),
     chars ("/@feedback-notes"), chars ("@feedback-notes"),
     chars ("/@/feedback-notes"), chars ("@/feedback-notes")].any (fun p =>
      match dropLit r p with
      | some r2 => boundaryOk r2 && dotsArrowTail r2
      | none => false)

/-- The attribute-line pattern ^(\w+)="([^"]*)"$ applied to the trimmed line
(parseAttrs in document-writer.ts). -/
def attrLineMatch (l : Str) : Option (Str × Str) :=
  let t := jsTrim l
  let key := t.takeWhile isWordChar
  if key = [] then none else
  match dropLit (t.dropWhile isWordChar) (chars ("=\"")) with
  | none => none
  | some rest =>
    match takeNonQuote0 rest with
    | some (v, r3) => if r3 = [] then some (key, v) else none
    | none => none

/-- parseAttrs: later occurrences of a key overwrite earlier ones, so the
record is modelled as the ordered list of matches with a last-wins lookup. -/
def parseAttrs (lines : List Str) : List (Str × Str) :=
  lines.filterMap attrLineMatch

def getAttr (attrs : List (Str × Str)) (k : Str) : Option Str :=
  (attrs.reverse.find? (fun p => p.1 == k)).map (fun p => p.2)

/-- JavaScript a || d for a string a that may be absent or empty. -/
def jsOr (v : Option Str) (d : Str) : Str :=
  match v with
  | some s => if s = [] then d else s
  | none => d

/-- The anchor pattern ^L(\d+)(?::L\d+)?\|(.+)$ of findMemoAnchorLine. -/
def anchorMatch (a : Str) : Option (Nat × Str) :=
  if a.head? = some 'L' then
    match takeDigits1 a.tail with
    | none => none
    | some (ds, r2) =>
      let afterRange : Option Str :=
        if r2.head? = some ':' then
          match dropLit r2 (chars (":L")) with
          | some r2' =>
            match takeDigits1 r2' with
            | some (_, r4) => some r4
            | none => none
          | none => none
        else some r2
      match afterRange with
      | none => none
      | some r5 =>
        if r5.head? = some '|' then
          (if r5.tail ≠ [] && r5.tail.all isDotChar
           then some (digitsVal ds, r5.tail) else none)
        else none
  else none

/-! ## Splitter (document-writer.ts splitDocument) -/

/-- findAnchorAbove: nearest non-blank accumulated body line, trimmed. -/
def findAnchorAbove (bodyLines : List Str) : Option Str :=
  (bodyLines.reverse.find? (fun l => !(jsTrim l).isEmpty)).map jsTrim

/-- findAnchorLineIdx: index (from the start) of that nearest non-blank line;
the source returns -1 when there is none, modelled as none. -/
def findAnchorLineIdx (bodyLines : List Str) : Option Nat :=
  (bodyLines.reverse.findIdx? (fun l => !(jsTrim l).isEmpty)).map
    (fun k => bodyLines.length - 1 - k)

/-- The in-range-and-hash-matches test used by findMemoAnchorLine
(d >= 0 && d < lines.length && hashLine(lines[d]) === expectedHash). -/
def hashAt (lines : List Str) (d : Int) (expected : Str) : Bool :=
  0 ≤ d && d < (lines.length : Int) && hashLine (lines.getD d.toNat []) == expected

/-- The probe distances 1..10 of the nearby search. -/
def probeDeltas : List Nat := (List.range 10).map (fun k => k + 1)

/-- document-writer.ts findMemoAnchorLine (source returns -1 for no match,
modelled as none). -/
def findMemoAnchorLine (lines : List Str) (memo : MemoV2) : Option Nat :=
  let viaHash : Option Nat :=
    if memo.anchor.isEmpty then none else
    match anchorMatch memo.anchor with
    | none => none
    | some (n, expectedHash) =>
      let lineNum : Int := (n : Int) - 1
      if hashAt lines lineNum expectedHash then some lineNum.toNat
      else
        probeDeltas.findSome? (fun (delta : Nat) =>
          [lineNum - (delta : Int), lineNum + (delta : Int)].findSome? (fun d =>
            if hashAt lines d expectedHash then some d.toNat else none))
  match viaHash with
  | some i => some i
  | none =>
    if memo.anchorText.isEmpty then none else
    let needle := jsTrim memo.anchorText
    lines.findIdx? (fun l => strIncludes l needle)

/-- Accumulator of the splitDocument scanning loop. -/
structure SplitAcc where
  bodyLines : List Str
  memos : List MemoV2
  checkpoints : List Checkpoint
  gates : List Gate
  cursor : Option PlanCursor
deriving DecidableEq

def emptyAcc : SplitAcc := ⟨[], [], [], [], none⟩

/-- Block consumption: the while-loop that pushes lines until the marker
predicate holds, then skips the marker line. -/
def takeToMarker (p : Str → Bool) : List Str → (List Str × List Str)
  | [] => ([], [])
  | l :: ls => if p l then ([], ls) else
    match takeToMarker p ls with
    | (a, b) => (l :: a, b)

theorem takeToMarker_length (p : Str → Bool) (ls : List Str) :
    (takeToMarker p ls).2.length ≤ ls.length := by
  induction ls with
  | nil => simp [takeToMarker]
  | cons l ls ih =>
    simp only [takeToMarker]
    split
    · simp
    · simp only []
      calc (takeToMarker p ls).2.length ≤ ls.length := ih
        _ ≤ (l :: ls).length := by simp

/-- The banner loop: advance while the line does not contain the arrow, then
skip one more line. -/
def dropThrough (p : Str → Bool) : List Str → List Str
  | [] => []
  | l :: ls => if p l then ls else dropThrough p ls

theorem dropThrough_length (p : Str → Bool) (ls : List Str) :
    (dropThrough p ls).length ≤ ls.length := by
  induction ls with
  | nil => simp [dropThrough]
  | cons l ls ih =>
    simp only [dropThrough]
    split
    · simp
    · calc (dropThrough p ls).length ≤ ls.length := ih
        _ ≤ (l :: ls).length := by simp

/-- The v0.3 memo record synthesized by the splitter. -/
def mkV3Memo (nowIso : Str) (bodyLines : List Str)
    (idv : Str) (copt sopt : Option Str) (text : Str) : MemoV2 :=
  let memoColor := jsOr copt (chars ("red"))
  let memoStatus := jsOr sopt (chars ("open"))
  { id := idv,
    type := colorToType memoColor,
    status := memoStatus,
    owner := chars ("human"),
    source := chars ("generic"),
    color := memoColor,
    text := replaceAllLit (chars ("--\u200B>")) (chars ("-->")) text,
    anchorText := jsOr (findAnchorAbove bodyLines) [],
    anchor := match findAnchorLineIdx bodyLines with
      | some j => [ 'L' ] ++ natDec (j + 1) ++ [ '|' ] ++ hashLine (bodyLines.getD j [])
      | none => [],
    createdAt := nowIso, updatedAt := nowIso }

/-- The v0.4 memo record synthesized from a parsed attribute record. -/
def mkV4Memo (nowIso : Str) (nowMs : Nat) (bodyLines : List Str)
    (a : List (Str × Str)) : MemoV2 :=
  { id := jsOr (getAttr a (chars ("id"))) (chars ("memo_") ++ natDec nowMs),
    type := jsOr (getAttr a (chars ("type")))
      (colorToType (jsOr (getAttr a (chars ("color"))) (chars ("red")))),
    status := jsOr (getAttr a (chars ("status"))) (chars ("open")),
    owner := jsOr (getAttr a (chars ("owner"))) (chars ("human")),
    source := jsOr (getAttr a (chars ("source"))) (chars ("generic")),
    color := jsOr (getAttr a (chars ("color"))) (chars ("red")),
    text := jsOr (getAttr a (chars ("text"))) [],
    anchorText := jsOr (getAttr a (chars ("anchorText")))
      (jsOr (findAnchorAbove bodyLines) []),
    anchor := jsOr (getAttr a (chars ("anchor"))) [],
    createdAt := jsOr (getAttr a (chars ("createdAt"))) nowIso,
    updatedAt := jsOr (getAttr a (chars ("updatedAt"))) nowIso }

/-- The gate record synthesized from a parsed attribute record. -/
def mkGate (nowMs : Nat) (a : List (Str × Str)) : Gate :=
  { id := jsOr (getAttr a (chars ("id"))) (chars ("gate_") ++ natDec nowMs),
    type := jsOr (getAttr a (chars ("type"))) (chars ("custom")),
    status := jsOr (getAttr a (chars ("status"))) (chars ("blocked")),
    blockedBy := match getAttr a (chars ("blockedBy")) with
      | some s => if s = [] then [] else
          ((splitOnChar ',' s).map jsTrim).filter (fun x => !x.isEmpty)
      | none => [],
    canProceedIf := jsOr (getAttr a (chars ("canProceedIf"))) [],
    doneDefinition := jsOr (getAttr a (chars ("doneDefinition"))) [] }

/-- The cursor record synthesized from a parsed attribute record. -/
def mkCursor (nowIso : Str) (a : List (Str × Str)) : PlanCursor :=
  { taskId := jsOr (getAttr a (chars ("taskId"))) [],
    step := jsOr (getAttr a (chars ("step"))) [],
    nextAction := jsOr (getAttr a (chars ("nextAction"))) [],
    lastSeenHash := jsOr (getAttr a (chars ("lastSeenHash"))) [],
    updatedAt := jsOr (getAttr a (chars ("updatedAt"))) nowIso }

/-- Strip the comment delimiters from one inner line of a legacy memo block
(.replace(/^<!--\s*&#47;, '').replace(/\s*-->$/, '')). -/
def stripLegacyLine (l : Str) : Str :=
  let l1 := match dropLit l (chars ("<!--")) with
    | some r => r.dropWhile isJsWs
    | none => l
  match dropSuffixLit l1 (chars ("-->")) with
  | some f => jsTrimEnd f
  | none => l1

/-- The legacy memo record. -/
def mkLegacyMemo (nowIso : Str) (bodyLines : List Str)
    (idv : Str) (copt dopt : Option Str) (memoLines : List Str) : MemoV2 :=
  let text := jsTrim (joinNl (memoLines.map stripLegacyLine))
  { id := idv,
    type := colorToType (jsOr copt (chars ("red"))),
    status := chars ("open"),
    owner := chars ("human"),
    source := chars ("generic"),
    color := jsOr copt (chars ("red")),
    text := text,
    anchorText := jsOr (findAnchorAbove bodyLines) [],
    anchor := match findAnchorLineIdx bodyLines with
      | some j => [ 'L' ] ++ natDec (j + 1) ++ [ '|' ] ++ hashLine (bodyLines.getD j [])
      | none => [],
    createdAt := jsOr dopt nowIso, updatedAt := jsOr dopt nowIso }

/-- One iteration of the splitDocument while-loop: classify the next line
(or block) and return the updated accumulator and remaining lines. -/
def scanStep (nowIso : Str) (nowMs : Nat) (acc : SplitAcc) :
    List Str → Option (SplitAcc × List Str)
  | [] => none
  | line :: rest =>
    let trimmed := jsTrim line
    match memoV3Match trimmed with
    | some (idv, copt, sopt, text) =>
      some ({ acc with memos := acc.memos ++ [mkV3Memo nowIso acc.bodyLines idv copt sopt text] }, rest)
    | none =>
    if tagStartMatch (chars ("<!-- USER_MEMO")) trimmed then
      let tk := takeToMarker (fun l => jsTrim l = chars ("-->")) rest
      some ({ acc with memos := acc.memos ++ [mkV4Memo nowIso nowMs acc.bodyLines (parseAttrs tk.1)] }, tk.2)
    else if tagStartMatch (chars ("<!-- GATE")) trimmed then
      let tk := takeToMarker (fun l => jsTrim l = chars ("-->")) rest
      some ({ acc with gates := acc.gates ++ [mkGate nowMs (parseAttrs tk.1)] }, tk.2)
    else if tagStartMatch (chars ("<!-- PLAN_CURSOR")) trimmed then
      let tk := takeToMarker (fun l => jsTrim l = chars ("-->")) rest
      some ({ acc with cursor := some (mkCursor nowIso (parseAttrs tk.1)) }, tk.2)
    else
    match checkpointMatch trimmed with
    | some cp => some ({ acc with checkpoints := acc.checkpoints ++ [cp] }, rest)
    | none =>
    match legacyStartMatch trimmed with
    | some (idv, copt, dopt) =>
      let tk := takeToMarker (fun l => jsTrim l = chars ("<!-- @/memo -->")) rest
      some ({ acc with memos := acc.memos ++ [mkLegacyMemo nowIso acc.bodyLines idv copt dopt tk.1] }, tk.2)
    | none =>
    if trimmed = chars ("<!--") &&
        (match rest with
         | next :: _ => strIncludes next (chars ("MD Feedback"))
         | [] => false) then
      some (acc, dropThrough (fun l => strIncludes l (chars ("-->"))) (line :: rest))
    else if feedbackNotesMatch trimmed then
      some (acc, rest)
    else
      some ({ acc with bodyLines := acc.bodyLines ++ [line] }, rest)

theorem scanStep_length {nowIso : Str} {nowMs : Nat} {acc : SplitAcc}
    {lines : List Str} {acc2 : SplitAcc} {rest : List Str}
    (h : scanStep nowIso nowMs acc lines = some (acc2, rest)) :
    rest.length < lines.length := by
  cases lines with
  | nil => simp [scanStep] at h
  | cons line tl =>
    simp only [scanStep] at h
    split at h
    · exact (by cases h; simp)
    · split at h
      · cases h
        calc (takeToMarker (fun l => jsTrim l = chars ("-->")) tl).2.length
            ≤ tl.length := takeToMarker_length _ _
          _ < (line :: tl).length := by simp
      · split at h
        · cases h
          calc (takeToMarker (fun l => jsTrim l = chars ("-->")) tl).2.length
              ≤ tl.length := takeToMarker_length _ _
            _ < (line :: tl).length := by simp
        · split at h
          · cases h
            calc (takeToMarker (fun l => jsTrim l = chars ("-->")) tl).2.length
                ≤ tl.length := takeToMarker_length _ _
              _ < (line :: tl).length := by simp
          · split at h
            · exact (by cases h; simp)
            · split at h
              · cases h
                calc (takeToMarker (fun l => jsTrim l = chars ("<!-- @/memo -->")) tl).2.length
                    ≤ tl.length := takeToMarker_length _ _
                  _ < (line :: tl).length := by simp
              · split at h
                · cases h
                  simp only [dropThrough]
                  split
                  · simp
                  · calc (dropThrough (fun l => strIncludes l (chars ("-->"))) tl).length
                        ≤ tl.length := dropThrough_length _ _
                      _ < (line :: tl).length := by simp
                · split at h
                  · exact (by cases h; simp)
                  · exact (by cases h; simp)

/-- Fuel-driven splitDocument while-loop; every step consumes at least one
line, so fuel equal to the number of lines reproduces the source loop. -/
def scanAccF (nowIso : Str) (nowMs : Nat) : Nat → SplitAcc → List Str → SplitAcc
  | 0, acc, _ => acc
  | fuel + 1, acc, lines =>
    match scanStep nowIso nowMs acc lines with
    | none => acc
    | some (acc2, rest) => scanAccF nowIso nowMs fuel acc2 rest

/-- The splitDocument while-loop. -/
def scanAcc (nowIso : Str) (nowMs : Nat) (acc : SplitAcc) (lines : List Str) : SplitAcc :=
  scanAccF nowIso nowMs lines.length acc lines

theorem scanAccF_congr (nowIso : Str) (nowMs : Nat) : ∀ (f1 f2 : Nat) (acc : SplitAcc)
    (lines : List Str), lines.length ≤ f1 → lines.length ≤ f2 →
    scanAccF nowIso nowMs f1 acc lines = scanAccF nowIso nowMs f2 acc lines := by
  intro f1
  induction f1 with
  | zero =>
    intro f2 acc lines h1 h2
    have : lines = [] := by
      cases lines with
      | nil => rfl
      | cons a l => simp at h1
    subst this
    cases f2 with
    | zero => rfl
    | succ g => simp [scanAccF, scanStep]
  | succ f ih =>
    intro f2 acc lines h1 h2
    cases f2 with
    | zero =>
      have : lines = [] := by
        cases lines with
        | nil => rfl
        | cons a l => simp at h2
      subst this
      simp [scanAccF, scanStep]
    | succ g =>
      simp only [scanAccF]
      cases h : scanStep nowIso nowMs acc lines with
      | none => rfl
      | some pr =>
        obtain ⟨acc2, rest⟩ := pr
        have hl := scanStep_length h
        exact ih g acc2 rest (by omega) (by omega)

theorem scanAcc_none {nowIso : Str} {nowMs : Nat} {acc : SplitAcc} {lines : List Str}
    (h : scanStep nowIso nowMs acc lines = none) :
    scanAcc nowIso nowMs acc lines = acc := by
  cases lines with
  | nil => rfl
  | cons a l => simp [scanAcc, scanAccF, h]

theorem scanAcc_some {nowIso : Str} {nowMs : Nat} {acc acc2 : SplitAcc}
    {lines rest : List Str} (h : scanStep nowIso nowMs acc lines = some (acc2, rest)) :
    scanAcc nowIso nowMs acc lines = scanAcc nowIso nowMs acc2 rest := by
  cases lines with
  | nil => simp [scanStep] at h
  | cons a l =>
    have hl := scanStep_length h
    simp only [scanAcc, scanAccF, h]
    exact scanAccF_congr nowIso nowMs l.length rest.length acc2 rest
      (by simp at hl; omega) (by omega)

/-! ## Frontmatter extraction (FRONTMATTER_RE) -/

/-- Regex \s*\n with greedy backtracking: consume the leading whitespace run
up to and including its last newline; fail if the run has no newline. -/
def wsNl : Str → Option Str
  | [] => none
  | c :: cs =>
    if isJsWs c then
      match wsNl cs with
      | some r => some r
      | none => if c = '\n' then some cs else none
    else none

/-- Lazy scan for the frontmatter closer: the first position where
"\n---" matches, followed by \s*\n; returns the remainder (nothing can
match at the empty remainder). -/
def fmCloseScan : Str → Option Str
  | [] => none
  | c :: cs =>
    match dropLit (c :: cs) (chars ("\n---")) with
    | some t =>
      match wsNl t with
      | some r => some r
      | none => fmCloseScan cs
    | none => fmCloseScan cs

/-- FRONTMATTER_RE applied at the start of the document: returns the full
match (the frontmatter, verbatim) and the remaining body text. -/
def extractFrontmatter (s : Str) : Str × Str :=
  match dropLit s (chars ("---")) with
  | none => ([], s)
  | some r1 =>
    match wsNl r1 with
    | none => ([], s)
    | some r2 =>
      match fmCloseScan r2 with
      | none => ([], s)
      | some rest => (s.take (s.length - rest.length), rest)

/-- Trim trailing blank lines from the accumulated body lines. -/
def trimTrailingBlank (ls : List Str) : List Str :=
  (ls.reverse.dropWhile (fun l => (jsTrim l).isEmpty)).reverse

/-- document-writer.ts splitDocument.  The two impure reads of the system
clock (new Date().toISOString() and Date.now()) are passed explicitly. -/
def splitDocument (nowIso : Str) (nowMs : Nat) (markdown : Str) : DocumentParts :=
  let fm := extractFrontmatter markdown
  let lines := splitNl fm.2
  let acc := scanAcc nowIso nowMs emptyAcc lines
  let bodyLines := trimTrailingBlank acc.bodyLines
  { frontmatter := fm.1, body := joinNl bodyLines, memos := acc.memos,
    checkpoints := acc.checkpoints, gates := acc.gates, cursor := acc.cursor,
    unknownComments := [] }

/-! ## Merger (document-writer.ts mergeDocument, reinsertMemos) -/

/-- The insertion map built by reinsertMemos: a function from line index to
the memos to insert after that line (in push order), plus the unanchored
memos (in push order). -/
def buildInsertion (lines : List Str) (memos : List MemoV2) :
    (Nat → List MemoV2) × List MemoV2 :=
  memos.foldl (fun st m =>
    match findMemoAnchorLine lines m with
    | some i => (fun j => if j = i then st.1 j ++ [m] else st.1 j, st.2)
    | none => (st.1, st.2 ++ [m])) (fun _ => [], [])

/-- document-writer.ts reinsertMemos. -/
def reinsertMemos (body : Str) (memos : List MemoV2) : Str :=
  if memos = [] then body else
  let lines := splitNl body
  let bi := buildInsertion lines memos
  let result := (List.range lines.length).flatMap
      (fun i => lines.getD i [] :: (bi.1 i).map serializeMemoV2) ++
    bi.2.map serializeMemoV2
  joinNl result

/-- document-writer.ts mergeDocument. -/
def mergeDocument (parts : DocumentParts) : Str :=
  let sections : List Str :=
    (if parts.frontmatter ≠ [] then [jsTrimEnd parts.frontmatter] else []) ++
    [reinsertMemos parts.body parts.memos] ++
    parts.gates.map serializeGate ++
    parts.checkpoints.map serializeCheckpoint ++
    (match parts.cursor with | some c => [serializeCursor c] | none => [])
  joinSep (chars ("\n\n")) sections ++ [ '\n' ]

/-! ## Gate evaluator (gate-evaluator.ts) -/

inductive GateStatus where
  | blocked
  | proceed
  | done
deriving DecidableEq

/-- gate-evaluator.ts evaluateGate. -/
def evaluateGate (gate : Gate) (memos : List MemoV2) : GateStatus :=
  let blockedNow : Bool :=
    if gate.blockedBy.length > 0 then
      let blocking := (gate.blockedBy.map (fun id => memos.find? (fun m => m.id == id))).filter
        (fun o => match o with
          | some m => m.status == chars ("open")
          | none => false)
      blocking.length > 0
    else false
  if blockedNow then GateStatus.blocked
  else
    let hasOpenMemos := memos.any (fun m => m.status == chars ("open"))
    if !hasOpenMemos then GateStatus.done else GateStatus.proceed

/-! ## Annotation counter (getAnnotationCounts) -/

structure AnnotationCounts where
  fixes : Nat
  questions : Nat
  highlights : Nat
deriving DecidableEq

theorem takeWs1_length {s r : Str} (h : takeWs1 s = some r) : r.length < s.length := by
  cases s with
  | nil => simp [takeWs1] at h
  | cons c cs =>
    simp only [takeWs1] at h
    split at h
    · cases h
      calc (cs.dropWhile isJsWs).length ≤ cs.length := (List.dropWhile_sublist _).length_le
        _ < (c :: cs).length := by simp
    · exact absurd h (by simp)

theorem takeNonQuote0_length {s v r : Str} (h : takeNonQuote0 s = some (v, r)) :
    r.length < s.length := by
  simp only [takeNonQuote0] at h
  split at h
  · rename_i rest heq
    cases h
    have h1 : ('"' :: r).length ≤ s.length := by
      rw [← heq]; exact (List.dropWhile_sublist _).length_le
    simp at h1; omega
  · exact absurd h (by simp)

theorem takeNonQuote1_length {s v r : Str} (h : takeNonQuote1 s = some (v, r)) :
    r.length < s.length := by
  simp only [takeNonQuote1] at h
  split at h
  · rename_i v' r' heq
    split at h
    · exact absurd h (by simp)
    · cases h; exact takeNonQuote0_length heq
  · exact absurd h (by simp)

theorem optAttrGroup_length (lit s : Str) : (optAttrGroup lit s).2.length ≤ s.length := by
  simp only [optAttrGroup]
  split
  · simp
  · rename_i r1 h1
    split
    · simp
    · rename_i r2 h2
      split
      · simp
      · rename_i v r3 h3
        have e1 := takeWs1_length h1
        have e2 := dropLit_length _ _ _ h2
        have e3 := takeNonQuote1_length h3
        simp only []
        omega

/-- One attempted match of the global memo-counting regex
<!-- USER_MEMO\s+id="[^"]+"(?:\s+color="([^"]+)")?(?:\s+status="[^"]+")?\s*:
at the given suffix; returns the color group and the remainder past the
match (the classes \s and [^"] also match newlines here). -/
def memoCntMatch (s : Str) : Option (Option Str × Str) :=
  match dropLit s (chars ("<!-- USER_MEMO")) with
  | none => none
  | some r1 =>
  match takeWs1 r1 with
  | none => none
  | some r2 =>
  match dropLit r2 (chars ("id=\"")) with
  | none => none
  | some r3 =>
  match takeNonQuote1 r3 with
  | none => none
  | some (_, r4) =>
    let c5 := optAttrGroup (chars ("color=\"")) r4
    let s6 := optAttrGroup (chars ("status=\"")) c5.2
    match s6.2.dropWhile isJsWs with
    | ':' :: r7 => some (c5.1, r7)
    | _ => none

theorem memoCntMatch_length {s : Str} {copt : Option Str} {r : Str}
    (h : memoCntMatch s = some (copt, r)) : r.length < s.length := by
  simp only [memoCntMatch] at h
  split at h
  · exact absurd h (by simp)
  · rename_i r1 h1
    split at h
    · exact absurd h (by simp)
    · rename_i r2 h2
      split at h
      · exact absurd h (by simp)
      · rename_i r3 h3
        split at h
        · exact absurd h (by simp)
        · rename_i idv r4 h4
          split at h
          · rename_i heq
            cases h
            have e1 := dropLit_length _ _ _ h1
            have e2 := takeWs1_length h2
            have e3 := dropLit_length _ _ _ h3
            have e4 := takeNonQuote1_length h4
            have e5 := optAttrGroup_length (chars ("color=\"")) r4
            have e6 := optAttrGroup_length (chars ("status=\""))
              (optAttrGroup (chars ("color=\"")) r4).2
            have e7 : (':' :: r).length ≤ (optAttrGroup (chars ("status=\""))
                (optAttrGroup (chars ("color=\"")) r4).2).2.length := by
              rw [← heq]; exact (List.dropWhile_sublist _).length_le
            simp at e7
            omega
          · exact absurd h (by simp)

/-- Fuel-driven first scanning loop of getAnnotationCounts: count USER_MEMO
comments by color (every step consumes at least one character, so fuel of
one more than the length reproduces the source loop). -/
def memoCntLoopF : Nat → Str → Nat → Nat → Nat → Nat × Nat × Nat
  | 0, _, fx, q, hl => (fx, q, hl)
  | fuel + 1, s, fx, q, hl =>
    match memoCntMatch s with
    | some (copt, r) =>
      let color := jsOr copt (chars ("red"))
      if color = chars ("red") then memoCntLoopF fuel r (fx + 1) q hl
      else if color = chars ("blue") then memoCntLoopF fuel r fx (q + 1) hl
      else memoCntLoopF fuel r fx q (hl + 1)
    | none =>
      match s with
      | [] => (fx, q, hl)
      | _ :: cs => memoCntLoopF fuel cs fx q hl

def memoCntLoop (s : Str) (fx q hl : Nat) : Nat × Nat × Nat :=
  memoCntLoopF (s.length + 1) s fx q hl

/-- The value part \s*([^"]+)" of the mark regex, with the one-step
backtrack of \s* that regex semantics allow when the character after the
whitespace run is the closing quote. -/
def markStyleVal (t : Str) : Option (Str × Str) :=
  let w := t.takeWhile isJsWs
  let afterW := t.dropWhile isJsWs
  match takeNonQuote1 afterW with
  | some (v, r) => some (v, r)
  | none =>
    match afterW with
    | '"' :: rest => if w ≠ [] then some ([w.getLast!], rest) else none
    | _ => none

/-- Consume [^>]*> : everything up to and including the first '>'. -/
def takeToGt (s : Str) : Option Str :=
  match s.dropWhile (fun c => c ≠ '>') with
  | '>' :: r => some r
  | _ => none

/-- One attempted match of the mark-counting regex
<mark[^>]*style="background-color:\s*([^"]+)"[^>]*> at the given suffix;
the greedy [^>]* tries the longest prefix of non-'>' characters first. -/
def markCntMatch (s : Str) : Option (Str × Str) :=
  match dropLit s (chars ("<mark")) with
  | none => none
  | some r0 =>
    let run := r0.takeWhile (fun c => c ≠ '>')
    (List.range (run.length + 1)).reverse.findSome? (fun j =>
      match dropLit (r0.drop j) (chars ("style=\"background-color:")) with
      | none => none
      | some t =>
        match markStyleVal t with
        | none => none
        | some (v, r1) =>
          match takeToGt r1 with
          | some r2 => some (v, r2)
          | none => none)

theorem findSome?_mem {α β : Type} (f : α → Option β) (l : List α) (b : β)
    (h : l.findSome? f = some b) : ∃ a ∈ l, f a = some b := by
  induction l with
  | nil => simp [List.findSome?] at h
  | cons x xs ih =>
    rw [List.findSome?_cons] at h
    split at h
    · cases h
      rename_i heq
      exact ⟨x, by simp, heq⟩
    · obtain ⟨a, ha, hfa⟩ := ih h
      exact ⟨a, by simp [ha], hfa⟩

theorem takeToGt_length {s r : Str} (h : takeToGt s = some r) : r.length < s.length := by
  simp only [takeToGt] at h
  split at h
  · rename_i heq
    cases h
    have : ('>' :: r).length ≤ s.length := by
      rw [← heq]; exact (List.dropWhile_sublist _).length_le
    simp at this; omega
  · exact absurd h (by simp)

theorem markStyleVal_length {t v r : Str} (h : markStyleVal t = some (v, r)) :
    r.length < t.length := by
  simp only [markStyleVal] at h
  split at h
  · rename_i v' r' heq
    cases h
    calc r.length < (t.dropWhile isJsWs).length := takeNonQuote1_length heq
      _ ≤ t.length := (List.dropWhile_sublist _).length_le
  · split at h
    · rename_i heq
      split at h
      · cases h
        have : ('"' :: r).length ≤ t.length := by
          rw [← heq]; exact (List.dropWhile_sublist _).length_le
        simp at this; omega
      · exact absurd h (by simp)
    · exact absurd h (by simp)

theorem markCntMatch_length {s : Str} {v r : Str}
    (h : markCntMatch s = some (v, r)) : r.length < s.length := by
  simp only [markCntMatch] at h
  split at h
  · exact absurd h (by simp)
  · rename_i r0 h0
    obtain ⟨j, _, hj⟩ := findSome?_mem _ _ _ h
    have e0 := dropLit_length _ _ _ h0
    split at hj
    · exact absurd hj (by simp)
    · rename_i t ht
      split at hj
      · exact absurd hj (by simp)
      · rename_i v' r1 h1
        split at hj
        · rename_i r2 h2
          cases hj
          have e1 := dropLit_length _ _ _ ht
          have e2 := markStyleVal_length h1
          have e3 := takeToGt_length h2
          have e4 : (r0.drop j).length ≤ r0.length := by
            simp [List.length_drop]
          simp [chars] at e0 e1
          omega
        · exact absurd hj (by simp)

/-- types.ts HEX_TO_COLOR_NAME. -/
def hexToColorName (h : Str) : Option Str :=
  if h = chars ("#fef08a") then some (chars ("yellow"))
  else if h = chars ("#fca5a5") then some (chars ("red"))
  else if h = chars ("#93c5fd") then some (chars ("blue"))
  else none

/-- Fuel-driven second scanning loop of getAnnotationCounts: count mark tags
with a background-color style by mapped color name (unknown colors fall
through to the highlight bucket, like yellow). -/
def markCntLoopF : Nat → Str → Nat → Nat → Nat → Nat × Nat × Nat
  | 0, _, fx, q, hl => (fx, q, hl)
  | fuel + 1, s, fx, q, hl =>
    match markCntMatch s with
    | some (v, r) =>
      let cn := hexToColorName (jsTrim v)
      if cn = some (chars ("red")) then markCntLoopF fuel r (fx + 1) q hl
      else if cn = some (chars ("blue")) then markCntLoopF fuel r fx (q + 1) hl
      else markCntLoopF fuel r fx q (hl + 1)
    | none =>
      match s with
      | [] => (fx, q, hl)
      | _ :: cs => markCntLoopF fuel cs fx q hl

def markCntLoop (s : Str) (fx q hl : Nat) : Nat × Nat × Nat :=
  markCntLoopF (s.length + 1) s fx q hl

/-- Regex .*` — a backtick reachable through dot-matchable characters. -/
def dotsTick : Str → Bool
  | [] => false
  | c :: cs => if c = '`' then true else if isDotChar c then dotsTick cs else false

/-- The lookahead body .*==.*` of the ==-highlight regex: a later "==" on
the same line with a backtick after it on the same line. -/
def eqLookA : Str → Bool
  | [] => false
  | c :: cs =>
    (match c, cs with
     | '=', '=' :: t2 => dotsTick t2
     | _, _ => false) ||
    (if isDotChar c then eqLookA cs else false)

/-- Fuel-driven body of eqCloseFrom: every step shortens the string by one,
so fuel equal to the length reproduces the unbounded scan. -/
def eqCloseFromF : Nat → Str → Option Str
  | 0, _ => none
  | fuel + 1, s =>
    match s with
    | '=' :: '=' :: r =>
      match r with
      | '`' :: tl =>
        -- the lookahead fails here: the lazy capture absorbs one more
        -- character (an '=' is dot-matchable) and the scan continues
        eqCloseFromF fuel ('=' :: '`' :: tl)
      | _ => some r
    | c :: cs => if isDotChar c then eqCloseFromF fuel cs else none
    | [] => none

/-- The lazy (.+?)==(?!`) tail after at least one captured character: find
the nearest "==" whose next character is not a backtick, extending the lazy
capture over dot-matchable characters (including stray '=' and backticks). -/
def eqCloseFrom (s : Str) : Option Str := eqCloseFromF s.length s

/-- The full (.+?) tail: the first captured character (which must be
dot-matchable), then the close scan. -/
def eqClose : Str → Option Str
  | [] => none
  | c :: cs => if isDotChar c then eqCloseFrom cs else none

/-- One attempted match of (?<!`)==(?!.*==.*`)(.+?)==(?!`) at the given
suffix, with the look-behind character supplied by the scan loop. -/
def eqMatchAt (prev : Option Char) (s : Str) : Option Str :=
  if prev = some '`' then none else
  match s with
  | '=' :: '=' :: t => if eqLookA t then none else eqClose t
  | _ => none

theorem eqCloseFromF_le : ∀ (fuel : Nat) {s r : Str}, eqCloseFromF fuel s = some r →
    r.length ≤ s.length := by
  intro fuel
  induction fuel with
  | zero => intro s r h; simp [eqCloseFromF] at h
  | succ f ih =>
    intro s r h
    simp only [eqCloseFromF] at h
    split at h
    · split at h
      · have := ih h
        simp at this ⊢
        omega
      · cases h
        simp
        omega
    · split at h
      · have := ih h
        simp
        omega
      · exact absurd h (by simp)
    · exact absurd h (by simp)

theorem eqCloseFrom_le {s r : Str} (h : eqCloseFrom s = some r) : r.length ≤ s.length :=
  eqCloseFromF_le s.length h

theorem eqClose_le {t r : Str} (h : eqClose t = some r) : r.length + 1 ≤ t.length := by
  cases t with
  | nil => simp [eqClose] at h
  | cons c cs =>
    simp only [eqClose] at h
    split at h
    · have := eqCloseFrom_le h
      simp; omega
    · exact absurd h (by simp)

theorem eqMatchAt_length {prev : Option Char} {s r : Str}
    (h : eqMatchAt prev s = some r) : r.length < s.length := by
  simp only [eqMatchAt] at h
  split at h
  · exact absurd h (by simp)
  · split at h
    · rename_i t
      split at h
      · exact absurd h (by simp)
      · have := eqClose_le h
        simp; omega
    · exact absurd h (by simp)

/-- Fuel-driven third scanning loop of getAnnotationCounts: count == ==
highlights; the scan tracks the previous character for the look-behind, and
a successful match resumes right after its closing "==" (whose last
character is '='). -/
def eqCntLoopF : Nat → Option Char → Str → Nat → Nat
  | 0, _, _, hl => hl
  | fuel + 1, prev, s, hl =>
    match eqMatchAt prev s with
    | some r => eqCntLoopF fuel (some '=') r (hl + 1)
    | none =>
      match s with
      | [] => hl
      | c :: cs => eqCntLoopF fuel (some c) cs hl

def eqCntLoop (prev : Option Char) (s : Str) (hl : Nat) : Nat :=
  eqCntLoopF (s.length + 1) prev s hl

/-- part_004 getAnnotationCounts: three independent global-regex scans over
the raw markdown. -/
def getAnnotationCounts (markdown : Str) : AnnotationCounts :=
  let m1 := memoCntLoop markdown 0 0 0
  let m2 := markCntLoop markdown m1.1 m1.2.1 m1.2.2
  let hl := eqCntLoop none markdown m2.2.2
  { fixes := m2.1, questions := m2.2.1, highlights := hl }

/-! ## Characterization of evaluateGate -/

/-- The blocking condition computed by evaluateGate: some listed blocker id
whose first matching memo (memos.find) is open. -/
def blockedCond (gate : Gate) (memos : List MemoV2) : Prop :=
  ∃ id ∈ gate.blockedBy, ∃ m, memos.find? (fun m2 => m2.id == id) = some m ∧
    m.status = chars ("open")

/-- The Boolean blocking test inside evaluateGate, lifted out for reasoning. -/
def blockedNowB (gate : Gate) (memos : List MemoV2) : Bool :=
  if gate.blockedBy.length > 0 then
    ((gate.blockedBy.map (fun id => memos.find? (fun m => m.id == id))).filter
      (fun o => match o with
        | some m => m.status == chars ("open")
        | none => false)).length > 0
  else false

theorem evaluateGate_eq (gate : Gate) (memos : List MemoV2) :
    evaluateGate gate memos =
      (if blockedNowB gate memos then GateStatus.blocked
       else if memos.any (fun m => m.status == chars ("open")) then GateStatus.proceed
       else GateStatus.done) := by
  simp only [evaluateGate, blockedNowB]
  have inner : (if (!memos.any (fun m => m.status == chars ("open"))) = true
        then GateStatus.done else GateStatus.proceed) =
      (if (memos.any (fun m => m.status == chars ("open"))) = true
        then GateStatus.proceed else GateStatus.done) := by
    cases memos.any (fun m => m.status == chars ("open")) <;> simp
  rw [inner]

theorem blockedNowB_iff (gate : Gate) (memos : List MemoV2) :
    blockedNowB gate memos = true ↔ blockedCond gate memos := by
  constructor
  · intro h
    rw [blockedNowB] at h
    split at h
    · have hlen : 0 < ((gate.blockedBy.map (fun id => memos.find? (fun m => m.id == id))).filter
          (fun o => match o with
            | some m => m.status == chars ("open")
            | none => false)).length := by
        simpa using h
      rw [List.length_pos] at hlen
      obtain ⟨o, ho⟩ := List.exists_mem_of_ne_nil _ hlen
      have ho2 := List.of_mem_filter ho
      have ho1 := List.mem_of_mem_filter ho
      rw [List.mem_map] at ho1
      obtain ⟨id, hid, rfl⟩ := ho1
      refine ⟨id, hid, ?_⟩
      cases hfind : memos.find? (fun m => m.id == id) with
      | none => rw [hfind] at ho2; simp at ho2
      | some m =>
        rw [hfind] at ho2
        simp only [beq_iff_eq] at ho2
        exact ⟨m, rfl, ho2⟩
    · simp at h
  · intro h
    obtain ⟨id, hid, m, hfind, hstat⟩ := h
    have hlen : gate.blockedBy.length > 0 := List.length_pos.2 (List.ne_nil_of_mem hid)
    rw [blockedNowB, if_pos hlen]
    have hmem : (some m) ∈ (gate.blockedBy.map (fun id => memos.find? (fun m => m.id == id))) := by
      rw [List.mem_map]
      exact ⟨id, hid, hfind⟩
    have hpred : (fun o => match o with
        | some m => m.status == chars ("open")
        | none => false) (some m) = true := by
      simp [hstat]
    have hmem2 : (some m) ∈ ((gate.blockedBy.map (fun id => memos.find? (fun m => m.id == id))).filter
        (fun o => match o with
          | some m => m.status == chars ("open")
          | none => false)) := List.mem_filter.2 ⟨hmem, hpred⟩
    have := List.length_pos.2 (List.ne_nil_of_mem hmem2)
    simpa using this

theorem anyOpen_iff (memos : List MemoV2) :
    (memos.any (fun m => m.status == chars ("open")) = true) ↔
      (∃ m ∈ memos, m.status = chars ("open")) := by
  rw [List.any_eq_true]
  constructor
  · rintro ⟨m, hm, h⟩; exact ⟨m, hm, by simpa using h⟩
  · rintro ⟨m, hm, h⟩; exact ⟨m, hm, by simpa using h⟩

theorem evaluateGate_blocked_iff (gate : Gate) (memos : List MemoV2) :
    evaluateGate gate memos = GateStatus.blocked ↔ blockedCond gate memos := by
  rw [evaluateGate_eq, ← blockedNowB_iff]
  cases hb : blockedNowB gate memos with
  | true => simp [hb]
  | false =>
    simp only [hb, Bool.false_eq_true, if_false]
    cases ho : memos.any (fun m => m.status == chars ("open")) <;> simp [ho]

theorem evaluateGate_proceed_iff (gate : Gate) (memos : List MemoV2) :
    evaluateGate gate memos = GateStatus.proceed ↔
      ¬ blockedCond gate memos ∧ (∃ m ∈ memos, m.status = chars ("open")) := by
  rw [evaluateGate_eq, ← blockedNowB_iff, ← anyOpen_iff]
  cases hb : blockedNowB gate memos with
  | true => simp [hb]
  | false =>
    simp only [hb, Bool.false_eq_true, if_false]
    cases ho : memos.any (fun m => m.status == chars ("open")) <;> simp [ho]

theorem evaluateGate_done_iff (gate : Gate) (memos : List MemoV2) :
    evaluateGate gate memos = GateStatus.done ↔
      ¬ blockedCond gate memos ∧ (∀ m ∈ memos, m.status ≠ chars ("open")) := by
  rw [evaluateGate_eq, ← blockedNowB_iff]
  have hno : (∀ m ∈ memos, m.status ≠ chars ("open")) ↔
      ¬ (memos.any (fun m => m.status == chars ("open")) = true) := by
    rw [anyOpen_iff]
    push_neg
    constructor
    · intro h m hm; exact h m hm
    · intro h m hm; exact h m hm
  rw [hno]
  cases hb : blockedNowB gate memos with
  | true => simp [hb]
  | false =>
    simp only [hb, Bool.false_eq_true, if_false]
    cases ho : memos.any (fun m => m.status == chars ("open")) <;> simp [ho]

theorem find?_congr_mem {α : Type} (l : List α) (p q : α → Bool)
    (h : ∀ a ∈ l, p a = q a) : l.find? p = l.find? q := by
  induction l with
  | nil => simp
  | cons x xs ih =>
    rw [List.find?_cons, List.find?_cons, h x (by simp)]
    cases hq : q x with
    | true => rfl
    | false => exact ih (fun a ha => h a (by simp [ha]))

/-! ## Claim C2 -/

def cexMemoDone : MemoV2 :=
  { id := chars ("a"), type := chars ("fix"), status := chars ("done"),
    owner := chars ("human"), source := chars ("generic"), color := chars ("red"),
    text := [], anchorText := [], anchor := [], createdAt := chars ("T"),
    updatedAt := chars ("T") }

def cexMemoOpen : MemoV2 :=
  { cexMemoDone with status := chars ("open") }

def cexGateC2 : Gate :=
  { id := chars ("g"), type := chars ("custom"), status := chars ("blocked"),
    blockedBy := [chars ("a")], canProceedIf := [], doneDefinition := [] }

/-- Claim C2, counterexample: with a duplicate memo id where the first
occurrence is done and the second open, the gate's blockedBy names a memo
that exists in the list with status open, yet evaluateGate returns proceed,
not blocked — the code tests only the first memo found per id, so the claim
as stated (an existential over the whole list) is false at this input. -/
theorem C2_counterexample :
    (cexGateC2.blockedBy ≠ [] ∧
      ∃ id ∈ cexGateC2.blockedBy, ∃ m ∈ [cexMemoDone, cexMemoOpen],
        m.id = id ∧ m.status = chars ("open")) ∧
    evaluateGate cexGateC2 [cexMemoDone, cexMemoOpen] = GateStatus.proceed := by
  constructor
  · refine ⟨by decide, chars ("a"), by decide, cexMemoOpen, by decide, by decide, by decide⟩
  · decide

/-- Claim C2, amended: evaluateGate returns blocked iff blockedBy is
non-empty and the first memo in the list bearing some referenced id has
status open; otherwise done when no memo in the whole list is open, else
proceed.  Totality and purity are inherent: evaluateGate is a Lean function
into the three-valued GateStatus type. -/
theorem C2_evaluateGate_characterization (gate : Gate) (memos : List MemoV2) :
    (evaluateGate gate memos = GateStatus.blocked ↔
      (gate.blockedBy ≠ [] ∧ ∃ id ∈ gate.blockedBy, ∃ m,
        memos.find? (fun m2 => m2.id == id) = some m ∧ m.status = chars ("open"))) ∧
    (evaluateGate gate memos = GateStatus.done ↔
      (¬ blockedCond gate memos ∧ ∀ m ∈ memos, m.status ≠ chars ("open"))) ∧
    (evaluateGate gate memos = GateStatus.proceed ↔
      (¬ blockedCond gate memos ∧ ∃ m ∈ memos, m.status = chars ("open"))) := by
  refine ⟨?_, evaluateGate_done_iff gate memos, evaluateGate_proceed_iff gate memos⟩
  rw [evaluateGate_blocked_iff]
  constructor
  · intro h
    obtain ⟨id, hid, rest⟩ := h
    exact ⟨List.ne_nil_of_mem hid, id, hid, rest⟩
  · rintro ⟨_, h⟩
    exact h

/-! ## Claim C7 -/

/-- Claim C7 (gate monotonicity): if every memo whose id is listed in
blockedBy is updated to a non-open status (changing nothing but its status)
and every other memo is unchanged, a gate that evaluated blocked evaluates
to proceed or done, never blocked. -/
theorem C7_gate_monotonicity (gate : Gate) (memos : List MemoV2) (f : MemoV2 → MemoV2)
    (hblocked : evaluateGate gate memos = GateStatus.blocked)
    (hf : ∀ m ∈ memos,
      (m.id ∈ gate.blockedBy →
        (f m).status ≠ chars ("open") ∧ f m = { m with status := (f m).status }) ∧
      (m.id ∉ gate.blockedBy → f m = m)) :
    evaluateGate gate (memos.map f) = GateStatus.proceed ∨
    evaluateGate gate (memos.map f) = GateStatus.done := by
  have hid : ∀ m ∈ memos, (f m).id = m.id := by
    intro m hm
    by_cases hmem : m.id ∈ gate.blockedBy
    · have := ((hf m hm).1 hmem).2
      rw [this]
    · rw [(hf m hm).2 hmem]
  have hnb : ¬ blockedCond gate (memos.map f) := by
    rintro ⟨id, hidb, m, hfind, hstat⟩
    rw [List.find?_map] at hfind
    have hcong : memos.find? (fun m2 => (f m2).id == id) =
        memos.find? (fun m2 => m2.id == id) :=
      find?_congr_mem memos _ _ (fun a ha => by rw [hid a ha])
    rw [Function.comp_def, hcong] at hfind
    cases hfind0 : memos.find? (fun m2 => m2.id == id) with
    | none => rw [hfind0] at hfind; simp at hfind
    | some m0 =>
      rw [hfind0] at hfind
      simp only [Option.map_some', Option.some_inj] at hfind
      have hm0mem := List.mem_of_find?_eq_some hfind0
      have hm0id : m0.id = id := by
        have := List.find?_some hfind0
        simpa using this
      have hne := ((hf m0 hm0mem).1 (hm0id ▸ hidb)).1
      rw [← hfind] at hstat
      exact hne hstat
  rw [evaluateGate_eq]
  have : blockedNowB gate (memos.map f) = false := by
    cases hb : blockedNowB gate (memos.map f) with
    | true => exact absurd ((blockedNowB_iff _ _).1 hb) hnb
    | false => rfl
  rw [this]
  cases ho : (memos.map f).any (fun m => m.status == chars ("open")) <;> simp [ho]

def cexGateC7 : Gate :=
  { id := chars ("g"), type := chars ("custom"), status := chars ("blocked"),
    blockedBy := [chars ("a")], canProceedIf := [], doneDefinition := [] }

def cexResolveC7 : MemoV2 → MemoV2 := fun m => { m with status := chars ("done") }

/-- Witness for C7 at a concrete input. -/
theorem C7_witness :
    evaluateGate cexGateC7 [cexMemoOpen] = GateStatus.blocked ∧
    (evaluateGate cexGateC7 ([cexMemoOpen].map cexResolveC7) = GateStatus.proceed ∨
     evaluateGate cexGateC7 ([cexMemoOpen].map cexResolveC7) = GateStatus.done) := by
  refine ⟨by decide, ?_⟩
  exact C7_gate_monotonicity cexGateC7 [cexMemoOpen] cexResolveC7 (by decide)
    (by intro m hm
        constructor
        · intro hmem
          exact ⟨by simp at hm; rw [hm]; decide, by simp at hm; rw [hm]; decide⟩
        · intro hmem
          exact absurd (by simp at hm; rw [hm]; decide) hmem)

/-! ## Claim C10 -/

/-- Claim C10 (dangling blockers are ignored): when no id in blockedBy
matches any memo in the list, the gate never evaluates blocked and behaves
exactly as if blockedBy were empty: done when nothing is open, proceed
otherwise. -/
theorem C10_dangling_blockers (gate : Gate) (memos : List MemoV2)
    (hd : ∀ id ∈ gate.blockedBy, ∀ m ∈ memos, m.id ≠ id) :
    evaluateGate gate memos = evaluateGate { gate with blockedBy := [] } memos ∧
    evaluateGate gate memos ≠ GateStatus.blocked ∧
    (evaluateGate gate memos = GateStatus.done ↔ ∀ m ∈ memos, m.status ≠ chars ("open")) ∧
    (evaluateGate gate memos = GateStatus.proceed ↔ ∃ m ∈ memos, m.status = chars ("open")) := by
  have hnb : ¬ blockedCond gate memos := by
    rintro ⟨id, hid, m, hfind, _⟩
    have hm := List.mem_of_find?_eq_some hfind
    have := List.find?_some hfind
    exact hd id hid m hm (by simpa using this)
  have hnb2 : ¬ blockedCond { gate with blockedBy := [] } memos := by
    rintro ⟨id, hid, _⟩
    simp at hid
  have hb1 : blockedNowB gate memos = false := by
    cases hb : blockedNowB gate memos with
    | true => exact absurd ((blockedNowB_iff _ _).1 hb) hnb
    | false => rfl
  have hb2 : blockedNowB { gate with blockedBy := [] } memos = false := by
    cases hb : blockedNowB { gate with blockedBy := [] } memos with
    | true => exact absurd ((blockedNowB_iff _ _).1 hb) hnb2
    | false => rfl
  refine ⟨?_, ?_, ?_, ?_⟩
  · rw [evaluateGate_eq, evaluateGate_eq, hb1, hb2]
  · rw [evaluateGate_eq, hb1]
    cases ho : memos.any (fun m => m.status == chars ("open")) <;> simp [ho]
  · rw [evaluateGate_done_iff]
    constructor
    · exact fun h => h.2
    · exact fun h => ⟨hnb, h⟩
  · rw [evaluateGate_proceed_iff]
    constructor
    · exact fun h => h.2
    · exact fun h => ⟨hnb, h⟩

def cexGateC10 : Gate :=
  { id := chars ("g"), type := chars ("custom"), status := chars ("blocked"),
    blockedBy := [chars ("zzz")], canProceedIf := [], doneDefinition := [] }

/-- Witness for C10 at a concrete input. -/
theorem C10_witness :
    (∀ id ∈ cexGateC10.blockedBy, ∀ m ∈ [cexMemoOpen], m.id ≠ id) ∧
    evaluateGate cexGateC10 [cexMemoOpen] ≠ GateStatus.blocked := by
  refine ⟨by decide, ?_⟩
  exact (C10_dangling_blockers cexGateC10 [cexMemoOpen] (by decide)).2.1

/-! ## Claim C9 -/

/-- A fenced code block whose only content is an ==x== occurrence. -/
def fencedEqInput : Str := chars ("```\n==x==\n```")

/-- Claim C9, counterexample: the ==x== occurrence sits inside a fenced code
block, so the claim predicts it contributes nothing (zero highlights), but
getAnnotationCounts counts it: the counting regex only looks at adjacent
backticks on the same line and does not track fence state. -/
theorem C9_counterexample :
    getAnnotationCounts fencedEqInput ≠
      { fixes := 0, questions := 0, highlights := 0 } ∧
    getAnnotationCounts fencedEqInput =
      { fixes := 0, questions := 0, highlights := 1 } := by
  constructor
  · decide
  · decide

/-- Claim C9, amended: the counter does not track fenced code blocks — an
==text== occurrence inside a fence is counted exactly as the same occurrence
outside any fence; the only code-span suppression the regex performs is
backtick adjacency on the same line (inline code), shown on representative
inputs. -/
theorem C9_eq_counting_ignores_fences :
    getAnnotationCounts fencedEqInput = getAnnotationCounts (chars ("==x==")) ∧
    getAnnotationCounts (chars ("==x==")) =
      { fixes := 0, questions := 0, highlights := 1 } ∧
    getAnnotationCounts (chars ("`==x==`")) =
      { fixes := 0, questions := 0, highlights := 0 } := by
  refine ⟨by decide, by decide, by decide⟩

/-! ## Claim C4 -/

theorem hashAt_iff (lines : List Str) (d : Int) (e : Str) :
    hashAt lines d e = true ↔
      (0 ≤ d ∧ d < (lines.length : Int) ∧ hashLine (lines.getD d.toNat []) = e) := by
  simp [hashAt, Bool.and_eq_true, decide_eq_true_eq, and_assoc]

theorem findSome?_append {α β : Type} (f : α → Option β) (l1 l2 : List α) :
    (l1 ++ l2).findSome? f =
      (match l1.findSome? f with
       | some b => some b
       | none => l2.findSome? f) := by
  induction l1 with
  | nil => simp
  | cons x xs ih =>
    rw [List.cons_append, List.findSome?_cons, List.findSome?_cons]
    cases f x with
    | none => exact ih
    | some b => rfl

theorem findSome?_flatMap {α β γ : Type} (l : List α) (g : α → List β) (f : β → Option γ) :
    (l.flatMap g).findSome? f = l.findSome? (fun a => (g a).findSome? f) := by
  induction l with
  | nil => simp
  | cons x xs ih =>
    rw [List.flatMap_cons, findSome?_append, List.findSome?_cons]
    cases (g x).findSome? f with
    | none => exact ih
    | some b => rfl

theorem probeDeltas_eq : probeDeltas = List.range' 1 10 := by decide

/-- The anchor-resolution algorithm as the specification words it, with the
one amendment claim C4 requires: the final content fallback searches for the
trimmed anchorText as a substring.  Steps in order, first success wins:
parse L(n)(:Lm)?|hash; exact hash check at the 0-based line n-1; outward
hash probe at distances 1..10 (minus before plus); substring scan. -/
def resolveAnchorSpec (lines : List Str) (memo : MemoV2) : Option Nat :=
  let step12 : Option Nat :=
    match anchorMatch memo.anchor with
    | none => none
    | some (n, storedHash) =>
      let t : Int := (n : Int) - 1
      if 0 ≤ t ∧ t < (lines.length : Int) ∧ hashLine (lines.getD t.toNat []) = storedHash
      then some t.toNat
      else
        ((List.range' 1 10).flatMap (fun d => [t - (d : Int), t + (d : Int)])).findSome?
          (fun d =>
            if 0 ≤ d ∧ d < (lines.length : Int) ∧ hashLine (lines.getD d.toNat []) = storedHash
            then some d.toNat else none)
  match step12 with
  | some i => some i
  | none =>
    if memo.anchorText = [] then none
    else lines.findIdx? (fun l => strIncludes l (jsTrim memo.anchorText))

/-- The anchor-resolution algorithm exactly as claim C4 words it, whose
content fallback searches for the raw (untrimmed) anchorText. -/
def resolveAnchorClaimed (lines : List Str) (memo : MemoV2) : Option Nat :=
  let step12 : Option Nat :=
    match anchorMatch memo.anchor with
    | none => none
    | some (n, storedHash) =>
      let t : Int := (n : Int) - 1
      if 0 ≤ t ∧ t < (lines.length : Int) ∧ hashLine (lines.getD t.toNat []) = storedHash
      then some t.toNat
      else
        ((List.range' 1 10).flatMap (fun d => [t - (d : Int), t + (d : Int)])).findSome?
          (fun d =>
            if 0 ≤ d ∧ d < (lines.length : Int) ∧ hashLine (lines.getD d.toNat []) = storedHash
            then some d.toNat else none)
  match step12 with
  | some i => some i
  | none =>
    if memo.anchorText = [] then none
    else lines.findIdx? (fun l => strIncludes l memo.anchorText)

def cexMemoC4 : MemoV2 :=
  { cexMemoDone with anchor := [], anchorText := chars (" a ") }

/-- Claim C4, counterexample: with no machine anchor and anchorText " a ",
the code trims the needle and resolves to line 0 of ["ab"], while the claim
as stated (raw anchorText as a substring) finds no line. -/
theorem C4_counterexample :
    findMemoAnchorLine [chars ("ab")] cexMemoC4 = some 0 ∧
    resolveAnchorClaimed [chars ("ab")] cexMemoC4 = none := by
  constructor
  · decide
  · decide

/-- Claim C4, amended: findMemoAnchorLine implements exactly the claimed
four-step resolution order, with the content fallback matching the trimmed
anchorText as a substring (and an all-whitespace anchorText therefore
trimming to the empty needle, which every line contains). -/
theorem C4_resolution_order (lines : List Str) (memo : MemoV2) :
    findMemoAnchorLine lines memo = resolveAnchorSpec lines memo := by
  simp only [findMemoAnchorLine, resolveAnchorSpec]
  have hinner : ∀ (t : Int) (storedHash : Str),
      (fun (d : Int) => if hashAt lines d storedHash then some d.toNat else none) =
      (fun (d : Int) =>
        if 0 ≤ d ∧ d < (lines.length : Int) ∧ hashLine (lines.getD d.toNat []) = storedHash
        then some d.toNat else none) := by
    intro t storedHash
    funext d
    exact if_congr (hashAt_iff lines d storedHash) rfl rfl
  have hfall : (if memo.anchorText.isEmpty = true then none
      else lines.findIdx? (fun l => strIncludes l (jsTrim memo.anchorText))) =
      (if memo.anchorText = [] then none
      else lines.findIdx? (fun l => strIncludes l (jsTrim memo.anchorText))) := by
    cases memo.anchorText with
    | nil => simp
    | cons c cs => simp
  cases hae : memo.anchor with
  | nil =>
    have : anchorMatch ([] : Str) = none := rfl
    simp only [List.isEmpty_nil, if_true, this, hfall]
  | cons a as =>
    simp only [List.isEmpty_cons, Bool.false_eq_true, if_false]
    cases ham : anchorMatch (a :: as) with
    | none => simp only [hfall]
    | some pr =>
      obtain ⟨n, storedHash⟩ := pr
      simp only []
      rw [hinner ((n : Int) - 1) storedHash]
      rw [if_congr (hashAt_iff lines ((n : Int) - 1) storedHash) rfl rfl]
      by_cases hc : 0 ≤ (n : Int) - 1 ∧ (n : Int) - 1 < (lines.length : Int) ∧
          hashLine (lines.getD ((n : Int) - 1).toNat []) = storedHash
      · rw [if_pos hc, if_pos hc]
      · rw [if_neg hc, if_neg hc]
        rw [probeDeltas_eq, findSome?_flatMap]
        simp only [hfall]

/-! ## Claim C5 -/

theorem isDigitCh_digitCh (k : Nat) (h : k < 10) : isDigitCh (digitCh k) = true := by
  interval_cases k <;> decide

theorem natDecAux_all_digits : ∀ (fuel n : Nat), ∀ c ∈ natDecAux fuel n, isDigitCh c = true := by
  intro fuel
  induction fuel with
  | zero => intro n c hc; simp [natDecAux] at hc
  | succ f ih =>
    intro n c hc
    simp only [natDecAux] at hc
    by_cases hn : n < 10
    · rw [if_pos hn] at hc
      simp at hc
      rw [hc]
      exact isDigitCh_digitCh n hn
    · rw [if_neg hn] at hc
      rw [List.mem_append] at hc
      cases hc with
      | inl h => exact ih (n / 10) c h
      | inr h =>
        simp at h
        rw [h]
        exact isDigitCh_digitCh (n % 10) (Nat.mod_lt _ (by omega))

theorem natDec_all_digits (n : Nat) : ∀ c ∈ natDec n, isDigitCh c = true :=
  natDecAux_all_digits (n + 1) n

theorem natDecAux_ne_nil (fuel n : Nat) (h : 0 < fuel) : natDecAux fuel n ≠ [] := by
  cases fuel with
  | zero => omega
  | succ f =>
    simp only [natDecAux]
    by_cases hn : n < 10
    · simp [hn]
    · rw [if_neg hn]
      simp

theorem span_exact (p : Char → Bool) (a b : Str) (ha : ∀ c ∈ a, p c = true)
    (hb : ∀ c, b.head? = some c → p c = false) :
    (a ++ b).takeWhile p = a ∧ (a ++ b).dropWhile p = b := by
  induction a with
  | nil =>
    simp only [List.nil_append]
    cases b with
    | nil => simp
    | cons c cs =>
      have := hb c rfl
      simp [List.takeWhile, List.dropWhile, this]
  | cons x xs ih =>
    have hx := ha x (by simp)
    have ih2 := ih (fun c hc => ha c (by simp [hc]))
    simp only [List.cons_append, List.takeWhile_cons, List.dropWhile_cons, hx]
    simp [ih2.1, ih2.2]

theorem isDotChar_digitCh (k : Nat) (h : k < 16) : isDotChar (digitCh k) = true := by
  interval_cases k <;> decide

theorem natHexAux_all_dot : ∀ (fuel n : Nat), ∀ c ∈ natHexAux fuel n, isDotChar c = true := by
  intro fuel
  induction fuel with
  | zero => intro n c hc; simp [natHexAux] at hc
  | succ f ih =>
    intro n c hc
    simp only [natHexAux] at hc
    by_cases hn : n < 16
    · rw [if_pos hn] at hc
      simp at hc
      rw [hc]
      exact isDotChar_digitCh n hn
    · rw [if_neg hn] at hc
      rw [List.mem_append] at hc
      cases hc with
      | inl h => exact ih (n / 16) c h
      | inr h =>
        simp at h
        rw [h]
        exact isDotChar_digitCh (n % 16) (Nat.mod_lt _ (by omega))

theorem hashLine_all_dot (l : Str) : ∀ c ∈ hashLine l, isDotChar c = true := by
  intro c hc
  simp only [hashLine, padHex8, List.mem_append] at hc
  cases hc with
  | inl h =>
    have := List.eq_of_mem_replicate h
    rw [this]
    decide
  | inr h => exact natHexAux_all_dot _ _ c h

theorem natHexAux_ne_nil (fuel n : Nat) (h : 0 < fuel) : natHexAux fuel n ≠ [] := by
  cases fuel with
  | zero => omega
  | succ f =>
    simp only [natHexAux]
    by_cases hn : n < 16
    · simp [hn]
    · rw [if_neg hn]
      simp

theorem hashLine_ne_nil (l : Str) : hashLine l ≠ [] := by
  simp only [hashLine, padHex8, natHex]
  intro h
  rw [List.append_eq_nil] at h
  exact natHexAux_ne_nil _ _ (by omega) h.2

/-- Parsing the machine anchor that the system itself writes:
L(n)|hash for a non-empty hash made of dot-matchable characters. -/
theorem anchorMatch_mk (n : Nat) (hash : Str) (hne : hash ≠ [])
    (hdot : ∀ c ∈ hash, isDotChar c = true) :
    anchorMatch ('L' :: (natDec n ++ '|' :: hash)) = some (n, hash) := by
  have hspan := span_exact isDigitCh (natDec n) ('|' :: hash)
    (natDec_all_digits n) (fun c hc => by
      simp at hc
      subst hc
      decide)
  simp only [anchorMatch, List.head?_cons, List.tail_cons, Option.some.injEq, if_pos rfl,
    takeDigits1]
  rw [hspan.1, hspan.2]
  rw [if_neg (show ¬(natDec n = []) from natDecAux_ne_nil (n + 1) n (by omega))]
  simp [digitsVal_natDec, List.all_eq_true, hne]
  exact hdot

theorem getD_insert (old ins : List Str) (p q : Nat) (hp : p ≤ old.length) :
    (old.take p ++ ins ++ old.drop p).getD q [] =
      (if q < p then old.getD q []
       else if q < p + ins.length then ins.getD (q - p) []
       else old.getD (q - ins.length) []) := by
  have hlenA : (old.take p).length = p := by
    rw [List.length_take]
    omega
  have hlenAI : (old.take p ++ ins).length = p + ins.length := by
    rw [List.length_append, hlenA]
  rw [List.getD_eq_getElem?_getD, List.getElem?_append, hlenAI]
  by_cases h2 : q < p + ins.length
  · rw [if_pos h2, List.getElem?_append, hlenA]
    by_cases h1 : q < p
    · rw [if_pos h1, if_pos h1, List.getElem?_take, if_pos h1, List.getD_eq_getElem?_getD]
    · rw [if_neg h1, if_neg h1, if_pos h2, List.getD_eq_getElem?_getD]
  · rw [if_neg h2, if_neg (show ¬ q < p by omega), if_neg h2, List.getElem?_drop,
      List.getD_eq_getElem?_getD]
    congr 2
    omega

theorem findSome?_split {α β : Type} (f : α → Option β) (l1 : List α) (x : α) (l2 : List α)
    (b : β) (h1 : ∀ a ∈ l1, f a = none) (hx : f x = some b) :
    (l1 ++ x :: l2).findSome? f = some b := by
  induction l1 with
  | nil => simp [List.findSome?_cons, hx]
  | cons y ys ih =>
    rw [List.cons_append, List.findSome?_cons, h1 y (by simp)]
    exact ih (fun a ha => h1 a (by simp [ha]))

theorem hashAt_false (lines : List Str) (d : Int) (e : Str)
    (h : ¬ (0 ≤ d ∧ d < (lines.length : Int) ∧ hashLine (lines.getD d.toNat []) = e)) :
    hashAt lines d e = false := by
  cases hb : hashAt lines d e with
  | false => rfl
  | true => exact absurd ((hashAt_iff lines d e).1 hb) h

/-- Claim C5, amended (anchor stability under bounded insertion): insert
N ≤ 10 lines at or before the anchor line of a memo whose machine anchor
L(n)|hash records the hash of line n-1; when no inserted line and no other
original line shares that hash, resolution finds the shifted line n-1+N via
the hash probe. -/
theorem C5_anchor_stability (old ins : List Str) (n N p : Nat) (memo : MemoV2)
    (hn : 1 ≤ n) (hrange : n - 1 < old.length)
    (hN1 : 1 ≤ N) (hN10 : N ≤ 10) (hlen : ins.length = N)
    (hp : p ≤ n - 1)
    (hanchor : memo.anchor = 'L' :: (natDec n ++ '|' :: hashLine (old.getD (n - 1) [])))
    (hins : ∀ l ∈ ins, hashLine l ≠ hashLine (old.getD (n - 1) []))
    (huniq : ∀ j, j < old.length → j ≠ n - 1 →
      hashLine (old.getD j []) ≠ hashLine (old.getD (n - 1) [])) :
    findMemoAnchorLine (old.take p ++ ins ++ old.drop p) memo = some (n - 1 + N) := by
  set tgt := hashLine (old.getD (n - 1) []) with htgt
  set newL := old.take p ++ ins ++ old.drop p with hnewL
  have hpold : p ≤ old.length := by omega
  have hnewlen : newL.length = old.length + N := by
    rw [hnewL]
    simp [List.length_take, List.length_drop]
    omega
  have hmatch : anchorMatch memo.anchor = some (n, tgt) := by
    rw [hanchor]
    exact anchorMatch_mk n tgt (hashLine_ne_nil _) (hashLine_all_dot _)
  -- hash disagreement at every position except the shifted target
  have hq : ∀ (q : Nat), q < old.length + N → q ≠ (n - 1) + N →
      hashLine (newL.getD q []) ≠ tgt := by
    intro q hqlen hqne
    rw [hnewL, getD_insert old ins p q hpold, hlen]
    by_cases h1 : q < p
    · rw [if_pos h1]
      exact huniq q (by omega) (by omega)
    · rw [if_neg h1]
      by_cases h2 : q < p + N
      · rw [if_pos h2]
        refine hins (ins.getD (q - p) []) ?_
        have hin : q - p < ins.length := by omega
        rw [List.getD_eq_getElem?_getD, List.getElem?_eq_getElem hin]
        exact List.getElem_mem _
      · rw [if_neg h2]
        exact huniq (q - N) (by omega) (by omega)
  -- the target position agrees
  have hqhit : hashLine (newL.getD ((n - 1) + N) []) = tgt := by
    rw [hnewL, getD_insert old ins p ((n - 1) + N) hpold, hlen]
    rw [if_neg (by omega), if_neg (by omega)]
    have : (n - 1) + N - N = n - 1 := by omega
    rw [this]
  have hexact : hashAt newL ((n : Int) - 1) tgt = false := by
    apply hashAt_false
    rintro ⟨hge, hlt, heq⟩
    have htn : ((n : Int) - 1).toNat = n - 1 := by omega
    rw [htn] at heq
    exact hq (n - 1) (by omega) (by omega) heq
  have hprobe : probeDeltas.findSome? (fun (delta : Nat) =>
      [(n : Int) - 1 - (delta : Int), (n : Int) - 1 + (delta : Int)].findSome? (fun d =>
        if hashAt newL d tgt then some d.toNat else none)) = some ((n - 1) + N) := by
    have hsplitd : probeDeltas = List.range' 1 (N - 1) ++ N :: List.range' (N + 1) (10 - N) := by
      have h1 := List.range'_append 1 (N - 1) (11 - N) 1
      rw [show 1 + 1 * (N - 1) = N by omega, show (11 - N) + (N - 1) = 10 by omega,
        show 11 - N = (10 - N) + 1 by omega, List.range'_succ] at h1
      rw [probeDeltas_eq, ← h1]
    rw [hsplitd]
    apply findSome?_split
    · intro delta hdelta
      rw [List.mem_range'] at hdelta
      obtain ⟨hd1, hd2⟩ := hdelta
      have hdN : delta < N := by omega
      have hnone : ∀ d : Int, d = (n : Int) - 1 - (delta : Int) ∨ d = (n : Int) - 1 + (delta : Int) →
          (if hashAt newL d tgt then some d.toNat else none) = none := by
        intro d hd
        rw [hashAt_false]
        · simp
        · rintro ⟨hge, hlt, heq⟩
          rw [hnewlen] at hlt
          have hdq : d.toNat < old.length + N := by omega
          have hdne : d.toNat ≠ (n - 1) + N := by
            cases hd with
            | inl h => omega
            | inr h => omega
          exact hq d.toNat hdq hdne heq
      simp only [List.findSome?_cons]
      rw [hnone _ (Or.inl rfl), hnone _ (Or.inr rfl)]
      simp
    · have hminus : (if hashAt newL ((n : Int) - 1 - (N : Int)) tgt
          then some ((n : Int) - 1 - (N : Int)).toNat else none) = none := by
        rw [hashAt_false]
        · simp
        · rintro ⟨hge, hlt, heq⟩
          rw [hnewlen] at hlt
          have hdq : ((n : Int) - 1 - (N : Int)).toNat < old.length + N := by omega
          have hdne : ((n : Int) - 1 - (N : Int)).toNat ≠ (n - 1) + N := by omega
          exact hq _ hdq hdne heq
      have hplus : hashAt newL ((n : Int) - 1 + (N : Int)) tgt = true := by
        rw [hashAt_iff]
        refine ⟨by omega, by rw [hnewlen]; push_cast; omega, ?_⟩
        have : ((n : Int) - 1 + (N : Int)).toNat = (n - 1) + N := by omega
        rw [this]
        exact hqhit
      simp only [List.findSome?_cons]
      rw [hminus, hplus]
      simp only [if_true]
      congr 1
      omega
  -- assemble
  have hanchorne : memo.anchor.isEmpty = false := by
    rw [hanchor]
    rfl
  simp only [findMemoAnchorLine, hanchorne, Bool.false_eq_true, if_false, hmatch]
  rw [hexact]
  simp only [Bool.false_eq_true, if_false]
  rw [hprobe]

def cexOldC5 : List Str := [chars ("target line")]

def cexInsC5 : List Str :=
  [chars ("a"), chars ("b"), chars ("c"), chars ("d"), chars ("e"), chars ("f"),
   chars ("g"), chars ("h"), chars ("i"), chars ("j"), chars ("k")]

def cexMemoC5 : MemoV2 :=
  { cexMemoDone with
    anchor := 'L' :: (natDec 1 ++ '|' :: hashLine (chars ("target line"))),
    anchorText := [] }

/-- Claim C5, counterexample: the hash probe only reaches distance 10, so
after inserting N = 11 unrelated lines (hashes all different from the
anchor line's) before the anchor line, resolution fails entirely (returns
no line) instead of finding the correct shifted line 11 — the claim's
"every N" is false. -/
theorem C5_counterexample :
    (∀ l ∈ cexInsC5, hashLine l ≠ hashLine (chars ("target line"))) ∧
    cexInsC5.length = 11 ∧
    findMemoAnchorLine (cexInsC5 ++ cexOldC5) cexMemoC5 = none := by
  refine ⟨by decide, by decide, by decide⟩

def cexOldC5w : List Str := [chars ("alpha"), chars ("beta")]

def cexMemoC5w : MemoV2 :=
  { cexMemoDone with
    anchor := 'L' :: (natDec 2 ++ '|' :: hashLine (chars ("beta"))),
    anchorText := [] }

/-- Witness for C5 at a concrete input: one line inserted at the front
shifts the anchor line from index 1 to index 2, which the probe finds. -/
theorem C5_witness :
    findMemoAnchorLine (cexOldC5w.take 0 ++ [chars ("x")] ++ cexOldC5w.drop 0) cexMemoC5w =
      some 2 :=
  C5_anchor_stability cexOldC5w [chars ("x")] 2 1 0 cexMemoC5w
    (by decide) (by decide) (by decide) (by decide) (by decide) (by decide)
    (by decide) (by decide) (by decide)

/-! ## Scan-step lemmas for canonical documents -/

/-- A body line that matches none of the comment dialects. -/
def plainLine (l : Str) : Bool :=
  (memoV3Match (jsTrim l)).isNone &&
  !(tagStartMatch (chars ("<!-- USER_MEMO")) (jsTrim l)) &&
  !(tagStartMatch (chars ("<!-- GATE")) (jsTrim l)) &&
  !(tagStartMatch (chars ("<!-- PLAN_CURSOR")) (jsTrim l)) &&
  (checkpointMatch (jsTrim l)).isNone &&
  (legacyStartMatch (jsTrim l)).isNone &&
  !(jsTrim l == chars ("<!--")) &&
  !(feedbackNotesMatch (jsTrim l))

theorem scanStep_plain {l : Str} (nowIso : Str) (nowMs : Nat) (acc : SplitAcc)
    (rest : List Str) (h : plainLine l = true) :
    scanStep nowIso nowMs acc (l :: rest) =
      some ({ acc with bodyLines := acc.bodyLines ++ [l] }, rest) := by
  simp only [plainLine, Bool.and_eq_true, Bool.not_eq_true', beq_eq_false_iff_ne,
    Option.isNone_iff_eq_none] at h
  obtain ⟨⟨⟨⟨⟨⟨⟨h1, h2⟩, h3⟩, h4⟩, h5⟩, h6⟩, h7⟩, h8⟩ := h
  simp only [scanStep, h1, h2, h3, h4, h5, h6, h8, Bool.false_eq_true, if_false]
  rw [if_neg]
  simp only [Bool.and_eq_true, decide_eq_true_eq]
  intro hcon
  exact h7 hcon.1

theorem takeToMarker_exact (p : Str → Bool) (a : List Str) (x : Str) (rest : List Str)
    (ha : ∀ l ∈ a, p l = false) (hx : p x = true) :
    takeToMarker p (a ++ x :: rest) = (a, rest) := by
  induction a with
  | nil => simp [takeToMarker, hx]
  | cons y ys ih =>
    rw [List.cons_append]
    simp only [takeToMarker, ha y (by simp)]
    rw [ih (fun l hl => ha l (by simp [hl]))]
    simp

theorem takeToMarker_none (p : Str → Bool) (a : List Str)
    (ha : ∀ l ∈ a, p l = false) :
    takeToMarker p a = (a, []) := by
  induction a with
  | nil => simp [takeToMarker]
  | cons y ys ih =>
    simp only [takeToMarker, ha y (by simp)]
    rw [ih (fun l hl => ha l (by simp [hl]))]
    simp

/-- Trimming a canonical piece of text: optional whitespace prefix, a core
that neither starts nor ends with whitespace. -/
theorem jsTrim_core (w core : Str) (hw : ∀ c ∈ w, isJsWs c = true)
    (h1 : ∀ c, core.head? = some c → isJsWs c = false)
    (h2 : ∀ c, core.getLast? = some c → isJsWs c = false) :
    jsTrim (w ++ core) = core := by
  have hdrop : (w ++ core).dropWhile isJsWs = core := by
    induction w with
    | nil =>
      cases core with
      | nil => simp
      | cons c cs => simp [List.dropWhile_cons, h1 c rfl]
    | cons x xs ih =>
      rw [List.cons_append, List.dropWhile_cons]
      simp only [hw x (by simp), if_true]
      exact ih (fun c hc => hw c (by simp [hc]))
  rw [jsTrim, hdrop]
  cases hcore : core.reverse with
  | nil =>
    have : core = [] := by simpa using congrArg List.reverse hcore
    simp [this]
  | cons c cs =>
    have hlast : core.getLast? = some c := by
      rw [List.getLast?_eq_head?_reverse, hcore]
      rfl
    rw [List.dropWhile_cons_of_neg (by simp [h2 c hlast]), ← hcore,
      List.reverse_reverse]

theorem jsTrim_self (core : Str)
    (h1 : ∀ c, core.head? = some c → isJsWs c = false)
    (h2 : ∀ c, core.getLast? = some c → isJsWs c = false) :
    jsTrim core = core := by
  have := jsTrim_core [] core (by simp) h1 h2
  simpa using this

/-- No quote and no line terminator in a string (valid attribute values). -/
def noQN (s : Str) : Bool := s.all (fun c => !(c = '"') && !(c = '\n'))

theorem escQuot_id (s : Str) (h : noQN s = true) : escQuot s = s := by
  induction s with
  | nil => rfl
  | cons c cs ih =>
    simp only [noQN, List.all_cons, Bool.and_eq_true, Bool.not_eq_true',
      decide_eq_false_iff_not] at h
    simp only [escQuot, List.flatMap_cons]
    rw [if_neg h.1.1]
    have := ih (by simp only [noQN]; exact h.2)
    simp only [escQuot] at this
    simp [this]

theorem isJsWs_toNat {c : Char} (h : isJsWs c = true) :
    c.toNat = 32 ∨ c.toNat = 9 ∨ c.toNat = 10 ∨ c.toNat = 13 ∨ c.toNat = 11 ∨
    c.toNat = 12 ∨ c.toNat = 160 ∨ c.toNat = 5760 ∨ c.toNat = 8192 ∨
    c.toNat = 8193 ∨ c.toNat = 8194 ∨ c.toNat = 8195 ∨ c.toNat = 8196 ∨
    c.toNat = 8197 ∨ c.toNat = 8198 ∨ c.toNat = 8199 ∨ c.toNat = 8200 ∨
    c.toNat = 8201 ∨ c.toNat = 8202 ∨ c.toNat = 8232 ∨ c.toNat = 8233 ∨
    c.toNat = 8239 ∨ c.toNat = 8287 ∨ c.toNat = 12288 ∨ c.toNat = 65279 := by
  simp only [isJsWs, Bool.or_eq_true, decide_eq_true_eq] at h
  rcases h with ((((((((((((((((((((((((h|h)|h)|h)|h)|h)|h)|h)|h)|h)|h)|h)|h)|h)|h)|h)|h)|h)|h)|h)|h)|h)|h)|h)|h) <;>
    subst h <;> decide

theorem isWordChar_toNat {c : Char} (h : isWordChar c = true) :
    (48 ≤ c.toNat ∧ c.toNat ≤ 57) ∨ (65 ≤ c.toNat ∧ c.toNat ≤ 90) ∨
    (97 ≤ c.toNat ∧ c.toNat ≤ 122) ∨ c.toNat = 95 := by
  simp only [isWordChar, Bool.or_eq_true, Bool.and_eq_true, decide_eq_true_eq] at h
  rcases h with ((h | h) | h) | h
  · exact Or.inl h
  · exact Or.inr (Or.inl h)
  · exact Or.inr (Or.inr (Or.inl h))
  · subst h; right; right; right; decide

theorem isWordChar_not_ws {c : Char} (h : isWordChar c = true) : isJsWs c = false := by
  cases hws : isJsWs c with
  | false => rfl
  | true =>
    have h1 := isJsWs_toNat hws
    have h2 := isWordChar_toNat h
    omega

/-! ## Line-structure lemmas for merged documents -/

theorem splitNl_mem (s : Str) : ∀ l ∈ splitNl s, '\n' ∉ l := by
  induction s with
  | nil =>
    intro l hl
    simp [splitNl] at hl
    subst hl; simp
  | cons c cs ih =>
    intro l hl
    simp only [splitNl] at hl
    cases h : splitNl cs with
    | nil => exact absurd h (splitNl_ne_nil cs)
    | cons r rs =>
      rw [h] at hl
      have hr : '\n' ∉ r := ih r (h ▸ List.mem_cons_self _ _)
      by_cases hc : c = '\n'
      · simp [hc] at hl
        rcases hl with hl | hl | hl
        · subst hl; simp
        · subst hl; exact hr
        · exact ih l (h ▸ List.mem_cons_of_mem _ hl)
      · simp [hc] at hl
        rcases hl with hl | hl
        · subst hl
          intro hmem
          rcases List.mem_cons.1 hmem with he | he
          · exact hc he.symm
          · exact hr he
        · exact ih l (h ▸ List.mem_cons_of_mem _ hl)

theorem splitNl_cons_nl (x : Str) : splitNl ('\n' :: x) = [] :: splitNl x := by
  simp only [splitNl]
  cases h : splitNl x with
  | nil => exact absurd h (splitNl_ne_nil x)
  | cons r rs => simp

theorem joinNl_splitNl (s : Str) : joinNl (splitNl s) = s := by
  induction s with
  | nil => rfl
  | cons c cs ih =>
    by_cases hc : c = '\n'
    · subst hc
      rw [splitNl_cons_nl]
      cases h : splitNl cs with
      | nil => exact absurd h (splitNl_ne_nil cs)
      | cons r rs =>
        rw [joinNl_cons₂]
        rw [h] at ih
        simp [ih]
    · cases h : splitNl cs with
      | nil => exact absurd h (splitNl_ne_nil cs)
      | cons r rs =>
        have hstep : splitNl (c :: cs) = (c :: r) :: rs := by
          simp only [splitNl, h]
          simp [hc]
        rw [hstep]
        rw [h] at ih
        cases rs with
        | nil =>
          simp only [joinNl, joinSep] at ih ⊢
          simp [ih]
        | cons x xs =>
          rw [joinNl_cons₂] at ih
          rw [joinNl_cons₂]
          simp only [List.cons_append]
          rw [ih]

theorem splitNl_append_nl (a r : Str) : splitNl (a ++ '\n' :: r) = splitNl a ++ splitNl r := by
  induction a with
  | nil =>
    rw [List.nil_append, splitNl_cons_nl]
    rfl
  | cons c cs ih =>
    rw [List.cons_append]
    simp only [splitNl]
    rw [ih]
    cases h1 : splitNl cs with
    | nil => exact absurd h1 (splitNl_ne_nil cs)
    | cons r1 rs1 =>
      by_cases hc : c = '\n' <;> simp [hc]

theorem splitNl_joinNl_flat : ∀ (L : List Str), L ≠ [] →
    splitNl (joinNl L) = L.flatMap splitNl := by
  intro L
  induction L with
  | nil => intro h; exact absurd rfl h
  | cons a t ih =>
    intro _
    cases t with
    | nil => simp [joinNl, joinSep]
    | cons b ts =>
      rw [joinNl_cons₂, splitNl_append_nl, ih (by simp)]
      simp

theorem joinSep_cons₂ (sep : Str) (x y : Str) (t : List Str) :
    joinSep sep (x :: y :: t) = x ++ sep ++ joinSep sep (y :: t) := rfl

theorem splitNl_merged (b : Str) (rest : List Str) :
    splitNl (joinSep (chars ("\n\n")) (b :: rest) ++ [ '\n' ]) =
      splitNl b ++ rest.flatMap (fun s => [] :: splitNl s) ++ [[]] := by
  induction rest generalizing b with
  | nil =>
    have : joinSep (chars ("\n\n")) [b] = b := rfl
    rw [this]
    have h2 : b ++ [ '\n' ] = b ++ '\n' :: [] := rfl
    rw [h2, splitNl_append_nl]
    simp [splitNl]
  | cons s rest' ih =>
    rw [joinSep_cons₂]
    have h3 : (b ++ chars ("\n\n") ++ joinSep (chars ("\n\n")) (s :: rest')) ++ [ '\n' ] =
        b ++ '\n' :: ('\n' :: (joinSep (chars ("\n\n")) (s :: rest') ++ [ '\n' ])) := by
      simp [chars, List.append_assoc]
    rw [h3, splitNl_append_nl, splitNl_cons_nl, ih s]
    simp

theorem splitOnChar_ne_nil (sep : Char) (s : Str) : splitOnChar sep s ≠ [] := by
  cases s with
  | nil => simp [splitOnChar]
  | cons c cs =>
    simp only [splitOnChar]
    cases h : splitOnChar sep cs with
    | nil => simp
    | cons r rs => by_cases hc : c = sep <;> simp [hc]

theorem splitOnChar_no_sep (sep : Char) (s : Str) (hs : sep ∉ s) :
    splitOnChar sep s = [s] := by
  induction s with
  | nil => simp [splitOnChar]
  | cons c cs ih =>
    have hc : c ≠ sep := by intro h; exact hs (h ▸ List.mem_cons_self c cs)
    have hs' : sep ∉ cs := fun h => hs (List.mem_cons_of_mem c h)
    simp only [splitOnChar, ih hs']
    simp [hc]

theorem splitOnChar_append_cons (sep : Char) (a : Str) (rest : Str) (ha : sep ∉ a) :
    splitOnChar sep (a ++ sep :: rest) = a :: splitOnChar sep rest := by
  induction a with
  | nil =>
    simp only [List.nil_append, splitOnChar]
    cases h : splitOnChar sep rest with
    | nil => exact absurd h (splitOnChar_ne_nil sep rest)
    | cons r rs => simp
  | cons c cs ih =>
    have hc : c ≠ sep := by intro h; exact ha (h ▸ List.mem_cons_self c cs)
    have ha' : sep ∉ cs := fun h => ha (List.mem_cons_of_mem c h)
    simp only [List.cons_append, splitOnChar, List.append_eq]
    rw [ih ha']
    cases h : splitOnChar sep rest with
    | nil => exact absurd h (splitOnChar_ne_nil sep rest)
    | cons r rs => simp [hc]

theorem splitOnChar_joinSep (sep : Char) (l : List Str) (hl : l ≠ [])
    (hsep : ∀ s ∈ l, sep ∉ s) : splitOnChar sep (joinSep [sep] l) = l := by
  induction l with
  | nil => exact absurd rfl hl
  | cons a rest ih =>
    cases rest with
    | nil =>
      simp only [joinSep]
      exact splitOnChar_no_sep sep a (hsep a (List.mem_cons_self a []))
    | cons b rs =>
      have ha : sep ∉ a := hsep a (List.mem_cons_self _ _)
      have hrest : ∀ s ∈ b :: rs, sep ∉ s := fun s hs => hsep s (List.mem_cons_of_mem a hs)
      have : joinSep [sep] (a :: b :: rs) = a ++ sep :: joinSep [sep] (b :: rs) := by
        rw [joinSep_cons₂]; simp
      rw [this, splitOnChar_append_cons sep a _ ha, ih (by simp) hrest]

theorem mem_joinSep (sep : Str) (l : List Str) (c : Char) (h : c ∈ joinSep sep l) :
    c ∈ sep ∨ ∃ s ∈ l, c ∈ s := by
  induction l with
  | nil => simp [joinSep] at h
  | cons a t ih =>
    cases t with
    | nil => exact Or.inr ⟨a, by simp, h⟩
    | cons b ts =>
      rw [joinSep_cons₂] at h
      rcases List.mem_append.1 h with h1 | h1
      · rcases List.mem_append.1 h1 with h2 | h2
        · exact Or.inr ⟨a, by simp, h2⟩
        · exact Or.inl h2
      · rcases ih h1 with h2 | ⟨s, hs, hc⟩
        · exact Or.inl h2
        · exact Or.inr ⟨s, List.mem_cons_of_mem a hs, hc⟩

theorem range_getD (l : List Str) :
    (List.range l.length).map (fun i => l.getD i []) = l := by
  induction l with
  | nil => simp
  | cons a t ih =>
    rw [List.length_cons, List.range_succ_eq_map, List.map_cons]
    have h0 : (a :: t).getD 0 [] = a := rfl
    rw [h0, List.map_map]
    have h1 : ((fun i => (a :: t).getD i []) ∘ Nat.succ) = fun i => t.getD i [] := by
      funext i; simp
    rw [h1, ih]

theorem trimTrailingBlank_append (xs bs : List Str)
    (h : ∀ b ∈ bs, (jsTrim b).isEmpty = true) :
    trimTrailingBlank (xs ++ bs) = trimTrailingBlank xs := by
  simp only [trimTrailingBlank, List.reverse_append]
  congr 1
  rw [List.dropWhile_append]
  have hnil : bs.reverse.dropWhile (fun l => (jsTrim l).isEmpty) = [] := by
    rw [List.dropWhile_eq_nil_iff]
    intro b hb
    exact h b (List.mem_reverse.1 hb)
  simp [hnil]

theorem strStarts_of_dropLit : ∀ (s p r : Str), dropLit s p = some r →
    strStarts s p = true := by
  intro s p
  induction p generalizing s with
  | nil => intro r _; cases s <;> rfl
  | cons q qs ih =>
    intro r h
    cases s with
    | nil => simp [dropLit] at h
    | cons c cs =>
      simp only [dropLit] at h
      split at h
      · rename_i hcq
        simp only [strStarts, hcq]
        simp [ih cs r h]
      · exact absurd h (by simp)

theorem extractFrontmatter_none (s : Str) (h : strStarts s (chars ("---")) = false) :
    extractFrontmatter s = ([], s) := by
  simp only [extractFrontmatter]
  cases hd : dropLit s (chars ("---")) with
  | none => rfl
  | some r => exact absurd (strStarts_of_dropLit s _ r hd) (by simp [h])

theorem jsOr_some_nil (s : Str) : jsOr (some s) [] = s := by
  by_cases h : s = [] <;> simp [jsOr, h]

/-! ## Canonical attribute-line parsing -/

theorem takeNonQuote0_mk (v rest : Str) (hv : ∀ c ∈ v, c ≠ '"') :
    takeNonQuote0 (v ++ '"' :: rest) = some (v, rest) := by
  have hspan := span_exact (fun c => decide (c ≠ '"')) v ('"' :: rest)
    (by intro c hc; simpa using hv c hc)
    (by intro c hc; simp at hc; subst hc; simp)
  simp only [takeNonQuote0]
  rw [hspan.1, hspan.2]
  simp

theorem takeNonQuote1_mk (v rest : Str) (hv : ∀ c ∈ v, c ≠ '"') (hne : v ≠ []) :
    takeNonQuote1 (v ++ '"' :: rest) = some (v, rest) := by
  simp only [takeNonQuote1]
  rw [takeNonQuote0_mk v rest hv]
  simp [hne]

theorem takeDigits1_natDec (n : Nat) (rest : Str) (c : Char)
    (hc : rest.head? = some c) (hcd : isDigitCh c = false) :
    takeDigits1 (natDec n ++ rest) = some (natDec n, rest) := by
  have hspan := span_exact isDigitCh (natDec n) rest (natDec_all_digits n)
    (by intro d hd; rw [hc] at hd; simp at hd; subst hd; exact hcd)
  simp only [takeDigits1]
  rw [hspan.1, hspan.2]
  simp [natDecAux_ne_nil (n + 1) n (by omega), natDec]

theorem attrLine_trim (pre key v : Str)
    (hpre : pre = chars ("  ") ++ key ++ chars ("=\""))
    (hk1 : key ≠ []) (hk : ∀ c ∈ key, isWordChar c = true) :
    jsTrim (pre ++ v ++ [ '"' ]) = key ++ (chars ("=\"") ++ (v ++ [ '"' ])) := by
  subst hpre
  have hline : chars ("  ") ++ key ++ chars ("=\"") ++ v ++ [ '"' ] =
      chars ("  ") ++ (key ++ (chars ("=\"") ++ (v ++ [ '"' ]))) := by
    simp [List.append_assoc]
  rw [hline]
  apply jsTrim_core
  · intro c hc
    have h2 : chars ("  ") = [' ', ' '] := rfl
    rw [h2] at hc
    simp at hc
    subst hc
    decide
  · intro c hc
    cases key with
    | nil => exact absurd rfl hk1
    | cons k ks =>
      simp at hc
      subst hc
      exact isWordChar_not_ws (hk k (by simp))
  · intro c hc
    have h3 : key ++ (chars ("=\"") ++ (v ++ [ '"' ])) =
        (key ++ (chars ("=\"") ++ v)) ++ [ '"' ] := by simp [List.append_assoc]
    rw [h3, List.getLast?_concat] at hc
    simp at hc
    subst hc
    decide

theorem attrLineMatch_mk (pre key v : Str)
    (hpre : pre = chars ("  ") ++ key ++ chars ("=\""))
    (hk1 : key ≠ []) (hk : ∀ c ∈ key, isWordChar c = true) (hv : noQN v = true) :
    attrLineMatch (pre ++ v ++ [ '"' ]) = some (key, v) := by
  have htrim := attrLine_trim pre key v hpre hk1 hk
  have hspan := span_exact isWordChar key (chars ("=\"") ++ (v ++ [ '"' ])) hk
    (by intro c hc
        have h8 : (chars ("=\"") ++ (v ++ [ '"' ])).head? = some '=' := rfl
        rw [h8] at hc
        simp at hc
        subst hc
        decide)
  have hvq : ∀ c ∈ v, c ≠ '"' := by
    intro c hc
    simp only [noQN, List.all_eq_true] at hv
    have := hv c hc
    simp at this
    exact this.1
  have hnq : takeNonQuote0 (v ++ [ '"' ]) = some (v, []) :=
    takeNonQuote0_mk v [] hvq
  simp only [attrLineMatch, htrim]
  rw [hspan.1, hspan.2, if_neg hk1, dropLit_append]
  simp [hnq]

theorem attrLine_ne_marker (pre key v : Str)
    (hpre : pre = chars ("  ") ++ key ++ chars ("=\""))
    (hk1 : key ≠ []) (hk : ∀ c ∈ key, isWordChar c = true) :
    jsTrim (pre ++ v ++ [ '"' ]) ≠ chars ("-->") := by
  rw [attrLine_trim pre key v hpre hk1 hk]
  cases key with
  | nil => exact absurd rfl hk1
  | cons k ks =>
    intro he
    have h1 := congrArg List.head? he
    have h2 : ((k :: ks) ++ (chars ("=\"") ++ (v ++ [ '"' ]))).head? = some k := rfl
    have h3 : (chars ("-->")).head? = some '-' := rfl
    rw [h2, h3] at h1
    simp at h1
    subst h1
    have h4 := isWordChar_toNat (hk '-' (by simp))
    revert h4
    decide

/-- A trimmed string of word characters is its own trim. -/
theorem jsTrim_word (s : Str) (hne : s ≠ []) (hs : ∀ c ∈ s, isWordChar c = true) :
    jsTrim s = s := by
  apply jsTrim_self
  · intro c hc
    cases s with
    | nil => exact absurd rfl hne
    | cons a t =>
      simp at hc
      subst hc
      exact isWordChar_not_ws (hs a (by simp))
  · intro c hc
    have hmem : c ∈ s := by
      rcases List.mem_getLast?_eq_getLast (l := s) (x := c) (by simp [Option.mem_def, hc]) with ⟨hne2, hce⟩
      subst hce
      exact List.getLast_mem hne2
    exact isWordChar_not_ws (hs c hmem)

/-! ## Validity predicates for canonical (serializer-produced) records -/

/-- A non-empty string of word characters (safe gate-blocker and id shape). -/
def wordStr (s : Str) : Bool := !s.isEmpty && s.all isWordChar

def memoOk (m : MemoV2) : Bool :=
  noQN m.id && noQN m.type && noQN m.status && noQN m.owner && noQN m.source &&
  noQN m.color && noQN m.text && noQN m.anchorText && noQN m.anchor &&
  noQN m.createdAt && noQN m.updatedAt &&
  !m.id.isEmpty && !m.type.isEmpty && !m.status.isEmpty && !m.owner.isEmpty &&
  !m.source.isEmpty && !m.color.isEmpty && !m.anchorText.isEmpty &&
  !m.createdAt.isEmpty && !m.updatedAt.isEmpty

def gateOk (g : Gate) : Bool :=
  noQN g.id && !g.id.isEmpty && noQN g.type && !g.type.isEmpty &&
  noQN g.status && !g.status.isEmpty &&
  g.blockedBy.all wordStr && noQN g.canProceedIf && noQN g.doneDefinition

def cursorOk (c : PlanCursor) : Bool :=
  noQN c.taskId && noQN c.step && noQN c.nextAction && noQN c.lastSeenHash &&
  noQN c.updatedAt && !c.updatedAt.isEmpty

def cpSecOk (s : Str) : Bool :=
  !s.isEmpty && s.all (fun c => !(c = ',') && !(c = '"') && !(c = '\n'))

def cpOk (cp : Checkpoint) : Bool :=
  !cp.id.isEmpty && noQN cp.id && !cp.timestamp.isEmpty && noQN cp.timestamp &&
  noQN cp.note && cp.sectionsReviewed.all cpSecOk

/-- A valid bundle: no frontmatter, plain trailing-trimmed body whose first
characters are not a frontmatter opener, and canonical records throughout. -/
def partsOk (p : DocumentParts) : Bool :=
  p.frontmatter.isEmpty &&
  !(strStarts p.body (chars ("---"))) &&
  (splitNl p.body).all plainLine &&
  (joinNl (trimTrailingBlank (splitNl p.body)) == p.body) &&
  p.memos.all memoOk && p.gates.all gateOk && p.checkpoints.all cpOk &&
  (match p.cursor with | some c => cursorOk c | none => true) &&
  p.unknownComments.isEmpty

/-! ## Attribute-record computations for serialized blocks -/

def attrList11 (i t s o sr c te a an ca ua : Str) : List (Str × Str) :=
  [(chars ("id"), i), (chars ("type"), t), (chars ("status"), s),
   (chars ("owner"), o), (chars ("source"), sr), (chars ("color"), c),
   (chars ("text"), te), (chars ("anchorText"), a), (chars ("anchor"), an),
   (chars ("createdAt"), ca), (chars ("updatedAt"), ua)]

def attrListG (i t s bb cpi dd : Str) : List (Str × Str) :=
  [(chars ("id"), i), (chars ("type"), t), (chars ("status"), s),
   (chars ("blockedBy"), bb), (chars ("canProceedIf"), cpi),
   (chars ("doneDefinition"), dd)]

def attrListC (ti st na ls ua : Str) : List (Str × Str) :=
  [(chars ("taskId"), ti), (chars ("step"), st), (chars ("nextAction"), na),
   (chars ("lastSeenHash"), ls), (chars ("updatedAt"), ua)]

theorem map_id_of (f : Str → Str) (l : List Str) (h : ∀ a ∈ l, f a = a) :
    l.map f = l := by
  induction l with
  | nil => rfl
  | cons a t ih =>
    rw [List.map_cons, h a (by simp), ih (fun b hb => h b (by simp [hb]))]

theorem mkV4_roundtrip (nowIso : Str) (nowMs : Nat) (bl : List Str)
    (i t s o sr c te a an ca ua : Str)
    (hi : i ≠ []) (ht : t ≠ []) (hs : s ≠ []) (ho : o ≠ []) (hsr : sr ≠ [])
    (hc : c ≠ []) (ha : a ≠ []) (hca : ca ≠ []) (hua : ua ≠ []) :
    mkV4Memo nowIso nowMs bl (attrList11 i t s o sr c te a an ca ua) =
      ⟨i, t, s, o, sr, c, te, a, an, ca, ua⟩ := by
  have e1 : getAttr (attrList11 i t s o sr c te a an ca ua) (chars ("id")) = some i := rfl
  have e2 : getAttr (attrList11 i t s o sr c te a an ca ua) (chars ("type")) = some t := rfl
  have e3 : getAttr (attrList11 i t s o sr c te a an ca ua) (chars ("status")) = some s := rfl
  have e4 : getAttr (attrList11 i t s o sr c te a an ca ua) (chars ("owner")) = some o := rfl
  have e5 : getAttr (attrList11 i t s o sr c te a an ca ua) (chars ("source")) = some sr := rfl
  have e6 : getAttr (attrList11 i t s o sr c te a an ca ua) (chars ("color")) = some c := rfl
  have e7 : getAttr (attrList11 i t s o sr c te a an ca ua) (chars ("text")) = some te := rfl
  have e8 : getAttr (attrList11 i t s o sr c te a an ca ua) (chars ("anchorText")) = some a := rfl
  have e9 : getAttr (attrList11 i t s o sr c te a an ca ua) (chars ("anchor")) = some an := rfl
  have e10 : getAttr (attrList11 i t s o sr c te a an ca ua) (chars ("createdAt")) = some ca := rfl
  have e11 : getAttr (attrList11 i t s o sr c te a an ca ua) (chars ("updatedAt")) = some ua := rfl
  simp only [mkV4Memo, e1, e2, e3, e4, e5, e6, e7, e8, e9, e10, e11, jsOr]
  by_cases hte : te = [] <;> by_cases han : an = [] <;>
    simp [hi, ht, hs, ho, hsr, hc, ha, hca, hua, hte, han]

theorem blockedBy_roundtrip (bb : List Str) (h : bb.all wordStr = true) :
    (if joinSep (chars (",")) bb = [] then [] else
      ((splitOnChar ',' (joinSep (chars (",")) bb)).map jsTrim).filter
        (fun x => !x.isEmpty)) = bb := by
  cases bb with
  | nil => simp [joinSep]
  | cons x rest =>
    have hall : ∀ s ∈ x :: rest, s ≠ [] ∧ ∀ c ∈ s, isWordChar c = true := by
      intro s hsm
      have hws := (List.all_eq_true.1 h) s hsm
      simp only [wordStr, Bool.and_eq_true, Bool.not_eq_true',
        List.isEmpty_eq_false_iff_exists_mem, List.all_eq_true] at hws
      constructor
      · rcases hws.1 with ⟨el, hel⟩
        intro hcon
        rw [hcon] at hel
        simp at hel
      · exact hws.2
    have hx : x ≠ [] := (hall x (by simp)).1
    have hne : joinSep (chars (",")) (x :: rest) ≠ [] := by
      cases rest with
      | nil => simpa [joinSep] using hx
      | cons y ys =>
        rw [joinSep_cons₂]
        intro hcon
        rw [List.append_assoc, List.append_eq_nil] at hcon
        exact hx hcon.1
    rw [if_neg hne]
    have hsep : ∀ s ∈ x :: rest, ',' ∉ s := by
      intro s hsm hmem
      have hw := (hall s hsm).2 ',' hmem
      have : isWordChar ',' = false := by decide
      rw [this] at hw
      exact absurd hw (by simp)
    have hchars : chars (",") = [','] := rfl
    rw [hchars, splitOnChar_joinSep ',' (x :: rest) (by simp) hsep]
    rw [map_id_of jsTrim (x :: rest)
      (fun sEl hsEl => jsTrim_word sEl (hall sEl hsEl).1 (hall sEl hsEl).2)]
    rw [List.filter_eq_self.2]
    intro sEl hsEl
    have := (hall sEl hsEl).1
    simp [List.isEmpty_iff, this]

theorem mkGate_roundtrip (nowMs : Nat) (i t s : Str) (bb : List Str) (cpi dd : Str)
    (hi : i ≠ []) (ht : t ≠ []) (hs : s ≠ []) (hbb : bb.all wordStr = true) :
    mkGate nowMs (attrListG i t s (joinSep (chars (",")) bb) cpi dd) =
      ⟨i, t, s, bb, cpi, dd⟩ := by
  have e1 : getAttr (attrListG i t s (joinSep (chars (",")) bb) cpi dd) (chars ("id")) = some i := rfl
  have e2 : getAttr (attrListG i t s (joinSep (chars (",")) bb) cpi dd) (chars ("type")) = some t := rfl
  have e3 : getAttr (attrListG i t s (joinSep (chars (",")) bb) cpi dd) (chars ("status")) = some s := rfl
  have e4 : getAttr (attrListG i t s (joinSep (chars (",")) bb) cpi dd) (chars ("blockedBy")) =
      some (joinSep (chars (",")) bb) := rfl
  have e5 : getAttr (attrListG i t s (joinSep (chars (",")) bb) cpi dd) (chars ("canProceedIf")) = some cpi := rfl
  have e6 : getAttr (attrListG i t s (joinSep (chars (",")) bb) cpi dd) (chars ("doneDefinition")) = some dd := rfl
  simp only [mkGate, e1, e2, e3, e4, e5, e6]
  rw [blockedBy_roundtrip bb hbb]
  by_cases hcpi : cpi = [] <;> by_cases hdd : dd = [] <;>
    simp [jsOr, hi, ht, hs, hcpi, hdd]

theorem mkCursor_roundtrip (nowIso : Str) (ti st na ls ua : Str) (hua : ua ≠ []) :
    mkCursor nowIso (attrListC ti st na ls ua) = ⟨ti, st, na, ls, ua⟩ := by
  have e1 : getAttr (attrListC ti st na ls ua) (chars ("taskId")) = some ti := rfl
  have e2 : getAttr (attrListC ti st na ls ua) (chars ("step")) = some st := rfl
  have e3 : getAttr (attrListC ti st na ls ua) (chars ("nextAction")) = some na := rfl
  have e4 : getAttr (attrListC ti st na ls ua) (chars ("lastSeenHash")) = some ls := rfl
  have e5 : getAttr (attrListC ti st na ls ua) (chars ("updatedAt")) = some ua := rfl
  simp only [mkCursor, e1, e2, e3, e4, e5, jsOr_some_nil]
  simp [jsOr, hua]

theorem noQN_no_quote (s : Str) (h : noQN s = true) : ∀ c ∈ s, c ≠ '"' := by
  intro c hc
  simp only [noQN, List.all_eq_true] at h
  have := h c hc
  simp at this
  exact this.1

theorem noQN_no_nl (s : Str) (h : noQN s = true) : '\n' ∉ s := by
  intro hc
  simp only [noQN, List.all_eq_true] at h
  have := h '\n' hc
  simp at this

theorem takeWs1_sp (d : Char) (r : Str) (hd : isJsWs d = false) :
    takeWs1 (' ' :: d :: r) = some (d :: r) := by
  simp only [takeWs1]
  rw [if_pos (by decide)]
  rw [List.dropWhile_cons_of_neg (by simp [hd])]

theorem secs_roundtrip (secs : List Str) (h : secs.all cpSecOk = true) :
    (if joinSep (chars (",")) secs = [] then [] else
      splitOnChar ',' (joinSep (chars (",")) secs)) = secs := by
  cases secs with
  | nil => simp [joinSep]
  | cons x rest =>
    have hall : ∀ s ∈ x :: rest, s ≠ [] ∧ ',' ∉ s := by
      intro s hsm
      have hws := (List.all_eq_true.1 h) s hsm
      simp only [cpSecOk, Bool.and_eq_true, Bool.not_eq_true',
        List.isEmpty_eq_false_iff_exists_mem, List.all_eq_true] at hws
      constructor
      · rcases hws.1 with ⟨el, hel⟩
        intro hcon
        rw [hcon] at hel
        simp at hel
      · intro hmem
        have := hws.2 ',' hmem
        simp at this
    have hx : x ≠ [] := (hall x (by simp)).1
    have hne : joinSep (chars (",")) (x :: rest) ≠ [] := by
      cases rest with
      | nil => simpa [joinSep] using hx
      | cons y ys =>
        rw [joinSep_cons₂]
        intro hcon
        rw [List.append_assoc, List.append_eq_nil] at hcon
        exact hx hcon.1
    rw [if_neg hne]
    have hchars : chars (",") = [','] := rfl
    rw [hchars, splitOnChar_joinSep ',' (x :: rest) (by simp)
      (fun s hsm => (hall s hsm).2)]

theorem checkpointMatch_serial (cp : Checkpoint) (h : cpOk cp = true) :
    checkpointMatch (serializeCheckpoint cp) = some cp := by
  obtain ⟨i, ts, no, fx, qs, hl, secs⟩ := cp
  simp only [cpOk, Bool.and_eq_true] at h
  obtain ⟨⟨⟨⟨⟨hie, hiq⟩, htse⟩, htsq⟩, hnoq⟩, hsecs⟩ := h
  have hine : i ≠ [] := by intro hcon; subst hcon; simp at hie
  have htsne : ts ≠ [] := by intro hcon; subst hcon; simp at htse
  have r1 : ∀ X : Str, dropLit (chars ("<!-- CHECKPOINT id=\"") ++ X)
      (chars ("<!-- CHECKPOINT")) = some (chars (" id=\"") ++ X) := by
    intro X
    rw [show chars ("<!-- CHECKPOINT id=\"") ++ X =
      chars ("<!-- CHECKPOINT") ++ (chars (" id=\"") ++ X) from rfl, dropLit_append]
  have r2 : ∀ X : Str, takeWs1 (chars (" id=\"") ++ X) = some (chars ("id=\"") ++ X) := by
    intro X
    rw [show chars (" id=\"") ++ X = ' ' :: 'i' :: (chars ("d=\"") ++ X) from rfl]
    exact takeWs1_sp 'i' _ (by decide)
  have r4 : ∀ Y : Str, takeNonQuote1 (i ++ (chars ("\" time=\"") ++ Y)) =
      some (i, chars (" time=\"") ++ Y) := by
    intro Y
    rw [show i ++ (chars ("\" time=\"") ++ Y) =
      i ++ '"' :: (chars (" time=\"") ++ Y) from rfl]
    exact takeNonQuote1_mk i _ (noQN_no_quote i hiq) hine
  have r5 : ∀ X : Str, takeWs1 (chars (" time=\"") ++ X) = some (chars ("time=\"") ++ X) := by
    intro X
    rw [show chars (" time=\"") ++ X = ' ' :: 't' :: (chars ("ime=\"") ++ X) from rfl]
    exact takeWs1_sp 't' _ (by decide)
  have r7 : ∀ Y : Str, takeNonQuote1 (ts ++ (chars ("\" note=\"") ++ Y)) =
      some (ts, chars (" note=\"") ++ Y) := by
    intro Y
    rw [show ts ++ (chars ("\" note=\"") ++ Y) =
      ts ++ '"' :: (chars (" note=\"") ++ Y) from rfl]
    exact takeNonQuote1_mk ts _ (noQN_no_quote ts htsq) htsne
  have r8 : ∀ X : Str, takeWs1 (chars (" note=\"") ++ X) = some (chars ("note=\"") ++ X) := by
    intro X
    rw [show chars (" note=\"") ++ X = ' ' :: 'n' :: (chars ("ote=\"") ++ X) from rfl]
    exact takeWs1_sp 'n' _ (by decide)
  have r10 : ∀ Y : Str, takeNonQuote0 (no ++ (chars ("\" fixes=") ++ Y)) =
      some (no, chars (" fixes=") ++ Y) := by
    intro Y
    rw [show no ++ (chars ("\" fixes=") ++ Y) =
      no ++ '"' :: (chars (" fixes=") ++ Y) from rfl]
    exact takeNonQuote0_mk no _ (noQN_no_quote no hnoq)
  have r11 : ∀ X : Str, takeWs1 (chars (" fixes=") ++ X) = some (chars ("fixes=") ++ X) := by
    intro X
    rw [show chars (" fixes=") ++ X = ' ' :: 'f' :: (chars ("ixes=") ++ X) from rfl]
    exact takeWs1_sp 'f' _ (by decide)
  have r13 : ∀ Y : Str, takeDigits1 (natDec fx ++ (chars (" questions=") ++ Y)) =
      some (natDec fx, chars (" questions=") ++ Y) := by
    intro Y
    exact takeDigits1_natDec fx _ ' ' rfl (by decide)
  have r14 : ∀ X : Str, takeWs1 (chars (" questions=") ++ X) =
      some (chars ("questions=") ++ X) := by
    intro X
    rw [show chars (" questions=") ++ X = ' ' :: 'q' :: (chars ("uestions=") ++ X) from rfl]
    exact takeWs1_sp 'q' _ (by decide)
  have r16 : ∀ Y : Str, takeDigits1 (natDec qs ++ (chars (" highlights=") ++ Y)) =
      some (natDec qs, chars (" highlights=") ++ Y) := by
    intro Y
    exact takeDigits1_natDec qs _ ' ' rfl (by decide)
  have r17 : ∀ X : Str, takeWs1 (chars (" highlights=") ++ X) =
      some (chars ("highlights=") ++ X) := by
    intro X
    rw [show chars (" highlights=") ++ X = ' ' :: 'h' :: (chars ("ighlights=") ++ X) from rfl]
    exact takeWs1_sp 'h' _ (by decide)
  have r19 : ∀ Y : Str, takeDigits1 (natDec hl ++ (chars (" sections=\"") ++ Y)) =
      some (natDec hl, chars (" sections=\"") ++ Y) := by
    intro Y
    exact takeDigits1_natDec hl _ ' ' rfl (by decide)
  have r20 : ∀ X : Str, takeWs1 (chars (" sections=\"") ++ X) =
      some (chars ("sections=\"") ++ X) := by
    intro X
    rw [show chars (" sections=\"") ++ X = ' ' :: 's' :: (chars ("ections=\"") ++ X) from rfl]
    exact takeWs1_sp 's' _ (by decide)
  have r22 : takeNonQuote0 (joinSep (chars (",")) secs ++ chars ("\" -->")) =
      some (joinSep (chars (",")) secs, chars (" -->")) := by
    rw [show joinSep (chars (",")) secs ++ chars ("\" -->") =
      joinSep (chars (",")) secs ++ '"' :: chars (" -->") from rfl]
    apply takeNonQuote0_mk
    intro c hc
    rcases mem_joinSep _ _ _ hc with h1 | ⟨s, hsm, hcs⟩
    · rw [show chars (",") = [','] from rfl] at h1
      simp at h1
      subst h1
      decide
    · have hws := (List.all_eq_true.1 hsecs) s hsm
      simp only [cpSecOk, Bool.and_eq_true, List.all_eq_true] at hws
      have := hws.2 c hcs
      simp at this
      exact this.1.2
  simp only [serializeCheckpoint]
  rw [escQuot_id no hnoq]
  simp only [List.append_assoc]
  simp only [checkpointMatch, r1, r2, r4, r5, r7, r8, r10, r11, r13, r14, r16,
    r17, r19, r20, r22, dropLit_append]
  simp only [if_true]
  simp [digitsVal_natDec, secs_roundtrip secs hsecs]

/-! ## Scanning serialized blocks -/

def memoAttrLines (m : MemoV2) : List Str :=
  [ chars ("  id=\"") ++ escQuot m.id ++ [ '"' ],
    chars ("  type=\"") ++ m.type ++ [ '"' ],
    chars ("  status=\"") ++ m.status ++ [ '"' ],
    chars ("  owner=\"") ++ m.owner ++ [ '"' ],
    chars ("  source=\"") ++ escQuot m.source ++ [ '"' ],
    chars ("  color=\"") ++ m.color ++ [ '"' ],
    chars ("  text=\"") ++ escQuot m.text ++ [ '"' ],
    chars ("  anchorText=\"") ++ escQuot m.anchorText ++ [ '"' ],
    chars ("  anchor=\"") ++ escQuot m.anchor ++ [ '"' ],
    chars ("  createdAt=\"") ++ m.createdAt ++ [ '"' ],
    chars ("  updatedAt=\"") ++ m.updatedAt ++ [ '"' ] ]

theorem memoBlockLines_eq (m : MemoV2) :
    memoBlockLines m = chars ("<!-- USER_MEMO") :: (memoAttrLines m ++ [chars ("-->")]) := rfl

theorem scanStep_memoBlock (nowIso : Str) (nowMs : Nat) (acc : SplitAcc)
    (m : MemoV2) (rest : List Str) (h : memoOk m = true) :
    scanStep nowIso nowMs acc (memoBlockLines m ++ rest) =
      some ({ acc with memos := acc.memos ++ [m] }, rest) := by
  simp only [memoOk, Bool.and_eq_true, Bool.not_eq_true', List.isEmpty_eq_false] at h
  obtain ⟨⟨⟨⟨⟨⟨⟨⟨⟨⟨⟨⟨⟨⟨⟨⟨⟨⟨⟨hq1, hq2⟩, hq3⟩, hq4⟩, hq5⟩, hq6⟩, hq7⟩, hq8⟩, hq9⟩,
    hq10⟩, hq11⟩, hn1⟩, hn2⟩, hn3⟩, hn4⟩, hn5⟩, hn6⟩, hn7⟩, hn8⟩, hn9⟩ := h
  have hesc1 := escQuot_id m.id hq1
  have hesc5 := escQuot_id m.source hq5
  have hesc7 := escQuot_id m.text hq7
  have hesc8 := escQuot_id m.anchorText hq8
  have hesc9 := escQuot_id m.anchor hq9
  have a1 : attrLineMatch (chars ("  id=\"") ++ m.id ++ [ '"' ]) = some (chars ("id"), m.id) :=
    attrLineMatch_mk (chars ("  id=\"")) (chars ("id")) m.id rfl (by decide) (by decide) hq1
  have a2 : attrLineMatch (chars ("  type=\"") ++ m.type ++ [ '"' ]) = some (chars ("type"), m.type) :=
    attrLineMatch_mk (chars ("  type=\"")) (chars ("type")) m.type rfl (by decide) (by decide) hq2
  have a3 : attrLineMatch (chars ("  status=\"") ++ m.status ++ [ '"' ]) = some (chars ("status"), m.status) :=
    attrLineMatch_mk (chars ("  status=\"")) (chars ("status")) m.status rfl (by decide) (by decide) hq3
  have a4 : attrLineMatch (chars ("  owner=\"") ++ m.owner ++ [ '"' ]) = some (chars ("owner"), m.owner) :=
    attrLineMatch_mk (chars ("  owner=\"")) (chars ("owner")) m.owner rfl (by decide) (by decide) hq4
  have a5 : attrLineMatch (chars ("  source=\"") ++ m.source ++ [ '"' ]) = some (chars ("source"), m.source) :=
    attrLineMatch_mk (chars ("  source=\"")) (chars ("source")) m.source rfl (by decide) (by decide) hq5
  have a6 : attrLineMatch (chars ("  color=\"") ++ m.color ++ [ '"' ]) = some (chars ("color"), m.color) :=
    attrLineMatch_mk (chars ("  color=\"")) (chars ("color")) m.color rfl (by decide) (by decide) hq6
  have a7 : attrLineMatch (chars ("  text=\"") ++ m.text ++ [ '"' ]) = some (chars ("text"), m.text) :=
    attrLineMatch_mk (chars ("  text=\"")) (chars ("text")) m.text rfl (by decide) (by decide) hq7
  have a8 : attrLineMatch (chars ("  anchorText=\"") ++ m.anchorText ++ [ '"' ]) =
      some (chars ("anchorText"), m.anchorText) :=
    attrLineMatch_mk (chars ("  anchorText=\"")) (chars ("anchorText")) m.anchorText rfl
      (by decide) (by decide) hq8
  have a9 : attrLineMatch (chars ("  anchor=\"") ++ m.anchor ++ [ '"' ]) = some (chars ("anchor"), m.anchor) :=
    attrLineMatch_mk (chars ("  anchor=\"")) (chars ("anchor")) m.anchor rfl (by decide) (by decide) hq9
  have a10 : attrLineMatch (chars ("  createdAt=\"") ++ m.createdAt ++ [ '"' ]) =
      some (chars ("createdAt"), m.createdAt) :=
    attrLineMatch_mk (chars ("  createdAt=\"")) (chars ("createdAt")) m.createdAt rfl
      (by decide) (by decide) hq10
  have a11 : attrLineMatch (chars ("  updatedAt=\"") ++ m.updatedAt ++ [ '"' ]) =
      some (chars ("updatedAt"), m.updatedAt) :=
    attrLineMatch_mk (chars ("  updatedAt=\"")) (chars ("updatedAt")) m.updatedAt rfl
      (by decide) (by decide) hq11
  have ne1 := attrLine_ne_marker (chars ("  id=\"")) (chars ("id")) m.id rfl (by decide) (by decide)
  have ne2 := attrLine_ne_marker (chars ("  type=\"")) (chars ("type")) m.type rfl (by decide) (by decide)
  have ne3 := attrLine_ne_marker (chars ("  status=\"")) (chars ("status")) m.status rfl (by decide) (by decide)
  have ne4 := attrLine_ne_marker (chars ("  owner=\"")) (chars ("owner")) m.owner rfl (by decide) (by decide)
  have ne5 := attrLine_ne_marker (chars ("  source=\"")) (chars ("source")) m.source rfl (by decide) (by decide)
  have ne6 := attrLine_ne_marker (chars ("  color=\"")) (chars ("color")) m.color rfl (by decide) (by decide)
  have ne7 := attrLine_ne_marker (chars ("  text=\"")) (chars ("text")) m.text rfl (by decide) (by decide)
  have ne8 := attrLine_ne_marker (chars ("  anchorText=\"")) (chars ("anchorText")) m.anchorText rfl
    (by decide) (by decide)
  have ne9 := attrLine_ne_marker (chars ("  anchor=\"")) (chars ("anchor")) m.anchor rfl (by decide) (by decide)
  have ne10 := attrLine_ne_marker (chars ("  createdAt=\"")) (chars ("createdAt")) m.createdAt rfl
    (by decide) (by decide)
  have ne11 := attrLine_ne_marker (chars ("  updatedAt=\"")) (chars ("updatedAt")) m.updatedAt rfl
    (by decide) (by decide)
  have htk : takeToMarker (fun l => decide (jsTrim l = chars ("-->")))
      (memoAttrLines m ++ chars ("-->") :: rest) = (memoAttrLines m, rest) := by
    apply takeToMarker_exact
    · intro l hl
      simp only [memoAttrLines, hesc1, hesc5, hesc7, hesc8, hesc9, List.mem_cons,
        List.not_mem_nil, or_false] at hl
      simp only [decide_eq_false_iff_not]
      rcases hl with h|h|h|h|h|h|h|h|h|h|h <;> subst h
      · exact ne1
      · exact ne2
      · exact ne3
      · exact ne4
      · exact ne5
      · exact ne6
      · exact ne7
      · exact ne8
      · exact ne9
      · exact ne10
      · exact ne11
    · decide
  have d1 : memoV3Match (jsTrim (chars ("<!-- USER_MEMO"))) = none := by decide
  have d2 : tagStartMatch (chars ("<!-- USER_MEMO")) (jsTrim (chars ("<!-- USER_MEMO"))) = true := by decide
  rw [memoBlockLines_eq]
  have harg : (chars ("<!-- USER_MEMO") :: (memoAttrLines m ++ [chars ("-->")])) ++ rest =
      chars ("<!-- USER_MEMO") :: (memoAttrLines m ++ chars ("-->") :: rest) := by simp
  rw [harg]
  simp only [scanStep, d1, d2, if_true, htk]
  have hpa : parseAttrs (memoAttrLines m) = attrList11 m.id m.type m.status m.owner
      m.source m.color m.text m.anchorText m.anchor m.createdAt m.updatedAt := by
    simp only [memoAttrLines, hesc1, hesc5, hesc7, hesc8, hesc9, parseAttrs,
      List.filterMap_cons, List.filterMap_nil, a1, a2, a3, a4, a5, a6, a7, a8, a9,
      a10, a11, attrList11]
  have hm : mkV4Memo nowIso nowMs acc.bodyLines (attrList11 m.id m.type m.status m.owner
      m.source m.color m.text m.anchorText m.anchor m.createdAt m.updatedAt) = m :=
    mkV4_roundtrip nowIso nowMs acc.bodyLines m.id m.type m.status m.owner m.source
      m.color m.text m.anchorText m.anchor m.createdAt m.updatedAt
      hn1 hn2 hn3 hn4 hn5 hn6 hn7 hn8 hn9
  rw [hpa, hm]

def gateAttrLines (g : Gate) : List Str :=
  [ chars ("  id=\"") ++ g.id ++ [ '"' ],
    chars ("  type=\"") ++ g.type ++ [ '"' ],
    chars ("  status=\"") ++ g.status ++ [ '"' ],
    chars ("  blockedBy=\"") ++ joinSep (chars (",")) g.blockedBy ++ [ '"' ],
    chars ("  canProceedIf=\"") ++ escQuot g.canProceedIf ++ [ '"' ],
    chars ("  doneDefinition=\"") ++ escQuot g.doneDefinition ++ [ '"' ] ]

theorem gateBlockLines_eq (g : Gate) :
    gateBlockLines g = chars ("<!-- GATE") :: (gateAttrLines g ++ [chars ("-->")]) := rfl

theorem joinSep_wordStr_noQN (bb : List Str) (h : bb.all wordStr = true) :
    noQN (joinSep (chars (",")) bb) = true := by
  simp only [noQN, List.all_eq_true]
  intro c hc
  rcases mem_joinSep _ _ _ hc with h1 | ⟨s, hsm, hcs⟩
  · rw [show chars (",") = [','] from rfl] at h1
    simp at h1
    subst h1
    decide
  · have hw := (List.all_eq_true.1 h) s hsm
    simp only [wordStr, Bool.and_eq_true, List.all_eq_true] at hw
    have htn := isWordChar_toNat (hw.2 c hcs)
    simp only [Bool.and_eq_true, Bool.not_eq_true', decide_eq_false_iff_not]
    constructor <;> intro hcon <;> subst hcon <;> revert htn <;> decide

theorem scanStep_gateBlock (nowIso : Str) (nowMs : Nat) (acc : SplitAcc)
    (g : Gate) (rest : List Str) (h : gateOk g = true) :
    scanStep nowIso nowMs acc (gateBlockLines g ++ rest) =
      some ({ acc with gates := acc.gates ++ [g] }, rest) := by
  simp only [gateOk, Bool.and_eq_true, Bool.not_eq_true', List.isEmpty_eq_false] at h
  obtain ⟨⟨⟨⟨⟨⟨⟨⟨hq1, hn1⟩, hq2⟩, hn2⟩, hq3⟩, hn3⟩, hbb⟩, hq5⟩, hq6⟩ := h
  have hesc5 := escQuot_id g.canProceedIf hq5
  have hesc6 := escQuot_id g.doneDefinition hq6
  have hqbb := joinSep_wordStr_noQN g.blockedBy hbb
  have a1 : attrLineMatch (chars ("  id=\"") ++ g.id ++ [ '"' ]) = some (chars ("id"), g.id) :=
    attrLineMatch_mk (chars ("  id=\"")) (chars ("id")) g.id rfl (by decide) (by decide) hq1
  have a2 : attrLineMatch (chars ("  type=\"") ++ g.type ++ [ '"' ]) = some (chars ("type"), g.type) :=
    attrLineMatch_mk (chars ("  type=\"")) (chars ("type")) g.type rfl (by decide) (by decide) hq2
  have a3 : attrLineMatch (chars ("  status=\"") ++ g.status ++ [ '"' ]) = some (chars ("status"), g.status) :=
    attrLineMatch_mk (chars ("  status=\"")) (chars ("status")) g.status rfl (by decide) (by decide) hq3
  have a4 : attrLineMatch (chars ("  blockedBy=\"") ++ joinSep (chars (",")) g.blockedBy ++ [ '"' ]) =
      some (chars ("blockedBy"), joinSep (chars (",")) g.blockedBy) :=
    attrLineMatch_mk (chars ("  blockedBy=\"")) (chars ("blockedBy")) _ rfl (by decide) (by decide) hqbb
  have a5 : attrLineMatch (chars ("  canProceedIf=\"") ++ g.canProceedIf ++ [ '"' ]) =
      some (chars ("canProceedIf"), g.canProceedIf) :=
    attrLineMatch_mk (chars ("  canProceedIf=\"")) (chars ("canProceedIf")) g.canProceedIf rfl
      (by decide) (by decide) hq5
  have a6 : attrLineMatch (chars ("  doneDefinition=\"") ++ g.doneDefinition ++ [ '"' ]) =
      some (chars ("doneDefinition"), g.doneDefinition) :=
    attrLineMatch_mk (chars ("  doneDefinition=\"")) (chars ("doneDefinition")) g.doneDefinition rfl
      (by decide) (by decide) hq6
  have ne1 := attrLine_ne_marker (chars ("  id=\"")) (chars ("id")) g.id rfl (by decide) (by decide)
  have ne2 := attrLine_ne_marker (chars ("  type=\"")) (chars ("type")) g.type rfl (by decide) (by decide)
  have ne3 := attrLine_ne_marker (chars ("  status=\"")) (chars ("status")) g.status rfl (by decide) (by decide)
  have ne4 := attrLine_ne_marker (chars ("  blockedBy=\"")) (chars ("blockedBy"))
    (joinSep (chars (",")) g.blockedBy) rfl (by decide) (by decide)
  have ne5 := attrLine_ne_marker (chars ("  canProceedIf=\"")) (chars ("canProceedIf")) g.canProceedIf rfl
    (by decide) (by decide)
  have ne6 := attrLine_ne_marker (chars ("  doneDefinition=\"")) (chars ("doneDefinition")) g.doneDefinition rfl
    (by decide) (by decide)
  have htk : takeToMarker (fun l => decide (jsTrim l = chars ("-->")))
      (gateAttrLines g ++ chars ("-->") :: rest) = (gateAttrLines g, rest) := by
    apply takeToMarker_exact
    · intro l hl
      simp only [gateAttrLines, hesc5, hesc6, List.mem_cons,
        List.not_mem_nil, or_false] at hl
      simp only [decide_eq_false_iff_not]
      rcases hl with h|h|h|h|h|h <;> subst h
      · exact ne1
      · exact ne2
      · exact ne3
      · exact ne4
      · exact ne5
      · exact ne6
    · decide
  have d1 : memoV3Match (jsTrim (chars ("<!-- GATE"))) = none := by decide
  have d2 : tagStartMatch (chars ("<!-- USER_MEMO")) (jsTrim (chars ("<!-- GATE"))) = false := by decide
  have d3 : tagStartMatch (chars ("<!-- GATE")) (jsTrim (chars ("<!-- GATE"))) = true := by decide
  rw [gateBlockLines_eq]
  have harg : (chars ("<!-- GATE") :: (gateAttrLines g ++ [chars ("-->")])) ++ rest =
      chars ("<!-- GATE") :: (gateAttrLines g ++ chars ("-->") :: rest) := by simp
  rw [harg]
  simp only [scanStep, d1, d2, d3, Bool.false_eq_true, if_false, if_true, htk]
  have hpa : parseAttrs (gateAttrLines g) = attrListG g.id g.type g.status
      (joinSep (chars (",")) g.blockedBy) g.canProceedIf g.doneDefinition := by
    simp only [gateAttrLines, hesc5, hesc6, parseAttrs,
      List.filterMap_cons, List.filterMap_nil, a1, a2, a3, a4, a5, a6, attrListG]
  have hg : mkGate nowMs (attrListG g.id g.type g.status
      (joinSep (chars (",")) g.blockedBy) g.canProceedIf g.doneDefinition) = g :=
    mkGate_roundtrip nowMs g.id g.type g.status g.blockedBy g.canProceedIf g.doneDefinition
      hn1 hn2 hn3 hbb
  rw [hpa, hg]

def cursorAttrLines (c : PlanCursor) : List Str :=
  [ chars ("  taskId=\"") ++ c.taskId ++ [ '"' ],
    chars ("  step=\"") ++ c.step ++ [ '"' ],
    chars ("  nextAction=\"") ++ escQuot c.nextAction ++ [ '"' ],
    chars ("  lastSeenHash=\"") ++ c.lastSeenHash ++ [ '"' ],
    chars ("  updatedAt=\"") ++ c.updatedAt ++ [ '"' ] ]

theorem cursorBlockLines_eq (c : PlanCursor) :
    cursorBlockLines c = chars ("<!-- PLAN_CURSOR") :: (cursorAttrLines c ++ [chars ("-->")]) := rfl

theorem scanStep_cursorBlock (nowIso : Str) (nowMs : Nat) (acc : SplitAcc)
    (c : PlanCursor) (rest : List Str) (h : cursorOk c = true) :
    scanStep nowIso nowMs acc (cursorBlockLines c ++ rest) =
      some ({ acc with cursor := some c }, rest) := by
  simp only [cursorOk, Bool.and_eq_true, Bool.not_eq_true', List.isEmpty_eq_false] at h
  obtain ⟨⟨⟨⟨⟨hq1, hq2⟩, hq3⟩, hq4⟩, hq5⟩, hn5⟩ := h
  have hesc3 := escQuot_id c.nextAction hq3
  have a1 : attrLineMatch (chars ("  taskId=\"") ++ c.taskId ++ [ '"' ]) =
      some (chars ("taskId"), c.taskId) :=
    attrLineMatch_mk (chars ("  taskId=\"")) (chars ("taskId")) c.taskId rfl (by decide) (by decide) hq1
  have a2 : attrLineMatch (chars ("  step=\"") ++ c.step ++ [ '"' ]) = some (chars ("step"), c.step) :=
    attrLineMatch_mk (chars ("  step=\"")) (chars ("step")) c.step rfl (by decide) (by decide) hq2
  have a3 : attrLineMatch (chars ("  nextAction=\"") ++ c.nextAction ++ [ '"' ]) =
      some (chars ("nextAction"), c.nextAction) :=
    attrLineMatch_mk (chars ("  nextAction=\"")) (chars ("nextAction")) c.nextAction rfl
      (by decide) (by decide) hq3
  have a4 : attrLineMatch (chars ("  lastSeenHash=\"") ++ c.lastSeenHash ++ [ '"' ]) =
      some (chars ("lastSeenHash"), c.lastSeenHash) :=
    attrLineMatch_mk (chars ("  lastSeenHash=\"")) (chars ("lastSeenHash")) c.lastSeenHash rfl
      (by decide) (by decide) hq4
  have a5 : attrLineMatch (chars ("  updatedAt=\"") ++ c.updatedAt ++ [ '"' ]) =
      some (chars ("updatedAt"), c.updatedAt) :=
    attrLineMatch_mk (chars ("  updatedAt=\"")) (chars ("updatedAt")) c.updatedAt rfl
      (by decide) (by decide) hq5
  have ne1 := attrLine_ne_marker (chars ("  taskId=\"")) (chars ("taskId")) c.taskId rfl
    (by decide) (by decide)
  have ne2 := attrLine_ne_marker (chars ("  step=\"")) (chars ("step")) c.step rfl (by decide) (by decide)
  have ne3 := attrLine_ne_marker (chars ("  nextAction=\"")) (chars ("nextAction")) c.nextAction rfl
    (by decide) (by decide)
  have ne4 := attrLine_ne_marker (chars ("  lastSeenHash=\"")) (chars ("lastSeenHash")) c.lastSeenHash rfl
    (by decide) (by decide)
  have ne5 := attrLine_ne_marker (chars ("  updatedAt=\"")) (chars ("updatedAt")) c.updatedAt rfl
    (by decide) (by decide)
  have htk : takeToMarker (fun l => decide (jsTrim l = chars ("-->")))
      (cursorAttrLines c ++ chars ("-->") :: rest) = (cursorAttrLines c, rest) := by
    apply takeToMarker_exact
    · intro l hl
      simp only [cursorAttrLines, hesc3, List.mem_cons, List.not_mem_nil, or_false] at hl
      simp only [decide_eq_false_iff_not]
      rcases hl with h|h|h|h|h <;> subst h
      · exact ne1
      · exact ne2
      · exact ne3
      · exact ne4
      · exact ne5
    · decide
  have d1 : memoV3Match (jsTrim (chars ("<!-- PLAN_CURSOR"))) = none := by decide
  have d2 : tagStartMatch (chars ("<!-- USER_MEMO")) (jsTrim (chars ("<!-- PLAN_CURSOR"))) = false := by decide
  have d3 : tagStartMatch (chars ("<!-- GATE")) (jsTrim (chars ("<!-- PLAN_CURSOR"))) = false := by decide
  have d4 : tagStartMatch (chars ("<!-- PLAN_CURSOR")) (jsTrim (chars ("<!-- PLAN_CURSOR"))) = true := by decide
  rw [cursorBlockLines_eq]
  have harg : (chars ("<!-- PLAN_CURSOR") :: (cursorAttrLines c ++ [chars ("-->")])) ++ rest =
      chars ("<!-- PLAN_CURSOR") :: (cursorAttrLines c ++ chars ("-->") :: rest) := by simp
  rw [harg]
  simp only [scanStep, d1, d2, d3, d4, Bool.false_eq_true, if_false, if_true, htk]
  have hpa : parseAttrs (cursorAttrLines c) =
      attrListC c.taskId c.step c.nextAction c.lastSeenHash c.updatedAt := by
    simp only [cursorAttrLines, hesc3, parseAttrs,
      List.filterMap_cons, List.filterMap_nil, a1, a2, a3, a4, a5, attrListC]
  have hc : mkCursor nowIso (attrListC c.taskId c.step c.nextAction c.lastSeenHash c.updatedAt) = c :=
    mkCursor_roundtrip nowIso c.taskId c.step c.nextAction c.lastSeenHash c.updatedAt hn5
  rw [hpa, hc]

theorem dropLit_common (a : Str) : ∀ (s t : Str), dropLit (a ++ s) (a ++ t) = dropLit s t := by
  induction a with
  | nil => intro s t; rfl
  | cons c cs ih => intro s t; simp [dropLit, ih]

theorem dropLit_head_ne (c d : Char) (s t : Str) (h : c ≠ d) :
    dropLit (c :: s) (d :: t) = none := by
  simp [dropLit, h]

theorem cpLine_v3 (X : Str) : memoV3Match (chars ("<!-- CHECKPOINT id=\"") ++ X) = none := by
  simp only [memoV3Match]
  rw [show chars ("<!-- CHECKPOINT id=\"") ++ X =
      chars ("<!-- ") ++ ('C' :: (chars ("HECKPOINT id=\"") ++ X)) from rfl,
    show (chars ("<!-- USER_MEMO") : Str) =
      chars ("<!-- ") ++ ('U' :: chars ("SER_MEMO")) from rfl,
    dropLit_common, dropLit_head_ne 'C' 'U' _ _ (by decide)]

theorem cpLine_tagU (X : Str) :
    tagStartMatch (chars ("<!-- USER_MEMO")) (chars ("<!-- CHECKPOINT id=\"") ++ X) = false := by
  simp only [tagStartMatch]
  rw [show chars ("<!-- CHECKPOINT id=\"") ++ X =
      chars ("<!-- ") ++ ('C' :: (chars ("HECKPOINT id=\"") ++ X)) from rfl,
    show (chars ("<!-- USER_MEMO") : Str) =
      chars ("<!-- ") ++ ('U' :: chars ("SER_MEMO")) from rfl,
    dropLit_common, dropLit_head_ne 'C' 'U' _ _ (by decide)]

theorem cpLine_tagG (X : Str) :
    tagStartMatch (chars ("<!-- GATE")) (chars ("<!-- CHECKPOINT id=\"") ++ X) = false := by
  simp only [tagStartMatch]
  rw [show chars ("<!-- CHECKPOINT id=\"") ++ X =
      chars ("<!-- ") ++ ('C' :: (chars ("HECKPOINT id=\"") ++ X)) from rfl,
    show (chars ("<!-- GATE") : Str) = chars ("<!-- ") ++ ('G' :: chars ("ATE")) from rfl,
    dropLit_common, dropLit_head_ne 'C' 'G' _ _ (by decide)]

theorem cpLine_tagP (X : Str) :
    tagStartMatch (chars ("<!-- PLAN_CURSOR")) (chars ("<!-- CHECKPOINT id=\"") ++ X) = false := by
  simp only [tagStartMatch]
  rw [show chars ("<!-- CHECKPOINT id=\"") ++ X =
      chars ("<!-- ") ++ ('C' :: (chars ("HECKPOINT id=\"") ++ X)) from rfl,
    show (chars ("<!-- PLAN_CURSOR") : Str) =
      chars ("<!-- ") ++ ('P' :: chars ("LAN_CURSOR")) from rfl,
    dropLit_common, dropLit_head_ne 'C' 'P' _ _ (by decide)]

theorem scanStep_checkpointLine (nowIso : Str) (nowMs : Nat) (acc : SplitAcc)
    (cp : Checkpoint) (rest : List Str) (h : cpOk cp = true) :
    scanStep nowIso nowMs acc (serializeCheckpoint cp :: rest) =
      some ({ acc with checkpoints := acc.checkpoints ++ [cp] }, rest) := by
  have hra : serializeCheckpoint cp = chars ("<!-- CHECKPOINT id=\"") ++ (cp.id ++
      (chars ("\" time=\"") ++ (cp.timestamp ++ (chars ("\" note=\"") ++ (escQuot cp.note ++
      (chars ("\" fixes=") ++ (natDec cp.fixes ++ (chars (" questions=") ++
      (natDec cp.questions ++ (chars (" highlights=") ++ (natDec cp.highlights ++
      (chars (" sections=\"") ++ (joinSep (chars (",")) cp.sectionsReviewed ++
      chars ("\" -->")))))))))))))) := by
    simp only [serializeCheckpoint, List.append_assoc]
  have hin : '>' ∈ (chars ("\" -->") : Str).getLast? := by decide
  have hmem : '>' ∈ (serializeCheckpoint cp).getLast? := by
    rw [hra]
    exact List.mem_getLast?_append_of_mem_getLast? (List.mem_getLast?_append_of_mem_getLast?
      (List.mem_getLast?_append_of_mem_getLast? (List.mem_getLast?_append_of_mem_getLast?
      (List.mem_getLast?_append_of_mem_getLast? (List.mem_getLast?_append_of_mem_getLast?
      (List.mem_getLast?_append_of_mem_getLast? (List.mem_getLast?_append_of_mem_getLast?
      (List.mem_getLast?_append_of_mem_getLast? (List.mem_getLast?_append_of_mem_getLast?
      (List.mem_getLast?_append_of_mem_getLast? (List.mem_getLast?_append_of_mem_getLast?
      (List.mem_getLast?_append_of_mem_getLast? (List.mem_getLast?_append_of_mem_getLast?
        hin)))))))))))))
  have htr : jsTrim (serializeCheckpoint cp) = serializeCheckpoint cp := by
    apply jsTrim_self
    · intro c hc
      rw [hra] at hc
      rw [show ((chars ("<!-- CHECKPOINT id=\"") ++ (cp.id ++
          (chars ("\" time=\"") ++ (cp.timestamp ++ (chars ("\" note=\"") ++ (escQuot cp.note ++
          (chars ("\" fixes=") ++ (natDec cp.fixes ++ (chars (" questions=") ++
          (natDec cp.questions ++ (chars (" highlights=") ++ (natDec cp.highlights ++
          (chars (" sections=\"") ++ (joinSep (chars (",")) cp.sectionsReviewed ++
          chars ("\" -->"))))))))))))))).head? : Option Char) = some '<' from rfl] at hc
      simp at hc
      subst hc
      decide
    · intro c hc
      rw [Option.mem_def] at hmem
      rw [hmem] at hc
      simp at hc
      subst hc
      decide
  have dmv : memoV3Match (serializeCheckpoint cp) = none := by rw [hra]; exact cpLine_v3 _
  have dtu : tagStartMatch (chars ("<!-- USER_MEMO")) (serializeCheckpoint cp) = false := by
    rw [hra]; exact cpLine_tagU _
  have dtg : tagStartMatch (chars ("<!-- GATE")) (serializeCheckpoint cp) = false := by
    rw [hra]; exact cpLine_tagG _
  have dtp : tagStartMatch (chars ("<!-- PLAN_CURSOR")) (serializeCheckpoint cp) = false := by
    rw [hra]; exact cpLine_tagP _
  have hcp : checkpointMatch (serializeCheckpoint cp) = some cp := checkpointMatch_serial cp h
  simp only [scanStep, htr, dmv, dtu, dtg, dtp, Bool.false_eq_true, if_false, hcp]

/-! ## Reinsertion characterized by anchor groups -/

/-- The memos resolving to body line i, in bundle order. -/
def memosAtLine (lines : List Str) (memos : List MemoV2) (i : Nat) : List MemoV2 :=
  memos.filter (fun m => findMemoAnchorLine lines m = some i)

/-- The memos that fail to resolve, in bundle order. -/
def unresolvedMemos (lines : List Str) (memos : List MemoV2) : List MemoV2 :=
  memos.filter (fun m => (findMemoAnchorLine lines m).isNone)

theorem flatMap_congr {α β : Type} (l : List α) (f g : α → List β)
    (h : ∀ a ∈ l, f a = g a) : l.flatMap f = l.flatMap g := by
  induction l with
  | nil => rfl
  | cons a t ih =>
    simp only [List.flatMap_cons]
    rw [h a (by simp), ih (fun b hb => h b (by simp [hb]))]

theorem flatMap_single {α β : Type} (l : List α) (f : α → β) :
    l.flatMap (fun a => [f a]) = l.map f := by
  induction l with
  | nil => rfl
  | cons a t ih => simp [List.flatMap_cons, ih]

theorem buildInsertion_fold (lines : List Str) : ∀ (memos : List MemoV2)
    (f0 : Nat → List MemoV2) (u0 : List MemoV2) (i : Nat),
    ((memos.foldl (fun st m =>
      match findMemoAnchorLine lines m with
      | some i => (fun j => if j = i then st.1 j ++ [m] else st.1 j, st.2)
      | none => (st.1, st.2 ++ [m])) (f0, u0)).1 i =
        f0 i ++ memosAtLine lines memos i) ∧
    ((memos.foldl (fun st m =>
      match findMemoAnchorLine lines m with
      | some i => (fun j => if j = i then st.1 j ++ [m] else st.1 j, st.2)
      | none => (st.1, st.2 ++ [m])) (f0, u0)).2 =
        u0 ++ unresolvedMemos lines memos) := by
  intro memos
  induction memos with
  | nil => intro f0 u0 i; simp [memosAtLine, unresolvedMemos]
  | cons m ms ih =>
    intro f0 u0 i
    simp only [List.foldl_cons]
    cases hfm : findMemoAnchorLine lines m with
    | some j =>
      have ihs := ih (fun k => if k = j then f0 k ++ [m] else f0 k) u0 i
      constructor
      · rw [ihs.1]
        simp only [memosAtLine, List.filter_cons, hfm]
        by_cases hij : i = j
        · subst hij
          simp
        · have hd : (decide (some j = some i)) = false := by
            simp
            exact fun hcon => hij hcon.symm
          rw [hd, if_neg hij]
          simp
      · rw [ihs.2]
        simp only [unresolvedMemos, List.filter_cons, hfm]
        simp
    | none =>
      have ihs := ih f0 (u0 ++ [m]) i
      constructor
      · rw [ihs.1]
        simp only [memosAtLine, List.filter_cons, hfm]
        simp
      · rw [ihs.2]
        simp only [unresolvedMemos, List.filter_cons, hfm]
        simp [List.append_assoc]

theorem buildInsertion_fst (lines : List Str) (memos : List MemoV2) (i : Nat) :
    (buildInsertion lines memos).1 i = memosAtLine lines memos i := by
  have h := (buildInsertion_fold lines memos (fun _ => []) [] i).1
  simpa [buildInsertion] using h

theorem buildInsertion_snd (lines : List Str) (memos : List MemoV2) :
    (buildInsertion lines memos).2 = unresolvedMemos lines memos := by
  have h := (buildInsertion_fold lines memos (fun _ => []) [] 0).2
  simpa [buildInsertion] using h

/-- The body section as the specification words it: each body line followed by
the serialized memos resolving to it, then the serialized unresolved memos. -/
def bodySectionSpec (body : Str) (memos : List MemoV2) : Str :=
  joinNl ((List.range (splitNl body).length).flatMap
    (fun i => (splitNl body).getD i [] ::
      (memosAtLine (splitNl body) memos i).map serializeMemoV2) ++
    (unresolvedMemos (splitNl body) memos).map serializeMemoV2)

theorem reinsertMemos_eq_spec (body : Str) (memos : List MemoV2) :
    reinsertMemos body memos = bodySectionSpec body memos := by
  by_cases hm : memos = []
  · subst hm
    have h1 : (List.range (splitNl body).length).flatMap
        (fun i => [(splitNl body).getD i []]) = splitNl body := by
      rw [flatMap_single, range_getD]
    simp only [bodySectionSpec, memosAtLine, unresolvedMemos,
      List.filter_nil, List.map_nil, List.append_nil]
    rw [h1, joinNl_splitNl]
    simp [reinsertMemos]
  · simp only [reinsertMemos, if_neg hm, bodySectionSpec]
    congr 1
    congr 1
    · apply flatMap_congr
      intro i _
      rw [buildInsertion_fst]
    · rw [buildInsertion_snd]

/-- mergeDocument as the specification words it. -/
def mergeSpec (parts : DocumentParts) : Str :=
  joinSep (chars ("\n\n"))
    ((if parts.frontmatter ≠ [] then [jsTrimEnd parts.frontmatter] else []) ++
     [bodySectionSpec parts.body parts.memos] ++
     parts.gates.map serializeGate ++
     parts.checkpoints.map serializeCheckpoint ++
     (match parts.cursor with | some c => [serializeCursor c] | none => [])) ++ [ '\n' ]

theorem merge_eq_spec (parts : DocumentParts) : mergeDocument parts = mergeSpec parts := by
  simp only [mergeDocument, mergeSpec, reinsertMemos_eq_spec]

theorem mergeDocument_getLast (parts : DocumentParts) :
    (mergeDocument parts).getLast? = some '\n' := by
  simp only [mergeDocument]
  exact List.getLast?_concat _

/-! ## Scanning whole segments -/

theorem scanAcc_nil (nowIso : Str) (nowMs : Nat) (acc : SplitAcc) :
    scanAcc nowIso nowMs acc [] = acc := rfl

theorem scanAcc_plain (nowIso : Str) (nowMs : Nat) (acc : SplitAcc) (l : Str)
    (rest : List Str) (h : plainLine l = true) :
    scanAcc nowIso nowMs acc (l :: rest) =
      scanAcc nowIso nowMs { acc with bodyLines := acc.bodyLines ++ [l] } rest :=
  scanAcc_some (scanStep_plain nowIso nowMs acc rest h)

theorem scanAcc_plains (nowIso : Str) (nowMs : Nat) : ∀ (ls : List Str) (acc : SplitAcc)
    (rest : List Str), (∀ l ∈ ls, plainLine l = true) →
    scanAcc nowIso nowMs acc (ls ++ rest) =
      scanAcc nowIso nowMs { acc with bodyLines := acc.bodyLines ++ ls } rest := by
  intro ls
  induction ls with
  | nil => intro acc rest _; simp
  | cons l ls' ih =>
    intro acc rest h
    rw [List.cons_append, scanAcc_plain nowIso nowMs acc l _ (h l (by simp)),
      ih _ rest (fun x hx => h x (by simp [hx]))]
    congr 1
    simp

theorem scanAcc_memoBlockL (nowIso : Str) (nowMs : Nat) (acc : SplitAcc) (m : MemoV2)
    (rest : List Str) (h : memoOk m = true) :
    scanAcc nowIso nowMs acc (memoBlockLines m ++ rest) =
      scanAcc nowIso nowMs { acc with memos := acc.memos ++ [m] } rest :=
  scanAcc_some (scanStep_memoBlock nowIso nowMs acc m rest h)

theorem scanAcc_memoGroup (nowIso : Str) (nowMs : Nat) : ∀ (G : List MemoV2)
    (acc : SplitAcc) (rest : List Str), (∀ m ∈ G, memoOk m = true) →
    scanAcc nowIso nowMs acc (G.flatMap memoBlockLines ++ rest) =
      scanAcc nowIso nowMs { acc with memos := acc.memos ++ G } rest := by
  intro G
  induction G with
  | nil => intro acc rest _; simp
  | cons m G' ih =>
    intro acc rest h
    rw [List.flatMap_cons, List.append_assoc,
      scanAcc_memoBlockL nowIso nowMs acc m _ (h m (by simp)),
      ih _ rest (fun x hx => h x (by simp [hx]))]
    congr 1
    simp

def bodySeg (L : List (Str × List MemoV2)) : List Str :=
  L.flatMap (fun p => p.1 :: p.2.flatMap memoBlockLines)

theorem scanAcc_bodySeg (nowIso : Str) (nowMs : Nat) : ∀ (L : List (Str × List MemoV2))
    (acc : SplitAcc) (rest : List Str),
    (∀ p ∈ L, plainLine p.1 = true) → (∀ p ∈ L, ∀ m ∈ p.2, memoOk m = true) →
    scanAcc nowIso nowMs acc (bodySeg L ++ rest) =
      scanAcc nowIso nowMs { acc with
        bodyLines := acc.bodyLines ++ L.map Prod.fst,
        memos := acc.memos ++ L.flatMap Prod.snd } rest := by
  intro L
  induction L with
  | nil => intro acc rest _ _; simp [bodySeg]
  | cons p L' ih =>
    intro acc rest hp hm
    rw [show bodySeg (p :: L') = p.1 :: (p.2.flatMap memoBlockLines ++ bodySeg L') from rfl]
    rw [List.cons_append, List.append_assoc,
      scanAcc_plain nowIso nowMs acc p.1 _ (hp p (by simp)),
      scanAcc_memoGroup nowIso nowMs p.2 _ _ (fun m hm' => hm p (by simp) m hm'),
      ih _ rest (fun q hq => hp q (by simp [hq])) (fun q hq m hm' => hm q (by simp [hq]) m hm')]
    congr 1
    simp

theorem scanAcc_gateBlockL (nowIso : Str) (nowMs : Nat) (acc : SplitAcc) (g : Gate)
    (rest : List Str) (h : gateOk g = true) :
    scanAcc nowIso nowMs acc (gateBlockLines g ++ rest) =
      scanAcc nowIso nowMs { acc with gates := acc.gates ++ [g] } rest :=
  scanAcc_some (scanStep_gateBlock nowIso nowMs acc g rest h)

theorem plainLine_blank : plainLine [] = true := by decide

theorem scanAcc_gateSegs (nowIso : Str) (nowMs : Nat) : ∀ (gs : List Gate)
    (acc : SplitAcc) (rest : List Str), (∀ g ∈ gs, gateOk g = true) →
    scanAcc nowIso nowMs acc (gs.flatMap (fun g => [] :: gateBlockLines g) ++ rest) =
      scanAcc nowIso nowMs { acc with
        bodyLines := acc.bodyLines ++ List.replicate gs.length [],
        gates := acc.gates ++ gs } rest := by
  intro gs
  induction gs with
  | nil => intro acc rest _; simp
  | cons g gs' ih =>
    intro acc rest h
    have hre : (([] : Str) :: gateBlockLines g) ++
        gs'.flatMap (fun g => [] :: gateBlockLines g) ++ rest =
        [] :: (gateBlockLines g ++ (gs'.flatMap (fun g => [] :: gateBlockLines g) ++ rest)) := by
      simp
    rw [List.flatMap_cons, hre,
      scanAcc_plain nowIso nowMs acc [] _ plainLine_blank,
      scanAcc_gateBlockL nowIso nowMs _ g _ (h g (by simp)),
      ih _ rest (fun x hx => h x (by simp [hx]))]
    congr 1
    simp [List.replicate_succ]

theorem scanAcc_cpLineL (nowIso : Str) (nowMs : Nat) (acc : SplitAcc) (cp : Checkpoint)
    (rest : List Str) (h : cpOk cp = true) :
    scanAcc nowIso nowMs acc (serializeCheckpoint cp :: rest) =
      scanAcc nowIso nowMs { acc with checkpoints := acc.checkpoints ++ [cp] } rest :=
  scanAcc_some (scanStep_checkpointLine nowIso nowMs acc cp rest h)

theorem scanAcc_cpSegs (nowIso : Str) (nowMs : Nat) : ∀ (cps : List Checkpoint)
    (acc : SplitAcc) (rest : List Str), (∀ cp ∈ cps, cpOk cp = true) →
    scanAcc nowIso nowMs acc
        (cps.flatMap (fun cp => [[], serializeCheckpoint cp]) ++ rest) =
      scanAcc nowIso nowMs { acc with
        bodyLines := acc.bodyLines ++ List.replicate cps.length [],
        checkpoints := acc.checkpoints ++ cps } rest := by
  intro cps
  induction cps with
  | nil => intro acc rest _; simp
  | cons cp cps' ih =>
    intro acc rest h
    rw [List.flatMap_cons,
      show ([[], serializeCheckpoint cp] : List Str) ++ cps'.flatMap
          (fun cp => [[], serializeCheckpoint cp]) ++ rest =
        [] :: serializeCheckpoint cp :: (cps'.flatMap
          (fun cp => [[], serializeCheckpoint cp]) ++ rest) from by simp,
      scanAcc_plain nowIso nowMs acc [] _ plainLine_blank,
      scanAcc_cpLineL nowIso nowMs _ cp _ (h cp (by simp)),
      ih _ rest (fun x hx => h x (by simp [hx]))]
    congr 1
    simp [List.replicate_succ]

theorem scanAcc_cursorBlockL (nowIso : Str) (nowMs : Nat) (acc : SplitAcc) (c : PlanCursor)
    (rest : List Str) (h : cursorOk c = true) :
    scanAcc nowIso nowMs acc (cursorBlockLines c ++ rest) =
      scanAcc nowIso nowMs { acc with cursor := some c } rest :=
  scanAcc_some (scanStep_cursorBlock nowIso nowMs acc c rest h)

/-! ## Serialized blocks are newline-free line lists -/

theorem attr_no_nl (pre v : Str) (hpre : '\n' ∉ pre) (hv : '\n' ∉ v) :
    '\n' ∉ pre ++ v ++ [ '"' ] := by
  intro hmem
  rcases List.mem_append.1 hmem with h1 | h1
  · rcases List.mem_append.1 h1 with h2 | h2
    · exact hpre h2
    · exact hv h2
  · simp at h1

theorem memoBlockLines_no_nl (m : MemoV2) (h : memoOk m = true) :
    ∀ l ∈ memoBlockLines m, '\n' ∉ l := by
  simp only [memoOk, Bool.and_eq_true, Bool.not_eq_true', List.isEmpty_eq_false] at h
  obtain ⟨⟨⟨⟨⟨⟨⟨⟨⟨⟨⟨⟨⟨⟨⟨⟨⟨⟨⟨hq1, hq2⟩, hq3⟩, hq4⟩, hq5⟩, hq6⟩, hq7⟩, hq8⟩, hq9⟩,
    hq10⟩, hq11⟩, hn1⟩, hn2⟩, hn3⟩, hn4⟩, hn5⟩, hn6⟩, hn7⟩, hn8⟩, hn9⟩ := h
  intro l hl
  simp only [memoBlockLines, List.mem_cons, List.not_mem_nil, or_false] at hl
  rcases hl with h|h|h|h|h|h|h|h|h|h|h|h|h <;> subst h
  · decide
  · rw [escQuot_id m.id hq1]
    exact attr_no_nl _ _ (by decide) (noQN_no_nl m.id hq1)
  · exact attr_no_nl _ _ (by decide) (noQN_no_nl m.type hq2)
  · exact attr_no_nl _ _ (by decide) (noQN_no_nl m.status hq3)
  · exact attr_no_nl _ _ (by decide) (noQN_no_nl m.owner hq4)
  · rw [escQuot_id m.source hq5]
    exact attr_no_nl _ _ (by decide) (noQN_no_nl m.source hq5)
  · exact attr_no_nl _ _ (by decide) (noQN_no_nl m.color hq6)
  · rw [escQuot_id m.text hq7]
    exact attr_no_nl _ _ (by decide) (noQN_no_nl m.text hq7)
  · rw [escQuot_id m.anchorText hq8]
    exact attr_no_nl _ _ (by decide) (noQN_no_nl m.anchorText hq8)
  · rw [escQuot_id m.anchor hq9]
    exact attr_no_nl _ _ (by decide) (noQN_no_nl m.anchor hq9)
  · exact attr_no_nl _ _ (by decide) (noQN_no_nl m.createdAt hq10)
  · exact attr_no_nl _ _ (by decide) (noQN_no_nl m.updatedAt hq11)
  · decide

theorem gateBlockLines_no_nl (g : Gate) (h : gateOk g = true) :
    ∀ l ∈ gateBlockLines g, '\n' ∉ l := by
  simp only [gateOk, Bool.and_eq_true, Bool.not_eq_true', List.isEmpty_eq_false] at h
  obtain ⟨⟨⟨⟨⟨⟨⟨⟨hq1, hn1⟩, hq2⟩, hn2⟩, hq3⟩, hn3⟩, hbb⟩, hq5⟩, hq6⟩ := h
  intro l hl
  simp only [gateBlockLines, List.mem_cons, List.not_mem_nil, or_false] at hl
  rcases hl with h|h|h|h|h|h|h|h <;> subst h
  · decide
  · exact attr_no_nl _ _ (by decide) (noQN_no_nl g.id hq1)
  · exact attr_no_nl _ _ (by decide) (noQN_no_nl g.type hq2)
  · exact attr_no_nl _ _ (by decide) (noQN_no_nl g.status hq3)
  · exact attr_no_nl _ _ (by decide)
      (noQN_no_nl _ (joinSep_wordStr_noQN g.blockedBy hbb))
  · rw [escQuot_id g.canProceedIf hq5]
    exact attr_no_nl _ _ (by decide) (noQN_no_nl g.canProceedIf hq5)
  · rw [escQuot_id g.doneDefinition hq6]
    exact attr_no_nl _ _ (by decide) (noQN_no_nl g.doneDefinition hq6)
  · decide

theorem cursorBlockLines_no_nl (c : PlanCursor) (h : cursorOk c = true) :
    ∀ l ∈ cursorBlockLines c, '\n' ∉ l := by
  simp only [cursorOk, Bool.and_eq_true, Bool.not_eq_true', List.isEmpty_eq_false] at h
  obtain ⟨⟨⟨⟨⟨hq1, hq2⟩, hq3⟩, hq4⟩, hq5⟩, hn5⟩ := h
  intro l hl
  simp only [cursorBlockLines, List.mem_cons, List.not_mem_nil, or_false] at hl
  rcases hl with h|h|h|h|h|h|h <;> subst h
  · decide
  · exact attr_no_nl _ _ (by decide) (noQN_no_nl c.taskId hq1)
  · exact attr_no_nl _ _ (by decide) (noQN_no_nl c.step hq2)
  · rw [escQuot_id c.nextAction hq3]
    exact attr_no_nl _ _ (by decide) (noQN_no_nl c.nextAction hq3)
  · exact attr_no_nl _ _ (by decide) (noQN_no_nl c.lastSeenHash hq4)
  · exact attr_no_nl _ _ (by decide) (noQN_no_nl c.updatedAt hq5)
  · decide

theorem natDec_no_nl (n : Nat) : '\n' ∉ natDec n := by
  intro hmem
  have := natDec_all_digits n '\n' hmem
  exact absurd this (by decide)

theorem serializeCheckpoint_no_nl (cp : Checkpoint) (h : cpOk cp = true) :
    '\n' ∉ serializeCheckpoint cp := by
  simp only [cpOk, Bool.and_eq_true] at h
  obtain ⟨⟨⟨⟨⟨hie, hiq⟩, htse⟩, htsq⟩, hnoq⟩, hsecs⟩ := h
  intro hmem
  simp only [serializeCheckpoint, List.append_assoc, List.mem_append] at hmem
  rw [escQuot_id cp.note hnoq] at hmem
  rcases hmem with h|h|h|h|h|h|h|h|h|h|h|h|h|h|h
  · exact absurd h (by decide)
  · exact noQN_no_nl cp.id hiq h
  · exact absurd h (by decide)
  · exact noQN_no_nl cp.timestamp htsq h
  · exact absurd h (by decide)
  · exact noQN_no_nl cp.note hnoq h
  · exact absurd h (by decide)
  · exact natDec_no_nl cp.fixes h
  · exact absurd h (by decide)
  · exact natDec_no_nl cp.questions h
  · exact absurd h (by decide)
  · exact natDec_no_nl cp.highlights h
  · exact absurd h (by decide)
  · rcases mem_joinSep _ _ _ h with h1 | ⟨s, hsm, hcs⟩
    · exact absurd h1 (by decide)
    · have hws := (List.all_eq_true.1 hsecs) s hsm
      simp only [cpSecOk, Bool.and_eq_true, List.all_eq_true] at hws
      have := hws.2 '\n' hcs
      simp at this
  · exact absurd h (by decide)

theorem splitNl_serializeMemo (m : MemoV2) (h : memoOk m = true) :
    splitNl (serializeMemoV2 m) = memoBlockLines m := by
  simp only [serializeMemoV2]
  exact splitNl_joinNl (memoBlockLines m) (by simp [memoBlockLines])
    (memoBlockLines_no_nl m h)

theorem splitNl_serializeGate (g : Gate) (h : gateOk g = true) :
    splitNl (serializeGate g) = gateBlockLines g := by
  simp only [serializeGate]
  exact splitNl_joinNl (gateBlockLines g) (by simp [gateBlockLines])
    (gateBlockLines_no_nl g h)

theorem splitNl_serializeCursor (c : PlanCursor) (h : cursorOk c = true) :
    splitNl (serializeCursor c) = cursorBlockLines c := by
  simp only [serializeCursor]
  exact splitNl_joinNl (cursorBlockLines c) (by simp [cursorBlockLines])
    (cursorBlockLines_no_nl c h)

theorem splitNl_serializeCheckpoint (cp : Checkpoint) (h : cpOk cp = true) :
    splitNl (serializeCheckpoint cp) = [serializeCheckpoint cp] :=
  splitNl_no_nl _ (serializeCheckpoint_no_nl cp h)

/-! ## Assembling the merged document's line list -/

theorem strStarts_append_of : ∀ (p l0 z : Str), strStarts l0 p = true →
    strStarts (l0 ++ z) p = true := by
  intro p
  induction p with
  | nil => intro l0 z _; cases l0 ++ z <;> rfl
  | cons q qs ih =>
    intro l0 z h
    cases l0 with
    | nil => simp [strStarts] at h
    | cons c l1 =>
      simp only [strStarts, Bool.and_eq_true] at h
      simp only [List.cons_append, strStarts, Bool.and_eq_true]
      exact ⟨h.1, ih l1 z h.2⟩

theorem strStarts_append_nl : ∀ (p l0 X : Str), '\n' ∉ p →
    strStarts l0 p = false → strStarts (l0 ++ '\n' :: X) p = false := by
  intro p
  induction p with
  | nil => intro l0 X _ h0; simp [strStarts] at h0
  | cons q qs ih =>
    intro l0 X hnl h0
    cases l0 with
    | nil =>
      simp only [List.nil_append, strStarts]
      have hq : ¬('\n' = q) := fun he => hnl (by rw [← he]; simp)
      simp [hq]
    | cons c l1 =>
      simp only [strStarts] at h0
      simp only [List.cons_append, strStarts, List.append_eq]
      by_cases hc : c = q
      · subst hc
        simp at h0 ⊢
        exact ih l1 X (fun hm => hnl (by simp [hm])) h0
      · simp [hc]

def curSecs (cur : Option PlanCursor) : List Str :=
  match cur with | some c => [serializeCursor c] | none => []

def curSeg (cur : Option PlanCursor) : List Str :=
  match cur with | some c => [] :: cursorBlockLines c | none => []

theorem curSecs_flat (cur : Option PlanCursor)
    (h : (match cur with | some c => cursorOk c | none => true) = true) :
    (curSecs cur).flatMap (fun s => [] :: splitNl s) = curSeg cur := by
  cases cur with
  | none => rfl
  | some c =>
    have hc : cursorOk c = true := by simpa using h
    simp [curSecs, curSeg, splitNl_serializeCursor c hc]

def curBlank (cur : Option PlanCursor) : List Str :=
  match cur with | some _ => [([] : Str)] | none => []

def curVal (cur : Option PlanCursor) (d : Option PlanCursor) : Option PlanCursor :=
  match cur with | some c => some c | none => d

theorem scanAcc_curSegL (nowIso : Str) (nowMs : Nat) (cur : Option PlanCursor)
    (acc : SplitAcc) (rest : List Str)
    (h : (match cur with | some c => cursorOk c | none => true) = true) :
    scanAcc nowIso nowMs acc (curSeg cur ++ rest) =
      scanAcc nowIso nowMs { acc with
        bodyLines := acc.bodyLines ++ curBlank cur,
        cursor := curVal cur acc.cursor } rest := by
  cases cur with
  | none => simp [curSeg, curBlank, curVal]
  | some c =>
    have hc : cursorOk c = true := by simpa using h
    rw [show curSeg (some c) ++ rest = [] :: (cursorBlockLines c ++ rest) from by
      simp [curSeg]]
    rw [scanAcc_plain nowIso nowMs acc [] _ plainLine_blank,
      scanAcc_cursorBlockL nowIso nowMs _ c rest hc]
    rfl

theorem bodySeg_cons (p : Str × List MemoV2) (L : List (Str × List MemoV2)) :
    bodySeg (p :: L) = p.1 :: (p.2.flatMap memoBlockLines ++ bodySeg L) := rfl

theorem strStarts_first_line (s : Str) (p : Str) (hp : '\n' ∉ p) :
    strStarts s p = strStarts ((splitNl s).getD 0 []) p := by
  cases hs : splitNl s with
  | nil => exact absurd hs (splitNl_ne_nil s)
  | cons f0 rest =>
    have h1 := joinNl_splitNl s
    rw [hs] at h1
    simp only [List.getD_cons_zero]
    cases rest with
    | nil =>
      rw [show joinNl [f0] = f0 from rfl] at h1
      rw [← h1]
    | cons y t =>
      rw [joinNl_cons₂] at h1
      rw [← h1]
      cases hf : strStarts f0 p with
      | true => rw [strStarts_append_of p f0 _ hf]
      | false => rw [strStarts_append_nl p f0 _ hp hf]

theorem mem_memosAtLine (lines : List Str) (memos : List MemoV2) (i : Nat)
    (m : MemoV2) (hm : m ∈ memosAtLine lines memos i) : m ∈ memos := by
  simp only [memosAtLine] at hm
  exact (List.mem_filter.1 hm).1

theorem mem_unresolvedMemos (lines : List Str) (memos : List MemoV2)
    (m : MemoV2) (hm : m ∈ unresolvedMemos lines memos) : m ∈ memos := by
  simp only [unresolvedMemos] at hm
  exact (List.mem_filter.1 hm).1

/-- The memo list produced by re-splitting a merged document: grouped by
resolved anchor line (ascending), unresolved memos last, bundle order within
each group. -/
def regroupMemos (body : Str) (memos : List MemoV2) : List MemoV2 :=
  (List.range (splitNl body).length).flatMap (memosAtLine (splitNl body) memos) ++
  unresolvedMemos (splitNl body) memos

theorem roundtrip_main (parts : DocumentParts) (h : partsOk parts = true)
    (nowIso : Str) (nowMs : Nat) :
    splitDocument nowIso nowMs (mergeDocument parts) =
      { frontmatter := [], body := parts.body,
        memos := regroupMemos parts.body parts.memos,
        checkpoints := parts.checkpoints, gates := parts.gates,
        cursor := parts.cursor, unknownComments := [] } := by
  obtain ⟨fm, body, memos, cps, gs, cur, unk⟩ := parts
  simp only [partsOk, Bool.and_eq_true] at h
  obtain ⟨⟨⟨⟨⟨⟨⟨⟨hfm, hstart⟩, hplain⟩, htrim⟩, hmemos⟩, hgates⟩, hcps⟩, hcur⟩, hunk⟩ := h
  have hfm' : fm = [] := by simpa using hfm
  have hunk' : unk = [] := by simpa using hunk
  subst hfm'
  subst hunk'
  have hstart' : strStarts body (chars ("---")) = false := by simpa using hstart
  have hplain' : ∀ l ∈ splitNl body, plainLine l = true := List.all_eq_true.1 hplain
  have htrim' : joinNl (trimTrailingBlank (splitNl body)) = body := by simpa using htrim
  have hmemos' : ∀ m ∈ memos, memoOk m = true := List.all_eq_true.1 hmemos
  have hgates' : ∀ g ∈ gs, gateOk g = true := List.all_eq_true.1 hgates
  have hcps' : ∀ cp ∈ cps, cpOk cp = true := List.all_eq_true.1 hcps
  have hmd : mergeDocument ⟨[], body, memos, cps, gs, cur, []⟩ =
      joinSep (chars ("\n\n")) (bodySectionSpec body memos ::
        (gs.map serializeGate ++ (cps.map serializeCheckpoint ++ curSecs cur))) ++
        [ '\n' ] := by
    rw [merge_eq_spec]
    simp [mergeSpec, curSecs, List.append_assoc]
  have hsplit0 : splitNl (mergeDocument ⟨[], body, memos, cps, gs, cur, []⟩) =
      splitNl (bodySectionSpec body memos) ++
      ((gs.map serializeGate ++ (cps.map serializeCheckpoint ++ curSecs cur)).flatMap
        (fun s => [] :: splitNl s)) ++ [[]] := by
    rw [hmd, splitNl_merged]
  have hbodyLines : splitNl (bodySectionSpec body memos) =
      bodySeg ((List.range (splitNl body).length).map
        (fun i => ((splitNl body).getD i [], memosAtLine (splitNl body) memos i))) ++
      (unresolvedMemos (splitNl body) memos).flatMap memoBlockLines := by
    simp only [bodySectionSpec]
    have hR : ((List.range (splitNl body).length).flatMap
        (fun i => (splitNl body).getD i [] ::
          (memosAtLine (splitNl body) memos i).map serializeMemoV2) ++
        (unresolvedMemos (splitNl body) memos).map serializeMemoV2) ≠ [] := by
      intro hcon
      rw [List.append_eq_nil] at hcon
      have h2 := (List.flatMap_eq_nil_iff.1 hcon.1) 0
        (by
          cases hL : splitNl body with
          | nil => exact absurd hL (splitNl_ne_nil body)
          | cons l0 lrest => simp [hL])
      simp at h2
    rw [splitNl_joinNl_flat _ hR, List.flatMap_append, List.flatMap_assoc]
    congr 1
    · simp only [bodySeg]
      rw [List.flatMap_map]
      apply flatMap_congr
      intro i hi
      have hilt : i < (splitNl body).length := List.mem_range.1 hi
      have hmem2 : (splitNl body).getD i [] ∈ splitNl body := by
        rw [List.getD_eq_getElem (splitNl body) [] hilt]
        exact List.getElem_mem hilt
      rw [List.flatMap_cons]
      rw [splitNl_no_nl _ (splitNl_mem body _ hmem2)]
      rw [List.flatMap_map]
      rw [flatMap_congr _ _ (fun m => memoBlockLines m)
        (fun m hm => splitNl_serializeMemo m
          (hmemos' m (mem_memosAtLine _ _ _ m hm)))]
      simp
    · rw [List.flatMap_map]
      exact flatMap_congr _ _ _ (fun m hm => splitNl_serializeMemo m
        (hmemos' m (mem_unresolvedMemos _ _ m hm)))
  have htail : (gs.map serializeGate ++ (cps.map serializeCheckpoint ++
      curSecs cur)).flatMap (fun s => [] :: splitNl s) =
      gs.flatMap (fun g => [] :: gateBlockLines g) ++
      (cps.flatMap (fun cp => [[], serializeCheckpoint cp]) ++ curSeg cur) := by
    have t1 : (gs.map serializeGate).flatMap (fun s => [] :: splitNl s) =
        gs.flatMap (fun g => [] :: gateBlockLines g) := by
      rw [List.flatMap_map]
      exact flatMap_congr _ _ _ (fun g hg => by
        rw [splitNl_serializeGate g (hgates' g hg)])
    have t2 : (cps.map serializeCheckpoint).flatMap (fun s => [] :: splitNl s) =
        cps.flatMap (fun cp => [[], serializeCheckpoint cp]) := by
      rw [List.flatMap_map]
      exact flatMap_congr _ _ _ (fun cp hcp => by
        rw [splitNl_serializeCheckpoint cp (hcps' cp hcp)])
    rw [List.flatMap_append, List.flatMap_append, t1, t2, curSecs_flat cur hcur]
  have hlines : splitNl (mergeDocument ⟨[], body, memos, cps, gs, cur, []⟩) =
      bodySeg ((List.range (splitNl body).length).map
        (fun i => ((splitNl body).getD i [], memosAtLine (splitNl body) memos i))) ++
      ((unresolvedMemos (splitNl body) memos).flatMap memoBlockLines ++
       (gs.flatMap (fun g => [] :: gateBlockLines g) ++
        (cps.flatMap (fun cp => [[], serializeCheckpoint cp]) ++
         (curSeg cur ++ [[]])))) := by
    rw [hsplit0, hbodyLines, htail]
    simp [List.append_assoc]
  cases hL : splitNl body with
  | nil => exact absurd hL (splitNl_ne_nil body)
  | cons l0 lrest =>
  have hl0 : strStarts l0 (chars ("---")) = false := by
    have h2 := strStarts_first_line body (chars ("---")) (by decide)
    rw [hL] at h2
    simp only [List.getD_cons_zero] at h2
    rw [← h2]
    exact hstart'
  have hn1 : (splitNl body).length = lrest.length + 1 := by rw [hL]; rfl
  have hr : (List.range (splitNl body).length).map
      (fun i => ((splitNl body).getD i [], memosAtLine (splitNl body) memos i)) =
      (l0, memosAtLine (splitNl body) memos 0) ::
      (List.range lrest.length).map
        (fun k => ((splitNl body).getD (k + 1) [],
          memosAtLine (splitNl body) memos (k + 1))) := by
    rw [hn1, List.range_succ_eq_map, List.map_cons, List.map_map]
    rw [hL]
    rfl
  have hgd : (splitNl (mergeDocument ⟨[], body, memos, cps, gs, cur, []⟩)).getD 0 [] = l0 := by
    rw [hlines, hr, bodySeg_cons]
    rfl
  have hfm_md : extractFrontmatter (mergeDocument ⟨[], body, memos, cps, gs, cur, []⟩) =
      ([], mergeDocument ⟨[], body, memos, cps, gs, cur, []⟩) := by
    apply extractFrontmatter_none
    rw [strStarts_first_line _ (chars ("---")) (by decide), hgd]
    exact hl0
  simp only [splitDocument, hfm_md]
  rw [hlines]
  rw [scanAcc_bodySeg nowIso nowMs _ emptyAcc _
    (by
      intro p hp
      rcases List.mem_map.1 hp with ⟨i, hi, hpe⟩
      have hilt : i < (splitNl body).length := List.mem_range.1 hi
      have hmem2 : (splitNl body).getD i [] ∈ splitNl body := by
        rw [List.getD_eq_getElem (splitNl body) [] hilt]
        exact List.getElem_mem hilt
      rw [← hpe]
      exact hplain' _ hmem2)
    (by
      intro p hp m hm
      rcases List.mem_map.1 hp with ⟨i, hi, hpe⟩
      rw [← hpe] at hm
      exact hmemos' m (mem_memosAtLine _ _ _ m hm))]
  rw [scanAcc_memoGroup nowIso nowMs _ _ _
    (fun m hm => hmemos' m (mem_unresolvedMemos _ _ m hm))]
  rw [scanAcc_gateSegs nowIso nowMs gs _ _ hgates']
  rw [scanAcc_cpSegs nowIso nowMs cps _ _ hcps']
  rw [scanAcc_curSegL nowIso nowMs cur _ _ hcur]
  rw [scanAcc_plain nowIso nowMs _ [] [] plainLine_blank, scanAcc_nil]
  have hmap : ((List.range (splitNl body).length).map
      (fun i => ((splitNl body).getD i [], memosAtLine (splitNl body) memos i))).map
        Prod.fst = splitNl body := by
    rw [List.map_map]
    exact range_getD (splitNl body)
  have hflat : ((List.range (splitNl body).length).map
      (fun i => ((splitNl body).getD i [], memosAtLine (splitNl body) memos i))).flatMap
        Prod.snd =
      (List.range (splitNl body).length).flatMap (memosAtLine (splitNl body) memos) := by
    rw [List.flatMap_map]
  simp only [emptyAcc, List.nil_append, hmap, hflat]
  have hblanks : joinNl (trimTrailingBlank ((splitNl body ++
      List.replicate gs.length [] ++ List.replicate cps.length [] ++
      curBlank cur) ++ [[]])) = body := by
    obtain ⟨T, hT1, hT2⟩ : ∃ T, (splitNl body ++
        List.replicate gs.length [] ++ List.replicate cps.length [] ++
        curBlank cur) ++ [[]] =
        splitNl body ++ T ∧ ∀ b ∈ T, (jsTrim b).isEmpty = true := by
      refine ⟨List.replicate gs.length [] ++ List.replicate cps.length [] ++
        curBlank cur ++ [[]], ?_, ?_⟩
      · simp [List.append_assoc]
      · intro b hb
        have hbe : b = [] := by
          rcases List.mem_append.1 hb with h1 | h1
          · rcases List.mem_append.1 h1 with h2 | h2
            · rcases List.mem_append.1 h2 with h3 | h3
              · exact List.eq_of_mem_replicate h3
              · exact List.eq_of_mem_replicate h3
            · cases cur with
              | none => simp [curBlank] at h2
              | some c => simp [curBlank] at h2; exact h2
          · simp at h1; exact h1
        subst hbe
        decide
    rw [hT1, trimTrailingBlank_append _ _ hT2, htrim']
  rw [hblanks]
  have hcurfin : curVal cur (none : Option PlanCursor) = cur := by
    cases cur <;> rfl
  rw [hcurfin]
  simp [regroupMemos]

/-! ## The regrouped memo list is a permutation of the bundle -/

theorem findIdxAux_lt {α : Type} (p : α → Bool) : ∀ (l : List α) (s i : Nat),
    List.findIdx? p l s = some i → i < s + l.length := by
  intro l
  induction l with
  | nil => intro s i h; simp [List.findIdx?] at h
  | cons a t ih =>
    intro s i h
    simp only [List.findIdx?] at h
    by_cases hp : p a
    · rw [if_pos hp] at h
      cases h
      simp only [List.length_cons]
      omega
    · rw [if_neg hp] at h
      have := ih (s + 1) i h
      simp only [List.length_cons]
      omega

theorem findMemoAnchorLine_lt (lines : List Str) (m : MemoV2) : ∀ (i : Nat),
    findMemoAnchorLine lines m = some i → i < lines.length := by
  intro i h
  simp only [findMemoAnchorLine] at h
  split at h
  · rename_i k heq
    cases h
    split at heq
    · exact absurd heq (by simp)
    · split at heq
      · exact absurd heq (by simp)
      · split at heq
        · rename_i hht
          cases heq
          have hb := (hashAt_iff lines _ _).1 hht
          omega
        · obtain ⟨delta, _, hdel⟩ := findSome?_mem _ _ _ heq
          obtain ⟨d, _, hd⟩ := findSome?_mem _ _ _ hdel
          split at hd
          · rename_i hht
            cases hd
            have hb := (hashAt_iff lines _ _).1 hht
            omega
          · exact absurd hd (by simp)
  · split at h
    · exact absurd h (by simp)
    · have := findIdxAux_lt _ _ 0 i h
      omega

theorem flatMap_filter_cons {α : Type} (x : α) (G : Nat → List α) :
    ∀ (n j : Nat), j < n →
    ((List.range n).flatMap (fun i => if i = j then x :: G i else G i)).Perm
      (x :: (List.range n).flatMap G) := by
  intro n
  induction n with
  | zero => intro j hj; omega
  | succ k ih =>
    intro j hj
    rw [List.range_succ, List.flatMap_append, List.flatMap_append]
    by_cases hjk : j = k
    · subst hjk
      have h1 : (List.range j).flatMap (fun i => if i = j then x :: G i else G i) =
          (List.range j).flatMap G := by
        apply flatMap_congr
        intro i hi
        have : i < j := List.mem_range.1 hi
        rw [if_neg (by omega)]
      rw [h1, show ([j] : List Nat).flatMap (fun i => if i = j then x :: G i else G i) =
        x :: G j from by simp]
      rw [show ([j] : List Nat).flatMap G = G j from by simp]
      exact List.perm_middle
    · have hjlt : j < k := by omega
      have h2 : ([k] : List Nat).flatMap (fun i => if i = j then x :: G i else G i) =
          G k := by
        simp only [List.flatMap_cons, List.flatMap_nil, List.append_nil]
        rw [if_neg (by omega)]
      rw [h2, show ([k] : List Nat).flatMap G = G k from by simp]
      exact (ih j hjlt).append_right (G k)

theorem perm_groups {α : Type} (f : α → Option Nat) (n : Nat) : ∀ (l : List α),
    (∀ a ∈ l, ∀ j, f a = some j → j < n) →
    ((List.range n).flatMap (fun i => l.filter (fun a => f a = some i)) ++
      l.filter (fun a => (f a).isNone)).Perm l := by
  intro l
  induction l with
  | nil =>
    intro _
    have h1 : (List.range n).flatMap
        (fun i => ([] : List α).filter (fun a => f a = some i)) = [] := by
      simp
    rw [h1]
    simp
  | cons a t ih =>
    intro hb
    have iht := ih (fun b hbm j hf => hb b (by simp [hbm]) j hf)
    cases hf : f a with
    | none =>
      have hg : (List.range n).flatMap
          (fun i => (a :: t).filter (fun x => f x = some i)) =
          (List.range n).flatMap (fun i => t.filter (fun x => f x = some i)) := by
        apply flatMap_congr
        intro i _
        simp [List.filter_cons, hf]
      have hu : (a :: t).filter (fun x => (f x).isNone) =
          a :: t.filter (fun x => (f x).isNone) := by
        simp [List.filter_cons, hf]
      rw [hg, hu]
      exact (List.perm_middle).trans (iht.cons a)
    | some j =>
      have hj : j < n := hb a (by simp) j hf
      have hg : (List.range n).flatMap
          (fun i => (a :: t).filter (fun x => f x = some i)) =
          (List.range n).flatMap (fun i => if i = j then
            a :: t.filter (fun x => f x = some i) else
            t.filter (fun x => f x = some i)) := by
        apply flatMap_congr
        intro i _
        by_cases hij : i = j
        · subst hij
          simp [List.filter_cons, hf]
        · rw [if_neg hij]
          simp only [List.filter_cons, hf]
          rw [if_neg (by simp; exact fun hcon => hij hcon.symm)]
      have hu : (a :: t).filter (fun x => (f x).isNone) =
          t.filter (fun x => (f x).isNone) := by
        simp [List.filter_cons, hf]
      rw [hg, hu]
      have hstep := (flatMap_filter_cons a
        (fun i => t.filter (fun x => f x = some i)) n j hj).append_right
        (t.filter (fun x => (f x).isNone))
      exact hstep.trans (iht.cons a)

theorem regroup_perm (body : Str) (memos : List MemoV2)
    (hb : ∀ m ∈ memos, ∀ j, findMemoAnchorLine (splitNl body) m = some j →
      j < (splitNl body).length) :
    (regroupMemos body memos).Perm memos := by
  simp only [regroupMemos, memosAtLine, unresolvedMemos]
  exact perm_groups (findMemoAnchorLine (splitNl body)) (splitNl body).length memos hb

/-! ## Merging is invariant under anchor-grouping of the memo list -/

theorem mem_memosAtLine_find (lines : List Str) (memos : List MemoV2) (i : Nat)
    (m : MemoV2) (hm : m ∈ memosAtLine lines memos i) :
    findMemoAnchorLine lines m = some i := by
  simp only [memosAtLine] at hm
  have := (List.mem_filter.1 hm).2
  simpa using this

theorem mem_unresolved_find (lines : List Str) (memos : List MemoV2)
    (m : MemoV2) (hm : m ∈ unresolvedMemos lines memos) :
    findMemoAnchorLine lines m = none := by
  simp only [unresolvedMemos] at hm
  have := (List.mem_filter.1 hm).2
  simpa [Option.isNone_iff_eq_none] using this

theorem memosAtLine_append (lines : List Str) (A B : List MemoV2) (i : Nat) :
    memosAtLine lines (A ++ B) i = memosAtLine lines A i ++ memosAtLine lines B i := by
  simp [memosAtLine, List.filter_append]

theorem unresolvedMemos_append (lines : List Str) (A B : List MemoV2) :
    unresolvedMemos lines (A ++ B) =
      unresolvedMemos lines A ++ unresolvedMemos lines B := by
  simp [unresolvedMemos, List.filter_append]

theorem memosAtLine_of_group (lines : List Str) (memos : List MemoV2) (i j : Nat) :
    memosAtLine lines (memosAtLine lines memos j) i =
      if i = j then memosAtLine lines memos j else [] := by
  by_cases hij : i = j
  · subst hij
    rw [if_pos rfl]
    rw [show memosAtLine lines (memosAtLine lines memos i) i =
      List.filter (fun m => findMemoAnchorLine lines m = some i)
        (memosAtLine lines memos i) from rfl]
    rw [List.filter_eq_self.2]
    intro m hm
    simp [mem_memosAtLine_find lines memos i m hm]
  · rw [if_neg hij]
    rw [show memosAtLine lines (memosAtLine lines memos j) i =
      List.filter (fun m => findMemoAnchorLine lines m = some i)
        (memosAtLine lines memos j) from rfl]
    rw [List.filter_eq_nil_iff]
    intro m hm
    simp only [decide_eq_true_eq]
    rw [mem_memosAtLine_find lines memos j m hm]
    simp
    exact fun hcon => hij hcon.symm

theorem memosAtLine_unresolved (lines : List Str) (memos : List MemoV2) (i : Nat) :
    memosAtLine lines (unresolvedMemos lines memos) i = [] := by
  rw [show memosAtLine lines (unresolvedMemos lines memos) i =
    List.filter (fun m => findMemoAnchorLine lines m = some i)
      (unresolvedMemos lines memos) from rfl]
  rw [List.filter_eq_nil_iff]
  intro m hm
  simp [mem_unresolved_find lines memos m hm]

theorem unresolved_of_group (lines : List Str) (memos : List MemoV2) (j : Nat) :
    unresolvedMemos lines (memosAtLine lines memos j) = [] := by
  rw [show unresolvedMemos lines (memosAtLine lines memos j) =
    List.filter (fun m => (findMemoAnchorLine lines m).isNone)
      (memosAtLine lines memos j) from rfl]
  rw [List.filter_eq_nil_iff]
  intro m hm
  simp [mem_memosAtLine_find lines memos j m hm]

theorem unresolved_idem (lines : List Str) (memos : List MemoV2) :
    unresolvedMemos lines (unresolvedMemos lines memos) =
      unresolvedMemos lines memos := by
  rw [show unresolvedMemos lines (unresolvedMemos lines memos) =
    List.filter (fun m => (findMemoAnchorLine lines m).isNone)
      (unresolvedMemos lines memos) from rfl]
  rw [List.filter_eq_self.2]
  intro m hm
  simp [mem_unresolved_find lines memos m hm]

theorem flatMap_if_eq {α : Type} (G : Nat → List α) : ∀ (n i : Nat), i < n →
    (List.range n).flatMap (fun j => if i = j then G j else []) = G i := by
  intro n
  induction n with
  | zero => intro i hi; omega
  | succ k ih =>
    intro i hi
    rw [List.range_succ, List.flatMap_append]
    by_cases hik : i = k
    · subst hik
      have h1 : (List.range i).flatMap (fun j => if i = j then G j else []) = [] := by
        rw [List.flatMap_eq_nil_iff]
        intro j hj
        rw [if_neg (by have := List.mem_range.1 hj; omega)]
      rw [h1]
      simp
    · have h2 : ([k] : List Nat).flatMap (fun j => if i = j then G j else []) = [] := by
        simp only [List.flatMap_cons, List.flatMap_nil, List.append_nil]
        rw [if_neg hik]
      rw [h2, ih i (by omega)]
      simp

theorem memosAtLine_regroup (body : Str) (memos : List MemoV2) (i : Nat)
    (hi : i < (splitNl body).length) :
    memosAtLine (splitNl body) (regroupMemos body memos) i =
      memosAtLine (splitNl body) memos i := by
  simp only [regroupMemos]
  rw [memosAtLine_append]
  rw [show memosAtLine (splitNl body)
      ((List.range (splitNl body).length).flatMap
        (memosAtLine (splitNl body) memos)) i =
    List.filter (fun m => findMemoAnchorLine (splitNl body) m = some i)
      ((List.range (splitNl body).length).flatMap
        (memosAtLine (splitNl body) memos)) from rfl]
  rw [List.filter_flatMap]
  rw [flatMap_congr (List.range (splitNl body).length)
    (fun a => List.filter
      (fun m => decide (findMemoAnchorLine (splitNl body) m = some i))
      (memosAtLine (splitNl body) memos a))
    (fun j => if i = j then memosAtLine (splitNl body) memos j else [])
    (fun j _ => memosAtLine_of_group (splitNl body) memos i j)]
  rw [flatMap_if_eq _ _ i hi, memosAtLine_unresolved]
  simp

theorem unresolved_regroup (body : Str) (memos : List MemoV2) :
    unresolvedMemos (splitNl body) (regroupMemos body memos) =
      unresolvedMemos (splitNl body) memos := by
  simp only [regroupMemos]
  rw [unresolvedMemos_append]
  rw [show unresolvedMemos (splitNl body)
      ((List.range (splitNl body).length).flatMap
        (memosAtLine (splitNl body) memos)) =
    List.filter (fun m => (findMemoAnchorLine (splitNl body) m).isNone)
      ((List.range (splitNl body).length).flatMap
        (memosAtLine (splitNl body) memos)) from rfl]
  rw [List.filter_flatMap]
  have h1 : (List.range (splitNl body).length).flatMap
      (fun j => List.filter (fun m => (findMemoAnchorLine (splitNl body) m).isNone)
        (memosAtLine (splitNl body) memos j)) = [] := by
    rw [List.flatMap_eq_nil_iff]
    intro j _
    have := unresolved_of_group (splitNl body) memos j
    simpa [unresolvedMemos] using this
  rw [h1, unresolved_idem]
  simp

theorem regroup_agree (body : Str) (memos : List MemoV2) :
    bodySectionSpec body (regroupMemos body memos) = bodySectionSpec body memos := by
  simp only [bodySectionSpec]
  congr 1
  congr 1
  · apply flatMap_congr
    intro i hi
    rw [memosAtLine_regroup body memos i (List.mem_range.1 hi)]
  · rw [unresolved_regroup]

theorem merge_regroup (body : Str) (memos : List MemoV2) (cps : List Checkpoint)
    (gs : List Gate) (cur : Option PlanCursor) :
    mergeDocument ⟨[], body, regroupMemos body memos, cps, gs, cur, []⟩ =
      mergeDocument ⟨[], body, memos, cps, gs, cur, []⟩ := by
  rw [merge_eq_spec, merge_eq_spec]
  simp only [mergeSpec]
  rw [regroup_agree]

/-! ## Truncated blocks (claim C3) -/

theorem scanStep_memoBlockTrunc (nowIso : Str) (nowMs : Nat) (acc : SplitAcc)
    (attrs : List Str) (hattrs : ∀ l ∈ attrs, jsTrim l ≠ chars ("-->")) :
    scanStep nowIso nowMs acc (chars ("<!-- USER_MEMO") :: attrs) =
      some ({ acc with memos := acc.memos ++
        [mkV4Memo nowIso nowMs acc.bodyLines (parseAttrs attrs)] }, []) := by
  have htk : takeToMarker (fun l => decide (jsTrim l = chars ("-->"))) attrs =
      (attrs, []) := by
    apply takeToMarker_none
    intro l hl
    simp only [decide_eq_false_iff_not]
    exact hattrs l hl
  have d1 : memoV3Match (jsTrim (chars ("<!-- USER_MEMO"))) = none := by decide
  have d2 : tagStartMatch (chars ("<!-- USER_MEMO")) (jsTrim (chars ("<!-- USER_MEMO"))) = true := by
    decide
  simp only [scanStep, d1, d2, if_true, htk]

/-- C3: corrected behaviour of splitDocument on a truncated USER_MEMO block.
A comment opener whose closing delimiter never appears consumes every
remaining line of the document as the block's attribute lines, synthesizes a
memo record from whatever attributes parse, and removes those lines from the
body — it does not keep them as ordinary body text.  (It does hold that the
function is total and never throws: the equation below always produces a
result.) -/
theorem C3_truncated_block (nowIso : Str) (nowMs : Nat) (pre attrs : List Str)
    (hnl : ∀ l ∈ pre ++ chars ("<!-- USER_MEMO") :: attrs, '\n' ∉ l)
    (hpre : ∀ l ∈ pre, plainLine l = true)
    (hattrs : ∀ l ∈ attrs, jsTrim l ≠ chars ("-->"))
    (hstart : strStarts (joinNl (pre ++ chars ("<!-- USER_MEMO") :: attrs))
      (chars ("---")) = false) :
    splitDocument nowIso nowMs (joinNl (pre ++ chars ("<!-- USER_MEMO") :: attrs)) =
      { frontmatter := [],
        body := joinNl (trimTrailingBlank pre),
        memos := [mkV4Memo nowIso nowMs pre (parseAttrs attrs)],
        checkpoints := [], gates := [], cursor := none, unknownComments := [] } := by
  have hfm := extractFrontmatter_none _ hstart
  have hsp : splitNl (joinNl (pre ++ chars ("<!-- USER_MEMO") :: attrs)) =
      pre ++ chars ("<!-- USER_MEMO") :: attrs :=
    splitNl_joinNl _ (by simp) hnl
  simp only [splitDocument, hfm, hsp]
  rw [scanAcc_plains nowIso nowMs pre emptyAcc _ hpre]
  rw [scanAcc_some (scanStep_memoBlockTrunc nowIso nowMs _ attrs hattrs)]
  rw [scanAcc_nil]
  simp [emptyAcc]

def c3doc : Str := chars ("x\n<!-- USER_MEMO\nid=\"m\"")

/-- C3 counterexample: on a document whose USER_MEMO opener never finds its
closer, splitDocument synthesizes a memo record from the truncated block and
drops the block's lines from the body, contradicting the claim that the block
is treated as ordinary body text and no record is synthesized. -/
theorem C3_counterexample :
    (splitDocument (chars ("T")) 0 c3doc).memos ≠ [] ∧
    (splitDocument (chars ("T")) 0 c3doc).body = chars ("x") := by decide

/-- Witness for C3_truncated_block at a concrete truncated document. -/
theorem C3_witness :
    (∀ l ∈ ([chars ("x")] : List Str) ++ chars ("<!-- USER_MEMO") :: [chars ("id=\"m\"")],
      '\n' ∉ l) ∧
    (∀ l ∈ ([chars ("x")] : List Str), plainLine l = true) ∧
    (∀ l ∈ ([chars ("id=\"m\"")] : List Str), jsTrim l ≠ chars ("-->")) ∧
    strStarts (joinNl (([chars ("x")] : List Str) ++ chars ("<!-- USER_MEMO") ::
      [chars ("id=\"m\"")])) (chars ("---")) = false ∧
    splitDocument (chars ("T")) 0 (joinNl (([chars ("x")] : List Str) ++
        chars ("<!-- USER_MEMO") :: [chars ("id=\"m\"")])) =
      { frontmatter := [],
        body := joinNl (trimTrailingBlank [chars ("x")]),
        memos := [mkV4Memo (chars ("T")) 0 [chars ("x")] (parseAttrs [chars ("id=\"m\"")])],
        checkpoints := [], gates := [], cursor := none, unknownComments := [] } :=
  ⟨by decide, by decide, by decide, by decide,
   C3_truncated_block (chars ("T")) 0 [chars ("x")] [chars ("id=\"m\"")]
     (by decide) (by decide) (by decide) (by decide)⟩

/-! ## Claim C6 -/

/-- C6: corrected emission contract of mergeDocument.  The document is the
blank-line-joined concatenation of: the trimmed frontmatter when present; the
body with each resolved memo's serialization inserted directly after its
resolved line and every unresolved memo's serialization appended at the end of
the body section (no memo is dropped); every gate in bundle order; every
checkpoint in bundle order; the cursor if present — with one final newline
character appended.  The document therefore always ends in at least one
newline, but not always exactly one: when the final section itself ends in a
newline the result ends in two (see the counterexample). -/
theorem C6_merge_emission (parts : DocumentParts) :
    mergeDocument parts = mergeSpec parts ∧
    (mergeDocument parts).getLast? = some '\n' :=
  ⟨merge_eq_spec parts, mergeDocument_getLast parts⟩

def c6parts : DocumentParts :=
  { frontmatter := [], body := chars ("a\n"), memos := [], checkpoints := [],
    gates := [], cursor := none, unknownComments := [] }

/-- C6 counterexample: a bundle whose body already ends in a newline merges to
a document ending in two newline characters, contradicting the claim that the
result always ends with exactly one trailing newline. -/
theorem C6_counterexample :
    mergeDocument c6parts = chars ("a") ++ [ '\n', '\n' ] := by decide

/-! ## Claim C1 -/

/-- C1: corrected round-trip property.  For a valid bundle (no frontmatter,
plain trailing-trimmed body not opening a frontmatter block, canonical
records), splitting the merged document reproduces the body, gates,
checkpoints and cursor exactly, and reproduces the memos as a permutation of
the bundle's memos — but ordered by resolved anchor line (unresolved memos
last), so the relative order of memos with different anchors is not
preserved; only memos sharing a resolved line keep their relative order. -/
theorem C1_roundtrip (parts : DocumentParts) (h : partsOk parts = true)
    (nowIso : Str) (nowMs : Nat) :
    splitDocument nowIso nowMs (mergeDocument parts) =
      { frontmatter := [], body := parts.body,
        memos := regroupMemos parts.body parts.memos,
        checkpoints := parts.checkpoints, gates := parts.gates,
        cursor := parts.cursor, unknownComments := [] } ∧
    (regroupMemos parts.body parts.memos).Perm parts.memos :=
  ⟨roundtrip_main parts h nowIso nowMs,
   regroup_perm parts.body parts.memos
     (fun m _ j hf => findMemoAnchorLine_lt _ m j hf)⟩

def c1m1 : MemoV2 :=
  { id := chars ("m1"), type := chars ("fix"), status := chars ("open"),
    owner := chars ("human"), source := chars ("generic"), color := chars ("red"),
    text := chars ("t1"), anchorText := chars ("b"),
    anchor := [ 'L' ] ++ natDec 2 ++ [ '|' ] ++ hashLine (chars ("b")),
    createdAt := chars ("T"), updatedAt := chars ("T") }

def c1m2 : MemoV2 :=
  { id := chars ("m2"), type := chars ("fix"), status := chars ("open"),
    owner := chars ("human"), source := chars ("generic"), color := chars ("red"),
    text := chars ("t2"), anchorText := chars ("a"),
    anchor := [ 'L' ] ++ natDec 1 ++ [ '|' ] ++ hashLine (chars ("a")),
    createdAt := chars ("T"), updatedAt := chars ("T") }

def c1parts : DocumentParts :=
  { frontmatter := [], body := chars ("a\nb"), memos := [c1m1, c1m2],
    checkpoints := [], gates := [], cursor := none, unknownComments := [] }

/-- C1 counterexample: two memos anchored to different lines, listed in the
bundle as [c1m1 (line 2), c1m2 (line 1)], come back from split∘merge as
[c1m2, c1m1] — the relative order of memos that do not share an anchor is
reversed, contradicting the claim that memo order may differ only in how
memos sharing an anchor interleave. -/
theorem C1_counterexample :
    c1parts.memos = [c1m1, c1m2] ∧
    (splitDocument (chars ("T")) 0 (mergeDocument c1parts)).memos = [c1m2, c1m1] ∧
    c1m1 ≠ c1m2 ∧
    findMemoAnchorLine (splitNl c1parts.body) c1m1 ≠
      findMemoAnchorLine (splitNl c1parts.body) c1m2 := by decide

def c1wm : MemoV2 :=
  { id := chars ("m"), type := chars ("fix"), status := chars ("open"),
    owner := chars ("human"), source := chars ("generic"), color := chars ("red"),
    text := chars ("t"), anchorText := chars ("a"), anchor := [],
    createdAt := chars ("T"), updatedAt := chars ("T") }

def c1wparts : DocumentParts :=
  { frontmatter := [], body := chars ("a"), memos := [c1wm], checkpoints := [],
    gates := [], cursor := none, unknownComments := [] }

/-- Witness for C1_roundtrip at a concrete valid bundle. -/
theorem C1_witness :
    partsOk c1wparts = true ∧
    (splitDocument (chars ("T")) 0 (mergeDocument c1wparts) =
      { frontmatter := [], body := c1wparts.body,
        memos := regroupMemos c1wparts.body c1wparts.memos,
        checkpoints := c1wparts.checkpoints, gates := c1wparts.gates,
        cursor := c1wparts.cursor, unknownComments := [] } ∧
    (regroupMemos c1wparts.body c1wparts.memos).Perm c1wparts.memos) :=
  ⟨by decide, C1_roundtrip c1wparts (by decide) (chars ("T")) 0⟩

/-! ## Claim C8 -/

/-- C8: corrected idempotence.  One split/merge round trip is a fixed point
of a second whenever the FIRST split already yields a valid bundle (partsOk):
canonical records with, in particular, a non-empty anchorText on every memo.
Without that condition a second round trip can differ, because split derives
an empty anchorText field from the body lines accumulated so far, and merge
moves memo blocks to their resolved lines (see the counterexample). -/
theorem C8_idempotent (nowIso : Str) (nowMs : Nat) (nowIso2 : Str) (nowMs2 : Nat)
    (t : Str) (h : partsOk (splitDocument nowIso nowMs t) = true) :
    mergeDocument (splitDocument nowIso2 nowMs2
        (mergeDocument (splitDocument nowIso nowMs t))) =
      mergeDocument (splitDocument nowIso nowMs t) := by
  generalize hg : splitDocument nowIso nowMs t = P at h ⊢
  obtain ⟨fm, body, memos, cps, gs, cur, unk⟩ := P
  have hfm : fm = [] := by
    simp only [partsOk, Bool.and_eq_true] at h
    simpa using h.1.1.1.1.1.1.1.1
  have hunk : unk = [] := by
    simp only [partsOk, Bool.and_eq_true] at h
    simpa using h.2
  subst hfm
  subst hunk
  rw [roundtrip_main ⟨[], body, memos, cps, gs, cur, []⟩ h nowIso2 nowMs2]
  exact merge_regroup body memos cps gs cur

def c8t : Str := joinNl
  [ chars ("<!-- USER_MEMO"), chars ("  id=\"m\""), chars ("  type=\"fix\""),
    chars ("  status=\"open\""), chars ("  owner=\"human\""),
    chars ("  source=\"generic\""), chars ("  color=\"red\""),
    chars ("  text=\"t\""), chars ("  anchorText=\"\""),
    chars ("  anchor=\"L2|") ++ hashLine (chars ("X")) ++ [ '"' ],
    chars ("  createdAt=\"T\""), chars ("  updatedAt=\"T\""), chars ("-->"),
    [], chars ("X") ]

/-- C8 counterexample: a text whose single comment is a canonical v0.4
USER_MEMO block (with an empty anchorText attribute and a machine anchor
resolving to a later body line) is not idempotent under split/merge: the
second round trip re-derives a non-empty anchorText from the lines above the
relocated block, so the two merged documents differ. -/
theorem C8_counterexample :
    mergeDocument (splitDocument (chars ("T")) 0
        (mergeDocument (splitDocument (chars ("T")) 0 c8t))) ≠
      mergeDocument (splitDocument (chars ("T")) 0 c8t) := by decide

def c8w : Str := joinNl
  [ chars ("X"), chars ("<!-- USER_MEMO"), chars ("  id=\"m\""),
    chars ("  type=\"fix\""), chars ("  status=\"open\""),
    chars ("  owner=\"human\""), chars ("  source=\"generic\""),
    chars ("  color=\"red\""), chars ("  text=\"t\""),
    chars ("  anchorText=\"X\""), chars ("  anchor=\"\""),
    chars ("  createdAt=\"T\""), chars ("  updatedAt=\"T\""), chars ("-->") ]

/-- Witness for C8_idempotent at a concrete canonical document. -/
theorem C8_witness :
    partsOk (splitDocument (chars ("T")) 0 c8w) = true ∧
    mergeDocument (splitDocument (chars ("T")) 0
        (mergeDocument (splitDocument (chars ("T")) 0 c8w))) =
      mergeDocument (splitDocument (chars ("T")) 0 c8w) :=
  ⟨by decide, C8_idempotent (chars ("T")) 0 (chars ("T")) 0 c8w (by decide)⟩
